import Mathlib

/-!
Verification of the OpenCore config.plist text-patching engine of this
repository (the `inject-config` handler and its helpers).  The engine keeps
the plist document as a raw string and mutates it with JavaScript regex
replacements; we embed the document as `List Char` and each regex used by the
code as an explicit character-level matcher with JavaScript semantics
(leftmost match, non-overlapping global replacement, lazy quantifiers with
backtracking, `.` not matching line terminators unless the `s` flag is set,
`\s` matching the JavaScript whitespace class).
-/

namespace SurfacePatch

set_option maxRecDepth 100000

/-- Abbreviation used to write documents and patterns as string literals. -/
def lit (s : String) : List Char := s.data

/-- The JavaScript `\s` character class (whitespace as matched by the
regexes in the patch engine). -/
def isWs (c : Char) : Bool :=
  c = ' ' || c = '\t' || c = '\n' || c = '\r' || c = '\x0b' || c = '\x0c' ||
  c = '\u00A0' || c = '\u1680' ||
  ('\u2000' ≤ c && c ≤ '\u200A') ||
  c = '\u2028' || c = '\u2029' || c = '\u202F' || c = '\u205F' ||
  c = '\u3000' || c = '\uFEFF'

/-- JavaScript line terminators: the characters not matched by `.` when the
`s` (dotAll) flag is absent. -/
def isLineTerm (c : Char) : Bool :=
  c = '\n' || c = '\r' || c = '\u2028' || c = '\u2029'

/-- Match a literal pattern at the head of the input; on success return the
remaining input. -/
def stripPre : List Char → List Char → Option (List Char)
  | [], s => some s
  | _ :: _, [] => none
  | p :: ps, c :: cs => if c = p then stripPre ps cs else none

theorem stripPre_eq_some {p s r : List Char} :
    stripPre p s = some r ↔ s = p ++ r := by
  induction p generalizing s with
  | nil => cases s <;> simp [stripPre]
  | cons q qs ih =>
    cases s with
    | nil => simp [stripPre]
    | cons c cs =>
      by_cases h : c = q
      · subst h
        simp only [stripPre, if_pos rfl, List.cons_append, List.cons.injEq,
          true_and]
        exact ih
      · simp [stripPre, h, Ne.symm h]

theorem stripPre_self (p s : List Char) : stripPre p (p ++ s) = some s :=
  stripPre_eq_some.mpr rfl

/-- Lazy scan implementing `(.*?)` followed by a literal pattern, with `.`
excluding line terminators: find the shortest line-terminator-free prefix
after which `pat` matches; return that prefix and the input remaining after
`pat`. -/
def lazyDotUntil (pat : List Char) : List Char → Option (List Char × List Char)
  | [] =>
    match stripPre pat [] with
    | some r => some ([], r)
    | none => none
  | c :: cs =>
    match stripPre pat (c :: cs) with
    | some r => some ([], r)
    | none =>
      if isLineTerm c then none
      else
        match lazyDotUntil pat cs with
        | some (content, r) => some (c :: content, r)
        | none => none

/-- Lazy scan implementing `([\s\S]*?)` followed by a literal pattern (the
dotAll variant): find the shortest prefix after which `pat` matches. -/
def lazyAnyUntil (pat : List Char) : List Char → Option (List Char × List Char)
  | [] =>
    match stripPre pat [] with
    | some r => some ([], r)
    | none => none
  | c :: cs =>
    match stripPre pat (c :: cs) with
    | some r => some ([], r)
    | none =>
      match lazyAnyUntil pat cs with
      | some (content, r) => some (c :: content, r)
      | none => none

/-- Unfolding: when the pattern matches at the current position the lazy
scan stops with empty content. -/
theorem lazyDotUntil_of_pre {pat s w : List Char} (h : stripPre pat s = some w) :
    lazyDotUntil pat s = some ([], w) := by
  cases s with
  | nil => simp [lazyDotUntil, h]
  | cons c cs => simp [lazyDotUntil, h]

theorem lazyAnyUntil_of_pre {pat s w : List Char} (h : stripPre pat s = some w) :
    lazyAnyUntil pat s = some ([], w) := by
  cases s with
  | nil => simp [lazyAnyUntil, h]
  | cons c cs => simp [lazyAnyUntil, h]

/-- Unfolding: when the pattern does not match at the current position and the
head is not a line terminator, the lazy scan consumes one character. -/
theorem lazyDotUntil_cons {pat : List Char} {c : Char} {cs : List Char}
    (h1 : stripPre pat (c :: cs) = none) (h2 : ¬ isLineTerm c) :
    lazyDotUntil pat (c :: cs) =
      (lazyDotUntil pat cs).map (fun p => (c :: p.1, p.2)) := by
  simp only [lazyDotUntil, h1, if_neg h2]
  cases lazyDotUntil pat cs with
  | none => rfl
  | some p => cases p; rfl

theorem lazyAnyUntil_cons {pat : List Char} {c : Char} {cs : List Char}
    (h1 : stripPre pat (c :: cs) = none) :
    lazyAnyUntil pat (c :: cs) =
      (lazyAnyUntil pat cs).map (fun p => (c :: p.1, p.2)) := by
  simp only [lazyAnyUntil, h1]
  cases lazyAnyUntil pat cs with
  | none => rfl
  | some p => cases p; rfl

/-- Soundness of the lazy scan: a successful scan decomposes the input and the
content contains no line terminator. -/
theorem lazyDotUntil_eq_some {pat s content r : List Char}
    (h : lazyDotUntil pat s = some (content, r)) :
    s = content ++ pat ++ r ∧ ∀ c ∈ content, ¬ isLineTerm c := by
  induction s generalizing content with
  | nil =>
    simp only [lazyDotUntil] at h
    cases hp : stripPre pat ([] : List Char) with
    | none => rw [hp] at h; exact absurd h (by simp)
    | some w =>
      rw [hp] at h
      simp only [Option.some.injEq, Prod.mk.injEq] at h
      obtain ⟨h1, h2⟩ := h
      subst h1; subst h2
      exact ⟨by simpa using stripPre_eq_some.mp hp, by simp⟩
  | cons c cs ih =>
    simp only [lazyDotUntil] at h
    cases hp : stripPre pat (c :: cs) with
    | some w =>
      rw [hp] at h
      simp only [Option.some.injEq, Prod.mk.injEq] at h
      obtain ⟨h1, h2⟩ := h
      subst h1; subst h2
      exact ⟨by simpa using stripPre_eq_some.mp hp, by simp⟩
    | none =>
      rw [hp] at h
      by_cases hlt : isLineTerm c
      · simp [hlt] at h
      · rw [if_neg hlt] at h
        cases hrec : lazyDotUntil pat cs with
        | none => rw [hrec] at h; exact absurd h (by simp)
        | some w =>
          obtain ⟨content', r'⟩ := w
          rw [hrec] at h
          simp only [Option.some.injEq, Prod.mk.injEq] at h
          obtain ⟨h1, h2⟩ := h
          subst h2
          obtain ⟨e1, e2⟩ := ih hrec
          subst h1
          constructor
          · simp [e1]
          · intro x hx
            rcases List.mem_cons.mp hx with hx | hx
            · subst hx; simpa using hlt
            · exact e2 x hx

theorem lazyAnyUntil_eq_some {pat s content r : List Char}
    (h : lazyAnyUntil pat s = some (content, r)) :
    s = content ++ pat ++ r := by
  induction s generalizing content with
  | nil =>
    simp only [lazyAnyUntil] at h
    cases hp : stripPre pat ([] : List Char) with
    | none => rw [hp] at h; exact absurd h (by simp)
    | some w =>
      rw [hp] at h
      simp only [Option.some.injEq, Prod.mk.injEq] at h
      obtain ⟨h1, h2⟩ := h
      subst h1; subst h2
      simpa using stripPre_eq_some.mp hp
  | cons c cs ih =>
    simp only [lazyAnyUntil] at h
    cases hp : stripPre pat (c :: cs) with
    | some w =>
      rw [hp] at h
      simp only [Option.some.injEq, Prod.mk.injEq] at h
      obtain ⟨h1, h2⟩ := h
      subst h1; subst h2
      simpa using stripPre_eq_some.mp hp
    | none =>
      rw [hp] at h
      cases hrec : lazyAnyUntil pat cs with
      | none => rw [hrec] at h; exact absurd h (by simp)
      | some w =>
        obtain ⟨content', r'⟩ := w
        rw [hrec] at h
        simp only [Option.some.injEq, Prod.mk.injEq] at h
        obtain ⟨h1, h2⟩ := h
        subst h2; subst h1
        simp [ih hrec]

/-- Completeness of the lazy scan: if the content avoids the pattern head
character and line terminators, the scan stops exactly at `pat`. -/
theorem lazyDotUntil_complete {q : Char} {qs content r : List Char}
    (hq : ∀ c ∈ content, c ≠ q) (hlt : ∀ c ∈ content, ¬ isLineTerm c) :
    lazyDotUntil (q :: qs) (content ++ (q :: qs) ++ r) = some (content, r) := by
  induction content with
  | nil =>
    have : lazyDotUntil (q :: qs) ((q :: qs) ++ r) = some ([], r) :=
      lazyDotUntil_of_pre (stripPre_self _ _)
    simpa using this
  | cons c cs ih =>
    have hne : c ≠ q := hq c (by simp)
    have h1 : stripPre (q :: qs) (c :: (cs ++ (q :: qs) ++ r)) = none := by
      simp [stripPre, hne]
    have h2 : ¬ isLineTerm c := hlt c (by simp)
    have step := lazyDotUntil_cons h1 h2
    have hrec := ih (fun x hx => hq x (by simp [hx])) (fun x hx => hlt x (by simp [hx]))
    rw [show (c :: cs) ++ (q :: qs) ++ r = c :: (cs ++ (q :: qs) ++ r) by simp]
    rw [step, hrec]
    rfl

theorem lazyAnyUntil_complete {q : Char} {qs content r : List Char}
    (hq : ∀ c ∈ content, c ≠ q) :
    lazyAnyUntil (q :: qs) (content ++ (q :: qs) ++ r) = some (content, r) := by
  induction content with
  | nil =>
    have : lazyAnyUntil (q :: qs) ((q :: qs) ++ r) = some ([], r) :=
      lazyAnyUntil_of_pre (stripPre_self _ _)
    simpa using this
  | cons c cs ih =>
    have hne : c ≠ q := hq c (by simp)
    have h1 : stripPre (q :: qs) (c :: (cs ++ (q :: qs) ++ r)) = none := by
      simp [stripPre, hne]
    have step := lazyAnyUntil_cons h1
    have hrec := ih (fun x hx => hq x (by simp [hx]))
    rw [show (c :: cs) ++ (q :: qs) ++ r = c :: (cs ++ (q :: qs) ++ r) by simp]
    rw [step, hrec]
    rfl

/-- Greedy `\\s*`: split off the maximal whitespace prefix. -/
def wsTake (s : List Char) : List Char := s.takeWhile isWs

def wsDrop (s : List Char) : List Char := s.dropWhile isWs

theorem wsTake_append_wsDrop (s : List Char) : wsTake s ++ wsDrop s = s := by
  unfold wsTake wsDrop
  exact List.takeWhile_append_dropWhile isWs s

theorem wsTake_all (s : List Char) : ∀ c ∈ wsTake s, isWs c :=
  fun _ h => List.mem_takeWhile_imp h

/-- Splitting at an explicit whitespace block: if `ws` is all whitespace and
`rest` starts with a non-whitespace character, the greedy scan consumes
exactly `ws`. -/
theorem wsTake_split {ws : List Char} {c : Char} {rest : List Char}
    (hws : ∀ x ∈ ws, isWs x) (hc : ¬ isWs c) :
    wsTake (ws ++ c :: rest) = ws ∧ wsDrop (ws ++ c :: rest) = c :: rest := by
  induction ws with
  | nil =>
    simp only [List.nil_append]
    constructor
    · simp [wsTake, List.takeWhile_cons, hc]
    · simp [wsDrop, List.dropWhile_cons, hc]
  | cons w wsr ih =>
    have hw : isWs w := hws w (by simp)
    obtain ⟨ih1, ih2⟩ := ih (fun x hx => hws x (by simp [hx]))
    constructor
    · simp only [List.cons_append, wsTake, List.takeWhile_cons, hw,
        if_pos, List.cons.injEq, true_and]
      exact ih1
    · simp only [List.cons_append, wsDrop, List.dropWhile_cons, hw, if_pos]
      exact ih2

/-- A find function for the generic replacement scanner: at the current
position, either fail or return the full replacement text for the match
together with the input remaining after the matched span. -/
def Find : Type := List Char → Option (List Char × List Char)

/-- A find function is consuming when every match consumes at least one
character; all regexes in the patch engine start with a literal `<`, so all
their matchers are consuming. -/
def Consuming (f : Find) : Prop :=
  ∀ s r rest, f s = some (r, rest) → rest.length < s.length

/-- Fuel-indexed scanner implementing JavaScript `String.replace`: scan left
to right; at each position try the matcher; on a match emit the replacement
and continue after the matched span (only when `g`, the global flag, is set;
otherwise the remainder is copied verbatim).  The fuel only bounds recursion
depth; `applyRule` always supplies enough. -/
def applyRuleF (f : Find) (g : Bool) : Nat → List Char → List Char
  | _, [] => []
  | 0, s => s
  | fuel + 1, c :: cs =>
    match f (c :: cs) with
    | some (r, rest) => r ++ (if g then applyRuleF f g fuel rest else rest)
    | none => c :: applyRuleF f g fuel cs

/-- JavaScript `String.replace` with the given matcher: `g` selects
global (replace-all) or first-match-only semantics. -/
def applyRule (f : Find) (g : Bool) (s : List Char) : List Char :=
  applyRuleF f g s.length s

theorem applyRuleF_congr {f : Find} (hf : Consuming f) (g : Bool) :
    ∀ f1 f2 s, s.length ≤ f1 → s.length ≤ f2 →
      applyRuleF f g f1 s = applyRuleF f g f2 s := by
  intro f1
  induction f1 using Nat.strong_induction_on with
  | _ f1 ih =>
    intro f2 s h1 h2
    cases s with
    | nil => cases f1 <;> cases f2 <;> rfl
    | cons c cs =>
      cases f1 with
      | zero => exact absurd h1 (by simp)
      | succ f1p =>
        cases f2 with
        | zero => exact absurd h2 (by simp)
        | succ f2p =>
          simp only [applyRuleF]
          cases hm : f (c :: cs) with
          | some pr =>
            obtain ⟨r, rest⟩ := pr
            have hlen := hf _ _ _ hm
            simp only [List.length_cons] at h1 h2 hlen
            cases g with
            | false => rfl
            | true =>
              have e1 := ih rest.length (by omega) f1p rest (le_refl _) (by omega)
              have e2 := ih rest.length (by omega) f2p rest (le_refl _) (by omega)
              simp only [← e1, ← e2]
          | none =>
            simp only [List.length_cons] at h1 h2
            have e1 := ih cs.length (by omega) f1p cs (le_refl _) (by omega)
            have e2 := ih cs.length (by omega) f2p cs (le_refl _) (by omega)
            simp only [← e1, ← e2]

theorem applyRule_nil (f : Find) (g : Bool) : applyRule f g [] = [] := rfl

/-- Unfolding: a match at the head emits the replacement. -/
theorem applyRule_head_some {f : Find} (hf : Consuming f) {g : Bool}
    {s r rest : List Char} (h : f s = some (r, rest)) :
    applyRule f g s = r ++ (if g then applyRule f g rest else rest) := by
  have hlen := hf _ _ _ h
  cases s with
  | nil => simp at hlen
  | cons c cs =>
    show applyRuleF f g (c :: cs).length (c :: cs) = _
    simp only [List.length_cons, applyRuleF, h]
    cases g with
    | false => rfl
    | true =>
      have : applyRuleF f true cs.length rest = applyRuleF f true rest.length rest := by
        refine applyRuleF_congr hf true cs.length rest.length rest ?_ (le_refl _)
        simp only [List.length_cons] at hlen; omega
      simp [applyRule, this]

/-- Unfolding: no match at the head copies one character. -/
theorem applyRule_head_none {f : Find} {g : Bool}
    {c : Char} {cs : List Char} (h : f (c :: cs) = none) :
    applyRule f g (c :: cs) = c :: applyRule f g cs := by
  show applyRuleF f g (c :: cs).length (c :: cs) = _
  simp only [List.length_cons, applyRuleF, h]
  rfl

/-- A document in which the matcher fails at every suffix is left unchanged. -/
theorem applyRule_of_no_match {f : Find} {g : Bool}
    {s : List Char} (h : ∀ n, f (s.drop n) = none) :
    applyRule f g s = s := by
  induction s with
  | nil => rfl
  | cons c cs ih =>
    have h0 : f (c :: cs) = none := by simpa using h 0
    rw [applyRule_head_none h0]
    rw [ih (fun n => by simpa using h (n + 1))]

/-- Skip lemma: if the matcher fails at every position strictly inside the
prefix `a`, the scanner copies `a` verbatim and continues on the suffix. -/
theorem applyRule_append {f : Find} {g : Bool}
    (a b : List Char) (h : ∀ n < a.length, f ((a ++ b).drop n) = none) :
    applyRule f g (a ++ b) = a ++ applyRule f g b := by
  induction a with
  | nil => rfl
  | cons c cs ih =>
    have h0 : f (c :: (cs ++ b)) = none := by simpa using h 0 (by simp)
    rw [List.cons_append, applyRule_head_none h0]
    have := ih (fun n hn => by simpa using h (n + 1) (by simpa using hn))
    rw [this]
    rfl

/-- The literal `<key>Name</key>` element. -/
def keyTok (k : List Char) : List Char := lit "<key>" ++ k ++ lit "</key>"

/-- The literal `<string>Name</string>` element (the marker form used by the
kext toggle). -/
def strTok (m : List Char) : List Char := lit "<string>" ++ m ++ lit "</string>"

/-- Rendering of the boolean tag written by the toggles. -/
def boolTag (b : Bool) : List Char := if b then lit "<true/>" else lit "<false/>"

/-- Matcher for `(<key>K</key>\\s*<open>)(.*?)(</close>)` (the regex of
`replaceStringValue` and `setInteger` in the handler): on success returns the
replacement `$1 value $3` and the input remaining after the match. -/
def findKeyTagged (k openT closeT value : List Char) (s : List Char) :
    Option (List Char × List Char) :=
  match stripPre (keyTok k) s with
  | none => none
  | some s1 =>
    match stripPre openT (wsDrop s1) with
    | none => none
    | some s3 =>
      match lazyDotUntil closeT s3 with
      | none => none
      | some (_, rest) =>
        some (keyTok k ++ wsTake s1 ++ openT ++ value ++ closeT, rest)

/-- The handler's `replaceStringValue`: global regex replacement of
`(<key>K</key>\\s*<string>)(.*?)(</string>)` by `$1 value $3`. -/
def replaceStringValue (key value doc : List Char) : List Char :=
  applyRule (findKeyTagged key (lit "<string>") (lit "</string>") value) true doc

/-- The handler's `setInteger`: global regex replacement of
`(<key>K</key>\\s*<integer>)(.*?)(</integer>)` by `$1 val $3`, with the
JavaScript number rendered in decimal. -/
def setInteger (key : List Char) (val : Int) (doc : List Char) : List Char :=
  applyRule (findKeyTagged key (lit "<integer>") (lit "</integer>")
    (lit (toString val))) true doc

/-- Matcher for `(<key>K</key>\\s*)<(true|false)\\/>` used by `toggleBool`. -/
def findKeyBool (k : List Char) (v : Bool) (s : List Char) :
    Option (List Char × List Char) :=
  match stripPre (keyTok k) s with
  | none => none
  | some s1 =>
    match stripPre (lit "<true/>") (wsDrop s1) with
    | some rest => some (keyTok k ++ wsTake s1 ++ boolTag v, rest)
    | none =>
      match stripPre (lit "<false/>") (wsDrop s1) with
      | some rest => some (keyTok k ++ wsTake s1 ++ boolTag v, rest)
      | none => none

/-- The handler's `toggleBool`.  The source guards the global replacement with
`regex.test`, which only affects logging: when the regex has no match the
replacement is the identity, so the guard is semantically redundant and the
model applies the global replacement directly. -/
def toggleBool (key : List Char) (enabled : Bool) (doc : List Char) : List Char :=
  applyRule (findKeyBool key enabled) true doc

/-- Tail matcher for the kext-toggle regex: `<key>Enabled<\\/key>\\s*<.*?\\/>`
at the current position; returns the part of capture group 1 it contributes
(`<key>Enabled</key>` plus the whitespace) and the input after the match. -/
def enabledAt (s : List Char) : Option (List Char × List Char) :=
  match stripPre (lit "<key>Enabled</key>") s with
  | none => none
  | some s1 =>
    match stripPre (lit "<") (wsDrop s1) with
    | none => none
    | some s3 =>
      match lazyDotUntil (lit "/>") s3 with
      | none => none
      | some (_, rest) => some (lit "<key>Enabled</key>" ++ wsTake s1, rest)

/-- Lazy bounded gap `[\\s\\S]{0,500}?` before the `Enabled` tail: try the
tail at the current position, then with a gap of 1, 2, ... up to the budget
(500 at the call site), exactly like the backtracking regex engine. -/
def kextScan : Nat → List Char → Option (List Char × List Char × List Char)
  | 0, s =>
    match enabledAt s with
    | some (g1t, rest) => some ([], g1t, rest)
    | none => none
  | b + 1, s =>
    match enabledAt s with
    | some (g1t, rest) => some ([], g1t, rest)
    | none =>
      match s with
      | [] => none
      | c :: cs =>
        match kextScan b cs with
        | some (gap, g1t, rest) => some (c :: gap, g1t, rest)
        | none => none

/-- Matcher for the kext-toggle regex
`(<string>NAME<\\/string>[\\s\\S]{0,500}?<key>Enabled<\\/key>\\s*)<.*?\\/>`.
The kext name is treated as literal text; the source interpolates it into the
regex unescaped, where the `.` of `.kext` can also match any character, but
every call site passes a literal bundle filename. -/
def findKext (m : List Char) (v : Bool) (s : List Char) :
    Option (List Char × List Char) :=
  match stripPre (strTok m) s with
  | none => none
  | some s1 =>
    match kextScan 500 s1 with
    | none => none
    | some (gap, g1t, rest) => some (strTok m ++ gap ++ g1t ++ boolTag v, rest)

/-- The handler's `toggleKext`: global replacement (the regex carries the `g`
flag), with the `regex.test` guard again only affecting logging. -/
def toggleKext (kextName : List Char) (shouldEnable : Bool) (doc : List Char) :
    List Char :=
  applyRule (findKext kextName shouldEnable) true doc

/-- JavaScript `String.includes`. -/
def hasSub (pat : List Char) : List Char → Bool
  | [] => (stripPre pat []).isSome
  | c :: cs => (stripPre pat (c :: cs)).isSome || hasSub pat cs

/-- JavaScript `String.startsWith`. -/
def startsWith (pat s : List Char) : Bool := (stripPre pat s).isSome

/-- JavaScript `replace(/\\s+/g, ' ')`: every maximal whitespace run becomes a
single space. -/
def collapseWs : List Char → List Char
  | [] => []
  | [c] => if isWs c then [' '] else [c]
  | c1 :: c2 :: cs =>
    if isWs c1 && isWs c2 then collapseWs (c2 :: cs)
    else (if isWs c1 then ' ' else c1) :: collapseWs (c2 :: cs)

/-- JavaScript `String.trim`. -/
def trimWs (s : List Char) : List Char :=
  (((s.dropWhile isWs).reverse).dropWhile isWs).reverse

/-- JavaScript `String.replace` with a plain (non-empty) string pattern:
remove the first occurrence. -/
def removeFirst (pat : List Char) : List Char → List Char
  | [] => []
  | c :: cs =>
    match stripPre pat (c :: cs) with
    | some rest => rest
    | none => c :: removeFirst pat cs

/-- The boot-args token computation of the handler's `patchContent`: append
`debug=0x100`, `keepsyms=1` and `-v` unless already present as substrings
(`String.includes`), then collapse whitespace runs and trim. -/
def mergeTokens (cur : List Char) : List Char :=
  let a1 := if hasSub (lit "debug=0x100") cur then cur else cur ++ lit " debug=0x100"
  let a2 := if hasSub (lit "keepsyms=1") a1 then a1 else a1 ++ lit " keepsyms=1"
  let a3 := if hasSub (lit "-v") a2 then a2 else a2 ++ lit " -v"
  trimWs (collapseWs a3)

/-- Matcher for `(<key>boot-args<\\/key>\\s*<string>)(.*?)(<\\/string>)` with
the `s` (dotAll) flag, producing the merged replacement. -/
def findBootArgs (s : List Char) : Option (List Char × List Char) :=
  match stripPre (keyTok (lit "boot-args")) s with
  | none => none
  | some s1 =>
    match stripPre (lit "<string>") (wsDrop s1) with
    | none => none
    | some s3 =>
      match lazyAnyUntil (lit "</string>") s3 with
      | none => none
      | some (cur, rest) =>
        some (keyTok (lit "boot-args") ++ wsTake s1 ++ lit "<string>" ++
          mergeTokens cur ++ lit "</string>", rest)

/-- The boot-args step of `patchContent`: the source extracts the first match,
computes the merged value and performs the (non-global) replacement only when
the value changed; replacing the first match with identical bytes yields the
same document, so the model always performs the first-match replacement. -/
def mergeBootArgs (doc : List Char) : List Char := applyRule findBootArgs false doc

/-- The boot-args handling of the `inject-config` handler in
`electron/main.js`: `-v` is appended when `verbose` is requested and absent
as a substring, and the first `-v` occurrence is removed (with whitespace
collapse and trim) when verbose is off; otherwise the value is unchanged. -/
def mainMergeArgs (verbose : Bool) (cur : List Char) : List Char :=
  let hasV := hasSub (lit "-v") cur
  if verbose && !hasV then cur ++ lit " -v"
  else if !verbose && hasV then trimWs (collapseWs (removeFirst (lit "-v") cur))
  else cur

/-- The canonical drivers block literal of the handler (verbatim, tabs and
newlines included). -/
def driversBlock : List Char :=
  lit "\t\t<key>Drivers</key>\n\t\t<array>\n\t\t\t<dict>\n\t\t\t\t<key>Arguments</key>\n\t\t\t\t<string></string>\n\t\t\t\t<key>Comment</key>\n\t\t\t\t<string></string>\n\t\t\t\t<key>Enabled</key>\n\t\t\t\t<true/>\n\t\t\t\t<key>LoadEarly</key>\n\t\t\t\t<true/>\n\t\t\t\t<key>Path</key>\n\t\t\t\t<string>ExFatDxe.efi</string>\n\t\t\t</dict>\n\t\t\t<dict>\n\t\t\t\t<key>Arguments</key>\n\t\t\t\t<string></string>\n\t\t\t\t<key>Comment</key>\n\t\t\t\t<string></string>\n\t\t\t\t<key>Enabled</key>\n\t\t\t\t<true/>\n\t\t\t\t<key>LoadEarly</key>\n\t\t\t\t<true/>\n\t\t\t\t<key>Path</key>\n\t\t\t\t<string>HfsPlus.efi</string>\n\t\t\t</dict>\n\t\t\t<dict>\n\t\t\t\t<key>Arguments</key>\n\t\t\t\t<string></string>\n\t\t\t\t<key>Comment</key>\n\t\t\t\t<string></string>\n\t\t\t\t<key>Enabled</key>\n\t\t\t\t<true/>\n\t\t\t\t<key>LoadEarly</key>\n\t\t\t\t<false/>\n\t\t\t\t<key>Path</key>\n\t\t\t\t<string>OpenRuntime.efi</string>\n\t\t\t</dict>\n\t\t\t<dict>\n\t\t\t\t<key>Arguments</key>\n\t\t\t\t<string></string>\n\t\t\t\t<key>Comment</key>\n\t\t\t\t<string></string>\n\t\t\t\t<key>Enabled</key>\n\t\t\t\t<true/>\n\t\t\t\t<key>LoadEarly</key>\n\t\t\t\t<false/>\n\t\t\t\t<key>Path</key>\n\t\t\t\t<string>OpenCanopy.efi</string>\n\t\t\t</dict>\n\t\t\t<dict>\n\t\t\t\t<key>Arguments</key>\n\t\t\t\t<string></string>\n\t\t\t\t<key>Comment</key>\n\t\t\t\t<string></string>\n\t\t\t\t<key>Enabled</key>\n\t\t\t\t<true/>\n\t\t\t\t<key>LoadEarly</key>\n\t\t\t\t<false/>\n\t\t\t\t<key>Path</key>\n\t\t\t\t<string>ResetNvramEntry.efi</string>\n\t\t\t</dict>\n\t\t\t<dict>\n\t\t\t\t<key>Arguments</key>\n\t\t\t\t<string></string>\n\t\t\t\t<key>Comment</key>\n\t\t\t\t<string></string>\n\t\t\t\t<key>Enabled</key>\n\t\t\t\t<true/>\n\t\t\t\t<key>LoadEarly</key>\n\t\t\t\t<false/>\n\t\t\t\t<key>Path</key>\n\t\t\t\t<string>ToggleSipEntry.efi</string>\n\t\t\t</dict>\n\t\t</array>"

/-- Matcher for `/<key>Drivers<\\/key>\\s*<array>[\\s\\S]*?<\\/array>/`
(no capture groups; the whole match is replaced by the literal block). -/
def findDrivers (s : List Char) : Option (List Char × List Char) :=
  match stripPre (keyTok (lit "Drivers")) s with
  | none => none
  | some s1 =>
    match stripPre (lit "<array>") (wsDrop s1) with
    | none => none
    | some s3 =>
      match lazyAnyUntil (lit "</array>") s3 with
      | none => none
      | some (_, rest) => some (driversBlock, rest)

/-- The drivers-block synchronization step: non-global replacement of the
first `Drivers` array (the source's `test` guard is again redundant for the
document value). -/
def driversReplace (doc : List Char) : List Char := applyRule findDrivers false doc

/-- Matcher for `/(<key>HideAuxiliary<\\/key>\\s*)<true\\/>/`. -/
def findHideAux (s : List Char) : Option (List Char × List Char) :=
  match stripPre (keyTok (lit "HideAuxiliary")) s with
  | none => none
  | some s1 =>
    match stripPre (lit "<true/>") (wsDrop s1) with
    | none => none
    | some rest => some (keyTok (lit "HideAuxiliary") ++ wsTake s1 ++ lit "<false/>", rest)

/-- The HideAuxiliary step: guarded by `String.includes` on the key, then a
first-match replacement. -/
def hideAux (doc : List Char) : List Char :=
  if hasSub (keyTok (lit "HideAuxiliary")) doc then applyRule findHideAux false doc
  else doc

/-- SMBIOS values passed to the handler.  The source tests JavaScript
truthiness (`if (smbios.serial)`), which skips absent fields; absent or empty
fields are modelled as `none`. -/
structure Smbios where
  serial : Option (List Char)
  mlb : Option (List Char)
  uuid : Option (List Char)

/-- The WiFi kext selection step of `patchContent`: disable all six
version-tagged AirportItlwm variants, then enable the variant selected by the
`macosVersion` prefix tests (Sonoma and Sequoia both map to the Sonoma144
build). -/
def kextSelection (mv : List Char) (doc : List Char) : List Char :=
  let p := toggleKext (lit "AirportItlwm-Catalina.kext") false doc
  let p := toggleKext (lit "AirportItlwm-BigSur.kext") false p
  let p := toggleKext (lit "AirportItlwm-Monterey.kext") false p
  let p := toggleKext (lit "AirportItlwm-Ventura.kext") false p
  let p := toggleKext (lit "AirportItlwm-Sonoma.kext") false p
  let p := toggleKext (lit "AirportItlwm-Sonoma144.kext") false p
  if startsWith (lit "Catalina") mv || startsWith (lit "10.15") mv then
    toggleKext (lit "AirportItlwm-Catalina.kext") true p
  else if startsWith (lit "Big Sur") mv || startsWith (lit "11.") mv then
    toggleKext (lit "AirportItlwm-BigSur.kext") true p
  else if startsWith (lit "Monterey") mv || startsWith (lit "12.") mv then
    toggleKext (lit "AirportItlwm-Monterey.kext") true p
  else if startsWith (lit "Ventura") mv || startsWith (lit "13.") mv then
    toggleKext (lit "AirportItlwm-Ventura.kext") true p
  else if startsWith (lit "Sonoma") mv || startsWith (lit "14.") mv then
    toggleKext (lit "AirportItlwm-Sonoma144.kext") true p
  else if startsWith (lit "Sequoia") mv || startsWith (lit "15.") mv then
    toggleKext (lit "AirportItlwm-Sonoma144.kext") true p
  else p

/-- The quirk-enforcement tail of `patchContent`: the fixed sequence of
boolean toggles and integer sets with hard-coded values (including the
logging integers that follow them in the same block). -/
def quirkEnforce (doc : List Char) : List Char :=
  let p := toggleBool (lit "AppleXcpmCfgLock") true doc
  let p := toggleBool (lit "AppleCpuPmCfgLock") false p
  let p := toggleBool (lit "DisableIoMapper") true p
  let p := toggleBool (lit "DevirtualiseMmio") true p
  let p := toggleBool (lit "SetupVirtualMap") true p
  let p := toggleBool (lit "ProtectUefiServices") true p
  let p := toggleBool (lit "ProvideCustomSlide") true p
  let p := setInteger (lit "ProvideMaxSlide") 0 p
  let p := toggleBool (lit "ReleaseUsbOwnership") false p
  let p := toggleBool (lit "RebuildAppleMemoryMap") true p
  let p := toggleBool (lit "SyncRuntimePermissions") true p
  let p := toggleBool (lit "EnableWriteUnprotector") false p
  let p := setInteger (lit "Target") 67 p
  let p := setInteger (lit "DisplayLevel") 2147483714 p
  let p := setInteger (lit "DisplayDelay") 0 p
  setInteger (lit "ResizeAppleGpuBars") (-1) p

/-- The handler's `patchContent`, in source order: SMBIOS injection, product
name, security relaxation, boot-args merge, kext selection (only when a
macOS version was supplied), quirk enforcement. -/
def patchContent (smbios : Option Smbios) (macosVersion : Option (List Char))
    (doc : List Char) : List Char :=
  let p := doc
  let p :=
    match smbios with
    | none => p
    | some sm =>
      let p :=
        match sm.serial with
        | some v => replaceStringValue (lit "SystemSerialNumber") v p
        | none => p
      let p :=
        match sm.mlb with
        | some v => replaceStringValue (lit "MLB") v p
        | none => p
      match sm.uuid with
      | some v => replaceStringValue (lit "SystemUUID") v p
      | none => p
  let p := replaceStringValue (lit "SystemProductName") (lit "MacBookAir9,1") p
  let p := replaceStringValue (lit "SecureBootModel") (lit "Disabled") p
  let p := replaceStringValue (lit "DmgLoading") (lit "Any") p
  let p := setInteger (lit "ScanPolicy") 0 p
  let p := mergeBootArgs p
  let p :=
    match macosVersion with
    | none => p
    | some mv => kextSelection mv p
  quirkEnforce p

/-- The in-memory patching performed by the `inject-config` handler on the
deployed template text: drivers-block replacement, HideAuxiliary, then
`patchContent`.  The handler also receives a `verbose` parameter, which its
body never reads. -/
def injectPatch (smbios : Option Smbios) (macosVersion : Option (List Char))
    (verbose : Bool) (raw : List Char) : List Char :=
  patchContent smbios macosVersion (hideAux (driversReplace raw))

/-- A matcher is consuming as soon as every match strictly extends the
remainder. -/
theorem consuming_of_decomp {f : Find}
    (h : ∀ s r rest, f s = some (r, rest) → ∃ a, s = a ++ rest ∧ a ≠ []) :
    Consuming f := by
  intro s r rest hm
  obtain ⟨a, ha, hne⟩ := h s r rest hm
  subst ha
  cases a with
  | nil => exact absurd rfl hne
  | cons x xs =>
    simp only [List.cons_append, List.length_cons, List.length_append]
    omega

theorem keyTok_head (k : List Char) :
    keyTok k = '<' :: (lit "key>" ++ k ++ lit "</key>") := rfl

/-- Soundness of `findKeyTagged`: a match decomposes the input into the key
element, greedily-scanned whitespace, the open tag, a line-terminator-free
content and the close tag, and the replacement substitutes the value for the
content. -/
theorem findKeyTagged_sound {k o c v s r rest : List Char}
    (h : findKeyTagged k o c v s = some (r, rest)) :
    ∃ ws content, s = keyTok k ++ ws ++ o ++ content ++ c ++ rest ∧
      r = keyTok k ++ ws ++ o ++ v ++ c ∧
      (∀ x ∈ ws, isWs x) ∧ (∀ x ∈ content, ¬ isLineTerm x) := by
  unfold findKeyTagged at h
  cases h1 : stripPre (keyTok k) s with
  | none => rw [h1] at h; dsimp only at h; exact absurd h (by simp)
  | some s1 =>
    rw [h1] at h; dsimp only at h
    cases h2 : stripPre o (wsDrop s1) with
    | none => rw [h2] at h; dsimp only at h; exact absurd h (by simp)
    | some s3 =>
      rw [h2] at h; dsimp only at h
      cases h3 : lazyDotUntil c s3 with
      | none => rw [h3] at h; dsimp only at h; exact absurd h (by simp)
      | some p =>
        obtain ⟨content, rest'⟩ := p
        rw [h3] at h; dsimp only at h
        simp only [Option.some.injEq, Prod.mk.injEq] at h
        obtain ⟨hr, hrest⟩ := h
        subst hrest
        obtain ⟨e3, e3lt⟩ := lazyDotUntil_eq_some h3
        have e1 : s = keyTok k ++ s1 := stripPre_eq_some.mp h1
        have e2 : wsDrop s1 = o ++ s3 := stripPre_eq_some.mp h2
        have esplit : s1 = wsTake s1 ++ (o ++ s3) := by
          conv_lhs => rw [← wsTake_append_wsDrop s1]
          rw [e2]
        refine ⟨wsTake s1, content, ?_, by rw [← hr], wsTake_all s1, e3lt⟩
        rw [e1]
        conv_lhs => rw [esplit, e3]
        simp

theorem findKeyTagged_consuming (k o c v : List Char) :
    Consuming (findKeyTagged k o c v) := by
  refine consuming_of_decomp ?_
  intro s r rest h
  obtain ⟨ws, content, hs, _, _, _⟩ := findKeyTagged_sound h
  refine ⟨keyTok k ++ ws ++ o ++ content ++ c, by simpa using hs, ?_⟩
  simp [keyTok_head]

/-- Soundness of `findKeyBool`. -/
theorem findKeyBool_sound {k : List Char} {v : Bool} {s r rest : List Char}
    (h : findKeyBool k v s = some (r, rest)) :
    ∃ ws b, s = keyTok k ++ ws ++ boolTag b ++ rest ∧
      r = keyTok k ++ ws ++ boolTag v ∧ (∀ x ∈ ws, isWs x) := by
  unfold findKeyBool at h
  cases h1 : stripPre (keyTok k) s with
  | none => rw [h1] at h; dsimp only at h; exact absurd h (by simp)
  | some s1 =>
    rw [h1] at h; dsimp only at h
    have e1 : s = keyTok k ++ s1 := stripPre_eq_some.mp h1
    cases h2 : stripPre (lit "<true/>") (wsDrop s1) with
    | some rest' =>
      rw [h2] at h; dsimp only at h
      simp only [Option.some.injEq, Prod.mk.injEq] at h
      obtain ⟨hr, hrest⟩ := h
      subst hrest
      have e2 : wsDrop s1 = lit "<true/>" ++ rest' := stripPre_eq_some.mp h2
      have esplit : s1 = wsTake s1 ++ (lit "<true/>" ++ rest') := by
        conv_lhs => rw [← wsTake_append_wsDrop s1]
        rw [e2]
      refine ⟨wsTake s1, true, ?_, by rw [← hr], wsTake_all s1⟩
      rw [e1]
      conv_lhs => rw [esplit]
      simp [boolTag]
    | none =>
      rw [h2] at h; dsimp only at h
      cases h3 : stripPre (lit "<false/>") (wsDrop s1) with
      | none => rw [h3] at h; dsimp only at h; exact absurd h (by simp)
      | some rest' =>
        rw [h3] at h; dsimp only at h
        simp only [Option.some.injEq, Prod.mk.injEq] at h
        obtain ⟨hr, hrest⟩ := h
        subst hrest
        have e2 : wsDrop s1 = lit "<false/>" ++ rest' := stripPre_eq_some.mp h3
        have esplit : s1 = wsTake s1 ++ (lit "<false/>" ++ rest') := by
          conv_lhs => rw [← wsTake_append_wsDrop s1]
          rw [e2]
        refine ⟨wsTake s1, false, ?_, by rw [← hr], wsTake_all s1⟩
        rw [e1]
        conv_lhs => rw [esplit]
        simp [boolTag]

theorem findKeyBool_consuming (k : List Char) (v : Bool) :
    Consuming (findKeyBool k v) := by
  refine consuming_of_decomp ?_
  intro s r rest h
  obtain ⟨ws, b, hs, _, _⟩ := findKeyBool_sound h
  refine ⟨keyTok k ++ ws ++ boolTag b, by simpa using hs, ?_⟩
  simp [keyTok_head]

/-- Soundness of `enabledAt`. -/
theorem enabledAt_sound {s g1t rest : List Char}
    (h : enabledAt s = some (g1t, rest)) :
    ∃ ws content, s = lit "<key>Enabled</key>" ++ ws ++ lit "<" ++ content ++
        lit "/>" ++ rest ∧
      g1t = lit "<key>Enabled</key>" ++ ws ∧
      (∀ x ∈ ws, isWs x) ∧ (∀ x ∈ content, ¬ isLineTerm x) := by
  unfold enabledAt at h
  cases h1 : stripPre (lit "<key>Enabled</key>") s with
  | none => rw [h1] at h; dsimp only at h; exact absurd h (by simp)
  | some s1 =>
    rw [h1] at h; dsimp only at h
    have e1 : s = lit "<key>Enabled</key>" ++ s1 := stripPre_eq_some.mp h1
    cases h2 : stripPre (lit "<") (wsDrop s1) with
    | none => rw [h2] at h; dsimp only at h; exact absurd h (by simp)
    | some s3 =>
      rw [h2] at h; dsimp only at h
      cases h3 : lazyDotUntil (lit "/>") s3 with
      | none => rw [h3] at h; dsimp only at h; exact absurd h (by simp)
      | some p =>
        obtain ⟨content, rest'⟩ := p
        rw [h3] at h; dsimp only at h
        simp only [Option.some.injEq, Prod.mk.injEq] at h
        obtain ⟨hr, hrest⟩ := h
        subst hrest
        obtain ⟨e3, e3lt⟩ := lazyDotUntil_eq_some h3
        have e2 : wsDrop s1 = lit "<" ++ s3 := stripPre_eq_some.mp h2
        have esplit : s1 = wsTake s1 ++ (lit "<" ++ s3) := by
          conv_lhs => rw [← wsTake_append_wsDrop s1]
          rw [e2]
        refine ⟨wsTake s1, content, ?_, by rw [← hr], wsTake_all s1, e3lt⟩
        rw [e1]
        conv_lhs => rw [esplit, e3]
        simp

/-- Soundness of `kextScan`: the gap is a prefix of the input after which the
`Enabled` tail matches, and it fits the budget. -/
theorem kextScan_sound {budget : Nat} {s gap g1t rest : List Char}
    (h : kextScan budget s = some (gap, g1t, rest)) :
    ∃ tail, s = gap ++ tail ∧ enabledAt tail = some (g1t, rest) ∧
      gap.length ≤ budget := by
  induction budget generalizing s gap with
  | zero =>
    simp only [kextScan] at h
    cases he : enabledAt s with
    | some p =>
      obtain ⟨a, b⟩ := p
      rw [he] at h; dsimp only at h
      simp only [Option.some.injEq, Prod.mk.injEq] at h
      obtain ⟨h1, h2, h3⟩ := h
      subst h1; subst h2; subst h3
      exact ⟨s, by simp, he, by simp⟩
    | none =>
      rw [he] at h; dsimp only at h
      exact absurd h (by cases s <;> simp)
  | succ b ih =>
    simp only [kextScan] at h
    cases he : enabledAt s with
    | some p =>
      obtain ⟨a, bb⟩ := p
      rw [he] at h; dsimp only at h
      simp only [Option.some.injEq, Prod.mk.injEq] at h
      obtain ⟨h1, h2, h3⟩ := h
      subst h1; subst h2; subst h3
      exact ⟨s, by simp, he, by simp⟩
    | none =>
      rw [he] at h; dsimp only at h
      cases s with
      | nil => exact absurd h (by simp)
      | cons c cs =>
        dsimp only at h
        cases hr : kextScan b cs with
        | none => rw [hr] at h; dsimp only at h; exact absurd h (by simp)
        | some p =>
          obtain ⟨gap', g1t', rest'⟩ := p
          rw [hr] at h; dsimp only at h
          simp only [Option.some.injEq, Prod.mk.injEq] at h
          obtain ⟨h1, h2, h3⟩ := h
          subst h2; subst h3
          obtain ⟨tail, ht, hen, hlen⟩ := ih hr
          subst h1
          exact ⟨tail, by simp [ht], hen, by simpa using Nat.succ_le_succ hlen⟩

/-- Soundness of `findKext`. -/
theorem findKext_sound {m : List Char} {v : Bool} {s r rest : List Char}
    (h : findKext m v s = some (r, rest)) :
    ∃ gap ws content, s = strTok m ++ gap ++ lit "<key>Enabled</key>" ++ ws ++
        lit "<" ++ content ++ lit "/>" ++ rest ∧
      r = strTok m ++ gap ++ lit "<key>Enabled</key>" ++ ws ++ boolTag v ∧
      gap.length ≤ 500 ∧ (∀ x ∈ ws, isWs x) ∧ (∀ x ∈ content, ¬ isLineTerm x) := by
  unfold findKext at h
  cases h1 : stripPre (strTok m) s with
  | none => rw [h1] at h; dsimp only at h; exact absurd h (by simp)
  | some s1 =>
    rw [h1] at h; dsimp only at h
    have e1 : s = strTok m ++ s1 := stripPre_eq_some.mp h1
    cases h2 : kextScan 500 s1 with
    | none => rw [h2] at h; dsimp only at h; exact absurd h (by simp)
    | some p =>
      obtain ⟨gap, g1t, rest'⟩ := p
      rw [h2] at h; dsimp only at h
      simp only [Option.some.injEq, Prod.mk.injEq] at h
      obtain ⟨hr, hrest⟩ := h
      subst hrest
      obtain ⟨tail, ht, hen, hlen⟩ := kextScan_sound h2
      obtain ⟨ws, content, htail, hg1t, hws, hct⟩ := enabledAt_sound hen
      refine ⟨gap, ws, content, ?_, ?_, hlen, hws, hct⟩
      · rw [e1, ht, htail]; simp
      · rw [← hr, hg1t]; simp

theorem findKext_consuming (m : List Char) (v : Bool) :
    Consuming (findKext m v) := by
  refine consuming_of_decomp ?_
  intro s r rest h
  obtain ⟨gap, ws, content, hs, _, _, _, _⟩ := findKext_sound h
  refine ⟨strTok m ++ gap ++ lit "<key>Enabled</key>" ++ ws ++ lit "<" ++
    content ++ lit "/>", by simpa using hs, ?_⟩
  simp [strTok, lit]

/-- Soundness of `findBootArgs`. -/
theorem findBootArgs_sound {s r rest : List Char}
    (h : findBootArgs s = some (r, rest)) :
    ∃ ws cur, s = keyTok (lit "boot-args") ++ ws ++ lit "<string>" ++ cur ++
        lit "</string>" ++ rest ∧
      r = keyTok (lit "boot-args") ++ ws ++ lit "<string>" ++ mergeTokens cur ++
        lit "</string>" ∧
      (∀ x ∈ ws, isWs x) := by
  unfold findBootArgs at h
  cases h1 : stripPre (keyTok (lit "boot-args")) s with
  | none => rw [h1] at h; dsimp only at h; exact absurd h (by simp)
  | some s1 =>
    rw [h1] at h; dsimp only at h
    have e1 : s = keyTok (lit "boot-args") ++ s1 := stripPre_eq_some.mp h1
    cases h2 : stripPre (lit "<string>") (wsDrop s1) with
    | none => rw [h2] at h; dsimp only at h; exact absurd h (by simp)
    | some s3 =>
      rw [h2] at h; dsimp only at h
      cases h3 : lazyAnyUntil (lit "</string>") s3 with
      | none => rw [h3] at h; dsimp only at h; exact absurd h (by simp)
      | some p =>
        obtain ⟨cur, rest'⟩ := p
        rw [h3] at h; dsimp only at h
        simp only [Option.some.injEq, Prod.mk.injEq] at h
        obtain ⟨hr, hrest⟩ := h
        subst hrest
        have e3 := lazyAnyUntil_eq_some h3
        have e2 : wsDrop s1 = lit "<string>" ++ s3 := stripPre_eq_some.mp h2
        have esplit : s1 = wsTake s1 ++ (lit "<string>" ++ s3) := by
          conv_lhs => rw [← wsTake_append_wsDrop s1]
          rw [e2]
        refine ⟨wsTake s1, cur, ?_, by rw [← hr], wsTake_all s1⟩
        rw [e1]
        conv_lhs => rw [esplit, e3]
        simp

theorem findBootArgs_consuming : Consuming findBootArgs := by
  refine consuming_of_decomp ?_
  intro s r rest h
  obtain ⟨ws, cur, hs, _, _⟩ := findBootArgs_sound h
  refine ⟨keyTok (lit "boot-args") ++ ws ++ lit "<string>" ++ cur ++
    lit "</string>", by simpa using hs, ?_⟩
  simp [keyTok_head]

/-- Soundness of `findDrivers`. -/
theorem findDrivers_sound {s r rest : List Char}
    (h : findDrivers s = some (r, rest)) :
    ∃ ws inner, s = keyTok (lit "Drivers") ++ ws ++ lit "<array>" ++ inner ++
        lit "</array>" ++ rest ∧ r = driversBlock ∧ (∀ x ∈ ws, isWs x) := by
  unfold findDrivers at h
  cases h1 : stripPre (keyTok (lit "Drivers")) s with
  | none => rw [h1] at h; dsimp only at h; exact absurd h (by simp)
  | some s1 =>
    rw [h1] at h; dsimp only at h
    have e1 : s = keyTok (lit "Drivers") ++ s1 := stripPre_eq_some.mp h1
    cases h2 : stripPre (lit "<array>") (wsDrop s1) with
    | none => rw [h2] at h; dsimp only at h; exact absurd h (by simp)
    | some s3 =>
      rw [h2] at h; dsimp only at h
      cases h3 : lazyAnyUntil (lit "</array>") s3 with
      | none => rw [h3] at h; dsimp only at h; exact absurd h (by simp)
      | some p =>
        obtain ⟨inner, rest'⟩ := p
        rw [h3] at h; dsimp only at h
        simp only [Option.some.injEq, Prod.mk.injEq] at h
        obtain ⟨hr, hrest⟩ := h
        subst hrest
        have e3 := lazyAnyUntil_eq_some h3
        have e2 : wsDrop s1 = lit "<array>" ++ s3 := stripPre_eq_some.mp h2
        have esplit : s1 = wsTake s1 ++ (lit "<array>" ++ s3) := by
          conv_lhs => rw [← wsTake_append_wsDrop s1]
          rw [e2]
        refine ⟨wsTake s1, inner, ?_, hr.symm, wsTake_all s1⟩
        rw [e1]
        conv_lhs => rw [esplit, e3]
        simp

theorem findDrivers_consuming : Consuming findDrivers := by
  refine consuming_of_decomp ?_
  intro s r rest h
  obtain ⟨ws, inner, hs, _, _⟩ := findDrivers_sound h
  refine ⟨keyTok (lit "Drivers") ++ ws ++ lit "<array>" ++ inner ++
    lit "</array>", by simpa using hs, ?_⟩
  simp [keyTok_head]

/-- Soundness of `findHideAux`. -/
theorem findHideAux_sound {s r rest : List Char}
    (h : findHideAux s = some (r, rest)) :
    ∃ ws, s = keyTok (lit "HideAuxiliary") ++ ws ++ lit "<true/>" ++ rest ∧
      r = keyTok (lit "HideAuxiliary") ++ ws ++ lit "<false/>" ∧
      (∀ x ∈ ws, isWs x) := by
  unfold findHideAux at h
  cases h1 : stripPre (keyTok (lit "HideAuxiliary")) s with
  | none => rw [h1] at h; dsimp only at h; exact absurd h (by simp)
  | some s1 =>
    rw [h1] at h; dsimp only at h
    have e1 : s = keyTok (lit "HideAuxiliary") ++ s1 := stripPre_eq_some.mp h1
    cases h2 : stripPre (lit "<true/>") (wsDrop s1) with
    | none => rw [h2] at h; dsimp only at h; exact absurd h (by simp)
    | some rest' =>
      rw [h2] at h; dsimp only at h
      simp only [Option.some.injEq, Prod.mk.injEq] at h
      obtain ⟨hr, hrest⟩ := h
      subst hrest
      have e2 : wsDrop s1 = lit "<true/>" ++ rest' := stripPre_eq_some.mp h2
      have esplit : s1 = wsTake s1 ++ (lit "<true/>" ++ rest') := by
        conv_lhs => rw [← wsTake_append_wsDrop s1]
        rw [e2]
      refine ⟨wsTake s1, ?_, by rw [← hr], wsTake_all s1⟩
      rw [e1]
      conv_lhs => rw [esplit]
      simp

theorem findHideAux_consuming : Consuming findHideAux := by
  refine consuming_of_decomp ?_
  intro s r rest h
  obtain ⟨ws, hs, _, _⟩ := findHideAux_sound h
  refine ⟨keyTok (lit "HideAuxiliary") ++ ws ++ lit "<true/>",
    by simpa using hs, ?_⟩
  simp [keyTok_head]

theorem boolTag_true : boolTag true = lit "<true/>" := rfl

theorem boolTag_false : boolTag false = lit "<false/>" := rfl

/-- Variant of `wsTake_split` taking the suffix head shape as an equation, so
that call sites can pass it by `rfl`. -/
theorem wsTake_split' {ws t : List Char} {c : Char} {tl : List Char}
    (hws : ∀ x ∈ ws, isWs x) (hc : ¬ isWs c) (ht : t = c :: tl) :
    wsTake (ws ++ t) = ws ∧ wsDrop (ws ++ t) = t := by
  subst ht
  exact wsTake_split hws hc

/-- Strong completeness of the dotAll lazy scan: if the pattern does not
match at any position strictly inside the content, the scan stops exactly at
the given occurrence. -/
theorem lazyAnyUntil_complete_strong {pat content r : List Char}
    (hq : ∀ i < content.length, stripPre pat ((content ++ pat ++ r).drop i) = none) :
    lazyAnyUntil pat (content ++ pat ++ r) = some (content, r) := by
  induction content with
  | nil => exact lazyAnyUntil_of_pre (stripPre_self _ _)
  | cons c cs ih =>
    have h1 : stripPre pat (c :: (cs ++ pat ++ r)) = none := by
      simpa using hq 0 (by simp)
    rw [show (c :: cs) ++ pat ++ r = c :: (cs ++ pat ++ r) by simp]
    rw [lazyAnyUntil_cons h1]
    rw [ih (fun i hi => by simpa using hq (i + 1) (by simpa using Nat.succ_lt_succ hi))]
    rfl

/-- Strong completeness of the line-bounded lazy scan. -/
theorem lazyDotUntil_complete_strong {pat content r : List Char}
    (hq : ∀ i < content.length, stripPre pat ((content ++ pat ++ r).drop i) = none)
    (hlt : ∀ c ∈ content, ¬ isLineTerm c) :
    lazyDotUntil pat (content ++ pat ++ r) = some (content, r) := by
  induction content with
  | nil => exact lazyDotUntil_of_pre (stripPre_self _ _)
  | cons c cs ih =>
    have h1 : stripPre pat (c :: (cs ++ pat ++ r)) = none := by
      simpa using hq 0 (by simp)
    rw [show (c :: cs) ++ pat ++ r = c :: (cs ++ pat ++ r) by simp]
    rw [lazyDotUntil_cons h1 (hlt c (by simp))]
    rw [ih (fun i hi => by simpa using hq (i + 1) (by simpa using Nat.succ_lt_succ hi))
      (fun x hx => hlt x (by simp [hx]))]
    rfl

/-- When `String.includes` is false the pattern matches at no position. -/
theorem hasSub_false_stripPre {pat s : List Char} (h : hasSub pat s = false) :
    ∀ n, stripPre pat (s.drop n) = none := by
  induction s with
  | nil =>
    intro n
    rw [hasSub] at h
    simp only [List.drop_nil]
    cases hp : stripPre pat ([] : List Char) with
    | none => rfl
    | some w => rw [hp] at h; simp at h
  | cons c cs ih =>
    intro n
    rw [hasSub] at h
    simp only [Bool.or_eq_false_iff] at h
    obtain ⟨h1, h2⟩ := h
    cases n with
    | zero =>
      simp only [List.drop_zero]
      cases hp : stripPre pat (c :: cs) with
      | none => rfl
      | some w => rw [hp] at h1; simp at h1
    | succ n => simpa using ih h2 n

/-- Conversely, a match at some position makes `String.includes` true. -/
theorem hasSub_true_of_stripPre {pat s w : List Char} {n : Nat}
    (h : stripPre pat (s.drop n) = some w) : hasSub pat s = true := by
  induction s generalizing n with
  | nil =>
    rw [hasSub]
    simp only [List.drop_nil] at h
    simp [h]
  | cons c cs ih =>
    rw [hasSub]
    cases n with
    | zero =>
      simp only [List.drop_zero] at h
      simp [h]
    | succ n =>
      simp only [List.drop_succ_cons] at h
      simp [ih h]

theorem findKeyTagged_none {k o c v s : List Char}
    (h : stripPre (keyTok k) s = none) : findKeyTagged k o c v s = none := by
  unfold findKeyTagged
  rw [h]

theorem findKeyBool_none {k : List Char} {vb : Bool} {s : List Char}
    (h : stripPre (keyTok k) s = none) : findKeyBool k vb s = none := by
  unfold findKeyBool
  rw [h]

theorem findKext_none {m : List Char} {vb : Bool} {s : List Char}
    (h : stripPre (strTok m) s = none) : findKext m vb s = none := by
  unfold findKext
  rw [h]

theorem findBootArgs_none {s : List Char}
    (h : stripPre (keyTok (lit "boot-args")) s = none) : findBootArgs s = none := by
  unfold findBootArgs
  rw [h]

theorem findDrivers_none {s : List Char}
    (h : stripPre (keyTok (lit "Drivers")) s = none) : findDrivers s = none := by
  unfold findDrivers
  rw [h]

theorem findHideAux_none {s : List Char}
    (h : stripPre (keyTok (lit "HideAuxiliary")) s = none) : findHideAux s = none := by
  unfold findHideAux
  rw [h]

/-- Completeness of `findKeyTagged` at a well-formed occurrence: whitespace
block, open tag, content with no early close-tag match and no line
terminator. -/
theorem findKeyTagged_complete {k ws : List Char} {o0 : Char} {orest : List Char}
    {cq : Char} {cqs content v rest : List Char}
    (hws : ∀ x ∈ ws, isWs x) (ho : ¬ isWs o0)
    (hmiss : ∀ i < content.length,
      stripPre (cq :: cqs) ((content ++ (cq :: cqs) ++ rest).drop i) = none)
    (hlt : ∀ x ∈ content, ¬ isLineTerm x) :
    findKeyTagged k (o0 :: orest) (cq :: cqs) v
      (keyTok k ++ ws ++ (o0 :: orest) ++ content ++ (cq :: cqs) ++ rest) =
      some (keyTok k ++ ws ++ (o0 :: orest) ++ v ++ (cq :: cqs), rest) := by
  have harg : keyTok k ++ ws ++ (o0 :: orest) ++ content ++ (cq :: cqs) ++ rest =
      keyTok k ++ (ws ++ (o0 :: (orest ++ (content ++ ((cq :: cqs) ++ rest))))) := by
    simp
  rw [harg]
  unfold findKeyTagged
  rw [stripPre_self]
  obtain ⟨hT, hD⟩ := @wsTake_split' ws
    (o0 :: (orest ++ (content ++ ((cq :: cqs) ++ rest)))) o0
    (orest ++ (content ++ ((cq :: cqs) ++ rest))) hws ho rfl
  dsimp only
  rw [hD]
  have hstrip2 : stripPre (o0 :: orest)
      (o0 :: (orest ++ (content ++ ((cq :: cqs) ++ rest)))) =
      some (content ++ ((cq :: cqs) ++ rest)) := by
    rw [← List.cons_append]
    exact stripPre_self _ _
  rw [hstrip2]
  dsimp only
  have hlaz : lazyDotUntil (cq :: cqs) (content ++ ((cq :: cqs) ++ rest)) =
      some (content, rest) := by
    rw [show content ++ ((cq :: cqs) ++ rest) = content ++ (cq :: cqs) ++ rest by simp]
    exact lazyDotUntil_complete_strong hmiss hlt
  rw [hlaz]
  dsimp only
  rw [hT]

/-- Completeness of `findKeyBool` at a well-formed occurrence. -/
theorem findKeyBool_complete {k ws : List Char} {b v : Bool} {rest : List Char}
    (hws : ∀ x ∈ ws, isWs x) :
    findKeyBool k v (keyTok k ++ ws ++ boolTag b ++ rest) =
      some (keyTok k ++ ws ++ boolTag v, rest) := by
  cases b with
  | true =>
    rw [boolTag_true]
    have harg : keyTok k ++ ws ++ lit "<true/>" ++ rest =
        keyTok k ++ (ws ++ (lit "<true/>" ++ rest)) := by simp
    rw [harg]
    unfold findKeyBool
    rw [stripPre_self]
    obtain ⟨hT, hD⟩ := @wsTake_split' ws (lit "<true/>" ++ rest) '<'
      (lit "true/>" ++ rest) hws (by decide) rfl
    dsimp only
    rw [hD, stripPre_self]
    dsimp only
    rw [hT]
  | false =>
    rw [boolTag_false]
    have harg : keyTok k ++ ws ++ lit "<false/>" ++ rest =
        keyTok k ++ (ws ++ (lit "<false/>" ++ rest)) := by simp
    rw [harg]
    unfold findKeyBool
    rw [stripPre_self]
    obtain ⟨hT, hD⟩ := @wsTake_split' ws (lit "<false/>" ++ rest) '<'
      (lit "false/>" ++ rest) hws (by decide) rfl
    dsimp only
    rw [hD]
    have hno : stripPre (lit "<true/>") (lit "<false/>" ++ rest) = none := rfl
    rw [hno, stripPre_self]
    dsimp only
    rw [hT]

/-- Completeness of `enabledAt` at a well-formed `Enabled` element. -/
theorem enabledAt_complete {ws : List Char} {b : Bool} {rest : List Char}
    (hws : ∀ x ∈ ws, isWs x) :
    enabledAt (lit "<key>Enabled</key>" ++ ws ++ boolTag b ++ rest) =
      some (lit "<key>Enabled</key>" ++ ws, rest) := by
  cases b with
  | true =>
    rw [boolTag_true]
    have harg : lit "<key>Enabled</key>" ++ ws ++ lit "<true/>" ++ rest =
        lit "<key>Enabled</key>" ++ (ws ++ (lit "<true/>" ++ rest)) := by simp
    rw [harg]
    unfold enabledAt
    rw [stripPre_self]
    obtain ⟨hT, hD⟩ := @wsTake_split' ws (lit "<true/>" ++ rest) '<'
      (lit "true/>" ++ rest) hws (by decide) rfl
    dsimp only
    rw [hD]
    have hs3 : stripPre (lit "<") (lit "<true/>" ++ rest) =
        some (lit "true/>" ++ rest) := stripPre_eq_some.mpr rfl
    rw [hs3]
    dsimp only
    have hld : lazyDotUntil (lit "/>") (lit "true/>" ++ rest) =
        some (lit "true", rest) :=
      @lazyDotUntil_complete '/' (lit ">") (lit "true") rest (by decide) (by decide)
    rw [hld]
    dsimp only
    rw [hT]
  | false =>
    rw [boolTag_false]
    have harg : lit "<key>Enabled</key>" ++ ws ++ lit "<false/>" ++ rest =
        lit "<key>Enabled</key>" ++ (ws ++ (lit "<false/>" ++ rest)) := by simp
    rw [harg]
    unfold enabledAt
    rw [stripPre_self]
    obtain ⟨hT, hD⟩ := @wsTake_split' ws (lit "<false/>" ++ rest) '<'
      (lit "false/>" ++ rest) hws (by decide) rfl
    dsimp only
    rw [hD]
    have hs3 : stripPre (lit "<") (lit "<false/>" ++ rest) =
        some (lit "false/>" ++ rest) := stripPre_eq_some.mpr rfl
    rw [hs3]
    dsimp only
    have hld : lazyDotUntil (lit "/>") (lit "false/>" ++ rest) =
        some (lit "false", rest) :=
      @lazyDotUntil_complete '/' (lit ">") (lit "false") rest (by decide) (by decide)
    rw [hld]
    dsimp only
    rw [hT]

/-- Completeness of `kextScan`: reach a matching `Enabled` tail across a gap
with no earlier tail match. -/
theorem kextScan_complete {gap : List Char} {budget : Nat} {tail g1t rest : List Char}
    (hgap : gap.length ≤ budget)
    (hmiss : ∀ i < gap.length, enabledAt ((gap ++ tail).drop i) = none)
    (hhit : enabledAt tail = some (g1t, rest)) :
    kextScan budget (gap ++ tail) = some (gap, g1t, rest) := by
  induction gap generalizing budget with
  | nil =>
    cases budget with
    | zero => simp only [kextScan, List.nil_append, hhit]
    | succ b => simp only [kextScan, List.nil_append, hhit]
  | cons c gap' ih =>
    cases budget with
    | zero => exact absurd hgap (by simp)
    | succ b =>
      have h0 : enabledAt (c :: (gap' ++ tail)) = none := by
        simpa using hmiss 0 (by simp)
      simp only [kextScan, List.cons_append, h0]
      have hrec := ih (by simpa using Nat.le_of_succ_le_succ (by simpa using hgap))
        (fun i hi => by simpa using hmiss (i + 1) (by simpa using Nat.succ_lt_succ hi))
      rw [hrec]

/-- Completeness of `findKext` at a well-formed record. -/
theorem findKext_complete {m gap ws : List Char} {b v : Bool} {rest : List Char}
    (hgap : gap.length ≤ 500)
    (hmiss : ∀ i < gap.length,
      enabledAt ((gap ++ (lit "<key>Enabled</key>" ++ ws ++ boolTag b ++ rest)).drop i) = none)
    (hws : ∀ x ∈ ws, isWs x) :
    findKext m v (strTok m ++ gap ++ lit "<key>Enabled</key>" ++ ws ++ boolTag b ++ rest) =
      some (strTok m ++ gap ++ lit "<key>Enabled</key>" ++ ws ++ boolTag v, rest) := by
  have harg : strTok m ++ gap ++ lit "<key>Enabled</key>" ++ ws ++ boolTag b ++ rest =
      strTok m ++ (gap ++ (lit "<key>Enabled</key>" ++ ws ++ boolTag b ++ rest)) := by
    simp
  rw [harg]
  unfold findKext
  rw [stripPre_self]
  dsimp only
  have hscan := @kextScan_complete gap 500
    (lit "<key>Enabled</key>" ++ ws ++ boolTag b ++ rest)
    (lit "<key>Enabled</key>" ++ ws) rest hgap hmiss (enabledAt_complete hws)
  rw [hscan]
  dsimp only
  simp

/-- Completeness of `findBootArgs`. -/
theorem findBootArgs_complete {ws cur rest : List Char}
    (hws : ∀ x ∈ ws, isWs x)
    (hmiss : ∀ i < cur.length,
      stripPre (lit "</string>") ((cur ++ lit "</string>" ++ rest).drop i) = none) :
    findBootArgs (keyTok (lit "boot-args") ++ ws ++ lit "<string>" ++ cur ++
        lit "</string>" ++ rest) =
      some (keyTok (lit "boot-args") ++ ws ++ lit "<string>" ++ mergeTokens cur ++
        lit "</string>", rest) := by
  have harg : keyTok (lit "boot-args") ++ ws ++ lit "<string>" ++ cur ++
      lit "</string>" ++ rest =
      keyTok (lit "boot-args") ++ (ws ++ (lit "<string>" ++
        (cur ++ (lit "</string>" ++ rest)))) := by
    simp
  rw [harg]
  unfold findBootArgs
  rw [stripPre_self]
  obtain ⟨hT, hD⟩ := @wsTake_split' ws
    (lit "<string>" ++ (cur ++ (lit "</string>" ++ rest))) '<'
    (lit "string>" ++ (cur ++ (lit "</string>" ++ rest))) hws (by decide) rfl
  dsimp only
  rw [hD, stripPre_self]
  dsimp only
  have hlaz : lazyAnyUntil (lit "</string>") (cur ++ (lit "</string>" ++ rest)) =
      some (cur, rest) := by
    rw [show cur ++ (lit "</string>" ++ rest) = cur ++ lit "</string>" ++ rest by simp]
    exact lazyAnyUntil_complete_strong hmiss
  rw [hlaz]
  dsimp only
  rw [hT]

/-- Completeness of `findDrivers`. -/
theorem findDrivers_complete {ws inner rest : List Char}
    (hws : ∀ x ∈ ws, isWs x)
    (hmiss : ∀ i < inner.length,
      stripPre (lit "</array>") ((inner ++ lit "</array>" ++ rest).drop i) = none) :
    findDrivers (keyTok (lit "Drivers") ++ ws ++ lit "<array>" ++ inner ++
        lit "</array>" ++ rest) = some (driversBlock, rest) := by
  have harg : keyTok (lit "Drivers") ++ ws ++ lit "<array>" ++ inner ++
      lit "</array>" ++ rest =
      keyTok (lit "Drivers") ++ (ws ++ (lit "<array>" ++
        (inner ++ (lit "</array>" ++ rest)))) := by
    simp
  rw [harg]
  unfold findDrivers
  rw [stripPre_self]
  obtain ⟨hT, hD⟩ := @wsTake_split' ws
    (lit "<array>" ++ (inner ++ (lit "</array>" ++ rest))) '<'
    (lit "array>" ++ (inner ++ (lit "</array>" ++ rest))) hws (by decide) rfl
  dsimp only
  rw [hD, stripPre_self]
  dsimp only
  have hlaz : lazyAnyUntil (lit "</array>") (inner ++ (lit "</array>" ++ rest)) =
      some (inner, rest) := by
    rw [show inner ++ (lit "</array>" ++ rest) = inner ++ lit "</array>" ++ rest by simp]
    exact lazyAnyUntil_complete_strong hmiss
  rw [hlaz]

/-- Completeness of `findHideAux`. -/
theorem findHideAux_complete {ws rest : List Char}
    (hws : ∀ x ∈ ws, isWs x) :
    findHideAux (keyTok (lit "HideAuxiliary") ++ ws ++ lit "<true/>" ++ rest) =
      some (keyTok (lit "HideAuxiliary") ++ ws ++ lit "<false/>", rest) := by
  have harg : keyTok (lit "HideAuxiliary") ++ ws ++ lit "<true/>" ++ rest =
      keyTok (lit "HideAuxiliary") ++ (ws ++ (lit "<true/>" ++ rest)) := by simp
  rw [harg]
  unfold findHideAux
  rw [stripPre_self]
  obtain ⟨hT, hD⟩ := @wsTake_split' ws (lit "<true/>" ++ rest) '<'
    (lit "true/>" ++ rest) hws (by decide) rfl
  dsimp only
  rw [hD, stripPre_self]
  dsimp only
  rw [hT]

/-- IO events performed by the `inject-config` handler at the output path
(`destConfig`). -/
inductive IOEvent
  | copyTemplate
  | writeDest (content : List Char)
deriving DecidableEq

def IOEvent.isWrite : IOEvent → Bool
  | IOEvent.copyTemplate => false
  | IOEvent.writeDest _ => true

/-- Outcome switches for the file-system calls of the handler that can
throw; each call is modelled as atomic (it either completes or performs
nothing). -/
structure IOFlags where
  templateExists : Bool
  copyOk : Bool
  readOk : Bool
  writeOk : Bool

/-- Trace model of the `inject-config` handler against the output path:
check the local template exists, copy it to the USB destination, read it
back, patch the text entirely in memory, then write once.  The cleanup that
unlinks other file names on the USB does not touch the output path and is
outside this model. -/
def injectConfigRun (fl : IOFlags) (template : List Char)
    (smbios : Option Smbios) (macosVersion : Option (List Char))
    (verbose : Bool) : List IOEvent × Option String :=
  if !fl.templateExists then ([], some "Local template not found")
  else if !fl.copyOk then ([], some "Failed to copy template to USB")
  else if !fl.readOk then ([IOEvent.copyTemplate], some "read failed")
  else if !fl.writeOk then ([IOEvent.copyTemplate], some "write failed")
  else ([IOEvent.copyTemplate,
          IOEvent.writeDest (injectPatch smbios macosVersion verbose template)],
        none)

/-- C10: the output of the golden-template pipeline is independent of the
`verbose` parameter — the handler receives it but its body never reads it,
and the boot-args merge appends its tokens unconditionally. -/
theorem C10_injectPatch_verbose_independent
    (smbios : Option Smbios) (macosVersion : Option (List Char))
    (raw : List Char) (v1 v2 : Bool) :
    injectPatch smbios macosVersion v1 raw = injectPatch smbios macosVersion v2 raw :=
  rfl

theorem findKext_nil (m : List Char) (b : Bool) : findKext m b [] = none := by
  refine findKext_none ?_
  rw [show strTok m = '<' :: (lit "string>" ++ m ++ lit "</string>") from rfl]
  rfl

/-- C7: absent-target tolerance.  When a rule's targeted key or marker does
not occur in the document (or, for the kext toggle, its full pattern has no
match, e.g. the `Enabled` field is beyond the 500-character window), the rule
leaves the document byte-identical; all rules are total functions, and the
pipeline applies the remaining rules to the unchanged text. -/
theorem C7_absent_target_noop :
    (∀ k v doc : List Char, hasSub (keyTok k) doc = false →
      replaceStringValue k v doc = doc) ∧
    (∀ (k : List Char) (n : Int) (doc : List Char), hasSub (keyTok k) doc = false →
      setInteger k n doc = doc) ∧
    (∀ (k : List Char) (b : Bool) (doc : List Char), hasSub (keyTok k) doc = false →
      toggleBool k b doc = doc) ∧
    (∀ (m : List Char) (b : Bool) (doc : List Char), hasSub (strTok m) doc = false →
      toggleKext m b doc = doc) ∧
    (∀ (m : List Char) (b : Bool) (doc : List Char),
      (∀ n < doc.length, findKext m b (doc.drop n) = none) →
      toggleKext m b doc = doc) ∧
    (∀ doc : List Char, hasSub (keyTok (lit "Drivers")) doc = false →
      driversReplace doc = doc) ∧
    (∀ doc : List Char, hasSub (keyTok (lit "boot-args")) doc = false →
      mergeBootArgs doc = doc) ∧
    (∀ doc : List Char, hasSub (keyTok (lit "HideAuxiliary")) doc = false →
      hideAux doc = doc) ∧
    (∀ (doc : List Char) (sm : Option Smbios) (mv : Option (List Char)) (vb : Bool),
      hasSub (keyTok (lit "Drivers")) doc = false →
      injectPatch sm mv vb doc = patchContent sm mv (hideAux doc)) := by
  have hkt : ∀ k v doc : List Char, hasSub (keyTok k) doc = false →
      replaceStringValue k v doc = doc := by
    intro k v doc h
    exact applyRule_of_no_match
      (fun n => findKeyTagged_none (hasSub_false_stripPre h n))
  have hdrv : ∀ doc : List Char, hasSub (keyTok (lit "Drivers")) doc = false →
      driversReplace doc = doc := by
    intro doc h
    exact applyRule_of_no_match
      (fun n => findDrivers_none (hasSub_false_stripPre h n))
  refine ⟨hkt, ?_, ?_, ?_, ?_, hdrv, ?_, ?_, ?_⟩
  · intro k n doc h
    exact applyRule_of_no_match
      (fun j => findKeyTagged_none (hasSub_false_stripPre h j))
  · intro k b doc h
    exact applyRule_of_no_match
      (fun j => findKeyBool_none (hasSub_false_stripPre h j))
  · intro m b doc h
    exact applyRule_of_no_match
      (fun j => findKext_none (hasSub_false_stripPre h j))
  · intro m b doc h
    refine applyRule_of_no_match (fun n => ?_)
    by_cases hn : n < doc.length
    · exact h n hn
    · rw [List.drop_eq_nil_of_le (by omega)]
      exact findKext_nil m b
  · intro doc h
    exact applyRule_of_no_match
      (fun j => findBootArgs_none (hasSub_false_stripPre h j))
  · intro doc h
    simp [hideAux, h]
  · intro doc sm mv vb h
    unfold injectPatch
    rw [hdrv doc h]

/-- Witness for C7: a document that lacks the serial key is unchanged by the
serial rewrite; a record whose `Enabled` field lies more than 500 characters
past its marker is unchanged by the kext toggle; a document with no Drivers
array passes through the drivers rule and the rest of the pipeline
untouched. -/
theorem C7_witness :
    hasSub (keyTok (lit "SystemSerialNumber")) (lit "<dict><key>Other</key><string>x</string></dict>") = false ∧
    replaceStringValue (lit "SystemSerialNumber") (lit "C02X")
      (lit "<dict><key>Other</key><string>x</string></dict>") =
      lit "<dict><key>Other</key><string>x</string></dict>" ∧
    (∀ n < (strTok (lit "A.kext") ++ List.replicate 501 'x' ++
        lit "<key>Enabled</key><false/>").length,
      findKext (lit "A.kext") true ((strTok (lit "A.kext") ++ List.replicate 501 'x' ++
        lit "<key>Enabled</key><false/>").drop n) = none) ∧
    toggleKext (lit "A.kext") true (strTok (lit "A.kext") ++ List.replicate 501 'x' ++
        lit "<key>Enabled</key><false/>") =
      strTok (lit "A.kext") ++ List.replicate 501 'x' ++ lit "<key>Enabled</key><false/>" ∧
    hasSub (keyTok (lit "Drivers")) (lit "<key>UEFI</key><dict/>") = false ∧
    driversReplace (lit "<key>UEFI</key><dict/>") = lit "<key>UEFI</key><dict/>" ∧
    injectPatch none none true (lit "<key>UEFI</key><dict/>") =
      patchContent none none (hideAux (lit "<key>UEFI</key><dict/>")) := by
  refine ⟨by decide, C7_absent_target_noop.1 _ _ _ (by decide), by decide,
    C7_absent_target_noop.2.2.2.2.1 _ _ _ (by decide), by decide,
    C7_absent_target_noop.2.2.2.2.2.1 _ (by decide),
    C7_absent_target_noop.2.2.2.2.2.2.2.2 _ _ _ _ (by decide)⟩

/-- C6: Block Replacement replaces the shortest delimited span and only that
span.  For a document containing `<key>Drivers</key>` followed (after
whitespace) by `<array>`, with no earlier position matching the drivers
pattern and no `</array>` occurring inside the array body, the rule replaces
exactly the span from the key through the first following `</array>` with the
canonical drivers block verbatim, leaving every byte before and after
unchanged; as the second conjunct states, the first driver path literal in
that block is `ExFatDxe.efi` (no other `.efi` path precedes it). -/
theorem C6_block_replacement :
    (∀ pre ws inner post : List Char,
      (∀ n < pre.length, findDrivers ((pre ++ (keyTok (lit "Drivers") ++
        (ws ++ (lit "<array>" ++ (inner ++ (lit "</array>" ++ post)))))).drop n) = none) →
      (∀ x ∈ ws, isWs x) →
      (∀ i < inner.length,
        stripPre (lit "</array>") ((inner ++ lit "</array>" ++ post).drop i) = none) →
      driversReplace (pre ++ (keyTok (lit "Drivers") ++ (ws ++ (lit "<array>" ++
        (inner ++ (lit "</array>" ++ post)))))) = pre ++ (driversBlock ++ post)) ∧
    ((driversBlock.drop 229).take 29 = lit "<string>ExFatDxe.efi</string>" ∧
      hasSub (lit ".efi") (driversBlock.take 229) = false) := by
  constructor
  · intro pre ws inner post hpre hws hmiss
    unfold driversReplace
    rw [applyRule_append pre _ hpre]
    have hfind : findDrivers (keyTok (lit "Drivers") ++ (ws ++ (lit "<array>" ++
        (inner ++ (lit "</array>" ++ post))))) = some (driversBlock, post) := by
      have hshape : keyTok (lit "Drivers") ++ (ws ++ (lit "<array>" ++
          (inner ++ (lit "</array>" ++ post)))) =
          keyTok (lit "Drivers") ++ ws ++ lit "<array>" ++ inner ++
          lit "</array>" ++ post := by simp
      rw [hshape]
      exact findDrivers_complete hws hmiss
    rw [applyRule_head_some findDrivers_consuming hfind]
    rfl
  · exact ⟨by decide, by decide⟩

/-- Witness for C6 at a concrete document with content before and after the
Drivers array. -/
theorem C6_witness :
    driversReplace (lit "HEAD" ++ (keyTok (lit "Drivers") ++ (lit "\n\t" ++
      (lit "<array>" ++ (lit "<dict><key>Path</key><string>Old.efi</string></dict>" ++
      (lit "</array>" ++ lit "TAIL")))))) =
      lit "HEAD" ++ (driversBlock ++ lit "TAIL") :=
  C6_block_replacement.1 _ _ _ _ (by decide) (by decide) (by decide)

/-- Counterexample to C1: the kext-toggle regex carries the `g` flag, so one
call rewrites the `Enabled` boolean of every matching record, not only the
first.  On a document in which the marker pattern matches at two positions,
the second record's `Enabled` is rewritten as well, so the output differs
from the claimed first-match-only result. -/
theorem C1_counterexample :
    toggleKext (lit "A.kext") true
      (lit "<string>A.kext</string><key>Enabled</key><false/>MID<string>A.kext</string><key>Enabled</key><false/>") =
      lit "<string>A.kext</string><key>Enabled</key><true/>MID<string>A.kext</string><key>Enabled</key><true/>" ∧
    lit "<string>A.kext</string><key>Enabled</key><true/>MID<string>A.kext</string><key>Enabled</key><true/>" ≠
      lit "<string>A.kext</string><key>Enabled</key><true/>MID<string>A.kext</string><key>Enabled</key><false/>" := by
  constructor
  · decide
  · decide

/-- C1 as amended: one toggle call rewrites the `Enabled` boolean of every
match of the pattern (marker, then the first `<key>Enabled</key>` with a
boolean tag within the 500-character window), not only the first; shown here
for a document with two well-formed matching records, both of whose booleans
are rewritten while all other bytes are unchanged. -/
theorem C1_amended_toggleKext_rewrites_every_match
    (m A g1 w1 B g2 w2 C : List Char) (b1 b2 v : Bool)
    (hg1 : g1.length ≤ 500) (hg2 : g2.length ≤ 500)
    (hw1 : ∀ x ∈ w1, isWs x) (hw2 : ∀ x ∈ w2, isWs x)
    (hmiss1 : ∀ i < g1.length, enabledAt ((g1 ++ (lit "<key>Enabled</key>" ++ w1 ++
      boolTag b1 ++ (B ++ (strTok m ++ g2 ++ lit "<key>Enabled</key>" ++ w2 ++
      boolTag b2 ++ C)))).drop i) = none)
    (hmiss2 : ∀ i < g2.length, enabledAt ((g2 ++ (lit "<key>Enabled</key>" ++ w2 ++
      boolTag b2 ++ C)).drop i) = none)
    (hA : ∀ n < A.length, findKext m v ((A ++ (strTok m ++ g1 ++
      lit "<key>Enabled</key>" ++ w1 ++ boolTag b1 ++ (B ++ (strTok m ++ g2 ++
      lit "<key>Enabled</key>" ++ w2 ++ boolTag b2 ++ C)))).drop n) = none)
    (hB : ∀ n < B.length, findKext m v ((B ++ (strTok m ++ g2 ++
      lit "<key>Enabled</key>" ++ w2 ++ boolTag b2 ++ C)).drop n) = none)
    (hC : ∀ n < C.length, findKext m v (C.drop n) = none) :
    toggleKext m v (A ++ (strTok m ++ g1 ++ lit "<key>Enabled</key>" ++ w1 ++
      boolTag b1 ++ (B ++ (strTok m ++ g2 ++ lit "<key>Enabled</key>" ++ w2 ++
      boolTag b2 ++ C)))) =
      A ++ (strTok m ++ g1 ++ lit "<key>Enabled</key>" ++ w1 ++ boolTag v ++
      (B ++ (strTok m ++ g2 ++ lit "<key>Enabled</key>" ++ w2 ++ boolTag v ++ C))) := by
  unfold toggleKext
  rw [applyRule_append A _ hA]
  have h1 := @findKext_complete m g1 w1 b1 v
    (B ++ (strTok m ++ g2 ++ lit "<key>Enabled</key>" ++ w2 ++ boolTag b2 ++ C))
    hg1 hmiss1 hw1
  rw [applyRule_head_some (findKext_consuming m v) h1, if_pos rfl]
  rw [applyRule_append B _ hB]
  have h2 := @findKext_complete m g2 w2 b2 v C hg2 hmiss2 hw2
  rw [applyRule_head_some (findKext_consuming m v) h2, if_pos rfl]
  have hCfull : ∀ n, findKext m v (C.drop n) = none := by
    intro n
    by_cases hn : n < C.length
    · exact hC n hn
    · rw [List.drop_eq_nil_of_le (by omega)]
      exact findKext_nil m v
  rw [applyRule_of_no_match hCfull]

/-- Witness for the amended C1 on a concrete two-record document. -/
theorem C1_witness :
    toggleKext (lit "B.kext") true
      (lit "<dict>" ++ (strTok (lit "B.kext") ++ lit "<key>Comment</key><string></string>" ++
        lit "<key>Enabled</key>" ++ lit "\n " ++ boolTag false ++
        (lit "</dict><dict>" ++ (strTok (lit "B.kext") ++ lit "" ++
        lit "<key>Enabled</key>" ++ lit " " ++ boolTag true ++ lit "</dict>")))) =
      lit "<dict>" ++ (strTok (lit "B.kext") ++ lit "<key>Comment</key><string></string>" ++
        lit "<key>Enabled</key>" ++ lit "\n " ++ boolTag true ++
        (lit "</dict><dict>" ++ (strTok (lit "B.kext") ++ lit "" ++
        lit "<key>Enabled</key>" ++ lit " " ++ boolTag true ++ lit "</dict>"))) :=
  C1_amended_toggleKext_rewrites_every_match (lit "B.kext") _ _ _ _ _ _ _ false true true
    (by decide) (by decide) (by decide) (by decide) (by decide) (by decide)
    (by decide) (by decide) (by decide)

/-- Counterexample to C3: with the marker placed after its own dictionary's
`Enabled` key, the forward 500-character window reaches into the sibling
dictionary, so the toggle rewrites the sibling's `Enabled` — the sibling is
not byte-identical after the call.  The first 83 bytes (the marker's own
dictionary) are unchanged while the sibling suffix changes. -/
theorem C3_counterexample :
    toggleKext (lit "M.kext") true
      (lit "<dict><key>Enabled</key><false/><key>BundlePath</key><string>M.kext</string></dict><dict><key>Enabled</key><false/><key>Other</key><string>x</string></dict>") =
      lit "<dict><key>Enabled</key><false/><key>BundlePath</key><string>M.kext</string></dict><dict><key>Enabled</key><true/><key>Other</key><string>x</string></dict>" ∧
    (lit "<dict><key>Enabled</key><false/><key>BundlePath</key><string>M.kext</string></dict><dict><key>Enabled</key><true/><key>Other</key><string>x</string></dict>").take 83 =
      (lit "<dict><key>Enabled</key><false/><key>BundlePath</key><string>M.kext</string></dict><dict><key>Enabled</key><false/><key>Other</key><string>x</string></dict>").take 83 ∧
    (lit "<dict><key>Enabled</key><false/><key>BundlePath</key><string>M.kext</string></dict><dict><key>Enabled</key><true/><key>Other</key><string>x</string></dict>").drop 83 ≠
      (lit "<dict><key>Enabled</key><false/><key>BundlePath</key><string>M.kext</string></dict><dict><key>Enabled</key><false/><key>Other</key><string>x</string></dict>").drop 83 := by
  refine ⟨by decide, by decide, by decide⟩

/-- C3 as amended: scoped rewrite isolation holds when the unique marker is
followed, within the 500-character window, by its own record's
`<key>Enabled</key>` and boolean tag: the call rewrites exactly that boolean
and every byte outside it (in particular any sibling dictionary lying in the
prefix or suffix) is unchanged. -/
theorem C3_amended_toggle_isolated
    (m P g w Q : List Char) (b v : Bool)
    (hg : g.length ≤ 500) (hw : ∀ x ∈ w, isWs x)
    (hmiss : ∀ i < g.length, enabledAt ((g ++ (lit "<key>Enabled</key>" ++ w ++
      boolTag b ++ Q)).drop i) = none)
    (hP : ∀ n < P.length, findKext m v ((P ++ (strTok m ++ g ++
      lit "<key>Enabled</key>" ++ w ++ boolTag b ++ Q)).drop n) = none)
    (hQ : ∀ n < Q.length, findKext m v (Q.drop n) = none) :
    toggleKext m v (P ++ (strTok m ++ g ++ lit "<key>Enabled</key>" ++ w ++
      boolTag b ++ Q)) =
      P ++ (strTok m ++ g ++ lit "<key>Enabled</key>" ++ w ++ boolTag v ++ Q) := by
  unfold toggleKext
  rw [applyRule_append P _ hP]
  have h1 := @findKext_complete m g w b v Q hg hmiss hw
  rw [applyRule_head_some (findKext_consuming m v) h1, if_pos rfl]
  have hQfull : ∀ n, findKext m v (Q.drop n) = none := by
    intro n
    by_cases hn : n < Q.length
    · exact hQ n hn
    · rw [List.drop_eq_nil_of_le (by omega)]
      exact findKext_nil m v
  rw [applyRule_of_no_match hQfull]

/-- Witness for the amended C3: the sibling dictionary (with its own
`Enabled` key) sits in the prefix and is untouched; only the marked record's
boolean changes. -/
theorem C3_witness :
    toggleKext (lit "M.kext") true
      (lit "<dict><key>Enabled</key><true/></dict><dict>" ++
        (strTok (lit "M.kext") ++ lit "<key>Comment</key><string>c</string>" ++
        lit "<key>Enabled</key>" ++ lit " " ++ boolTag false ++ lit "</dict>")) =
      lit "<dict><key>Enabled</key><true/></dict><dict>" ++
        (strTok (lit "M.kext") ++ lit "<key>Comment</key><string>c</string>" ++
        lit "<key>Enabled</key>" ++ lit " " ++ boolTag true ++ lit "</dict>") :=
  C3_amended_toggle_isolated (lit "M.kext") _ _ _ _ false true
    (by decide) (by decide) (by decide) (by decide) (by decide)

/-- The non-whitespace predicate used to delimit tokens. -/
def nonWs (c : Char) : Bool := !(isWs c)

theorem length_dropWhile_le (p : Char → Bool) :
    ∀ l : List Char, (l.dropWhile p).length ≤ l.length := by
  intro l
  induction l with
  | nil => simp
  | cons c cs ih =>
    rw [List.dropWhile_cons]
    by_cases h : p c
    · simp only [h, if_pos, List.length_cons]
      omega
    · simp [h]

/-- Fuel-indexed splitter for the whitespace-delimited token list. -/
def tokensF : Nat → List Char → List (List Char)
  | _, [] => []
  | 0, _ => []
  | f + 1, c :: cs =>
    if isWs c then tokensF f cs
    else (c :: cs.takeWhile nonWs) :: tokensF f (cs.dropWhile nonWs)

/-- The whitespace-delimited token list of a boot-args string (used to state
what the merge preserves). -/
def tokens (s : List Char) : List (List Char) := tokensF s.length s

theorem tokens_nil : tokens [] = [] := rfl

theorem tokensF_congr :
    ∀ f1 f2 s, s.length ≤ f1 → s.length ≤ f2 → tokensF f1 s = tokensF f2 s := by
  intro f1
  induction f1 using Nat.strong_induction_on with
  | _ f1 ih =>
    intro f2 s h1 h2
    cases s with
    | nil => cases f1 <;> cases f2 <;> rfl
    | cons c cs =>
      cases f1 with
      | zero => exact absurd h1 (by simp)
      | succ f1p =>
        cases f2 with
        | zero => exact absurd h2 (by simp)
        | succ f2p =>
          simp only [List.length_cons] at h1 h2
          simp only [tokensF]
          by_cases hc : isWs c
          · simp only [hc, if_pos]
            have e1 := ih cs.length (by omega) f1p cs (le_refl _) (by omega)
            have e2 := ih cs.length (by omega) f2p cs (le_refl _) (by omega)
            rw [← e1, ← e2]
          · simp only [hc, Bool.false_eq_true, if_false]
            have hd := length_dropWhile_le nonWs cs
            have e1 := ih (cs.dropWhile nonWs).length (by omega) f1p
              (cs.dropWhile nonWs) (le_refl _) (by omega)
            have e2 := ih (cs.dropWhile nonWs).length (by omega) f2p
              (cs.dropWhile nonWs) (le_refl _) (by omega)
            rw [← e1, ← e2]

/-- Whether the head character exists and is not whitespace. -/
def headNonWs : List Char → Bool
  | [] => false
  | c :: _ => !(isWs c)

theorem isWs_space : isWs ' ' = true := by decide

theorem tokens_cons_ws {c : Char} {cs : List Char} (h : isWs c) :
    tokens (c :: cs) = tokens cs := by
  unfold tokens
  simp only [List.length_cons, tokensF, h, if_pos]

theorem tokens_cons_tok {c : Char} {cs : List Char} (h : ¬ isWs c) :
    tokens (c :: cs) =
      (c :: cs.takeWhile nonWs) :: tokens (cs.dropWhile nonWs) := by
  unfold tokens
  simp only [List.length_cons, tokensF, h, Bool.false_eq_true, if_false]
  have hd := length_dropWhile_le nonWs cs
  rw [tokensF_congr cs.length (cs.dropWhile nonWs).length (cs.dropWhile nonWs)
    (by omega) (le_refl _)]

theorem dropWhile_headws {X : List Char} (h : headNonWs X = false) :
    X.dropWhile nonWs = X ∧ X.takeWhile nonWs = [] := by
  cases X with
  | nil => simp
  | cons x xs =>
    simp only [headNonWs, Bool.not_eq_false'] at h
    constructor
    · rw [List.dropWhile_cons]
      simp [nonWs, h]
    · rw [List.takeWhile_cons]
      simp [nonWs, h]

theorem tokens_head_struct {X : List Char} (h : headNonWs X = true) :
    tokens X = (X.takeWhile nonWs) :: tokens (X.dropWhile nonWs) := by
  cases X with
  | nil => simp [headNonWs] at h
  | cons x xs =>
    simp only [headNonWs, Bool.not_eq_true'] at h
    have hx : ¬ isWs x := by simp [h]
    rw [tokens_cons_tok hx, List.takeWhile_cons, List.dropWhile_cons]
    simp [nonWs, h]

/-- Congruence for `tokens` under a tail replacement that preserves the token
list and the head-whitespace status. -/
theorem tokens_cons_congr {c : Char} {X Y : List Char}
    (htok : tokens X = tokens Y) (hhead : headNonWs X = headNonWs Y) :
    tokens (c :: X) = tokens (c :: Y) := by
  by_cases hc : isWs c
  · rw [tokens_cons_ws hc, tokens_cons_ws hc, htok]
  · rw [tokens_cons_tok hc, tokens_cons_tok hc]
    cases hX : headNonWs X with
    | false =>
      have hY : headNonWs Y = false := by rw [← hhead, hX]
      obtain ⟨hdX, htX⟩ := dropWhile_headws hX
      obtain ⟨hdY, htY⟩ := dropWhile_headws hY
      rw [hdX, hdY, htX, htY, htok]
    | true =>
      have hY : headNonWs Y = true := by rw [← hhead, hX]
      have hsX := tokens_head_struct hX
      have hsY := tokens_head_struct hY
      rw [hsX, hsY] at htok
      injection htok with h1 h2
      rw [h1, h2]

theorem headNonWs_collapseWs : ∀ s, headNonWs (collapseWs s) = headNonWs s
  | [] => rfl
  | [c] => by
    by_cases h : isWs c <;>
      simp [collapseWs, headNonWs, h, isWs_space]
  | c1 :: c2 :: cs => by
    by_cases h1 : isWs c1
    · by_cases h2 : isWs c2
      · rw [collapseWs]
        simp only [h1, h2, Bool.and_self, if_pos]
        rw [headNonWs_collapseWs (c2 :: cs)]
        simp [headNonWs, h1, h2]
      · rw [collapseWs]
        simp only [h1, h2, Bool.and_false, Bool.false_eq_true, if_false, if_pos]
        simp [headNonWs, h1, isWs_space]
    · rw [collapseWs]
      simp only [h1, Bool.false_and, Bool.false_eq_true, if_false, if_neg]
      simp [headNonWs, h1]

/-- Collapsing whitespace runs preserves the token list. -/
theorem tokens_collapseWs : ∀ s, tokens (collapseWs s) = tokens s
  | [] => rfl
  | [c] => by
    by_cases h : isWs c
    · rw [show collapseWs [c] = [' '] from by simp [collapseWs, h]]
      rw [tokens_cons_ws isWs_space, tokens_cons_ws h]
    · rw [show collapseWs [c] = [c] from by simp [collapseWs, h]]
  | c1 :: c2 :: cs => by
    by_cases h1 : isWs c1
    · by_cases h2 : isWs c2
      · rw [collapseWs]
        simp only [h1, h2, Bool.and_self, if_pos]
        rw [tokens_collapseWs (c2 :: cs), tokens_cons_ws h1]
      · rw [collapseWs]
        simp only [h1, h2, Bool.and_false, Bool.false_eq_true, if_false, if_pos]
        rw [tokens_cons_ws isWs_space, tokens_collapseWs (c2 :: cs),
          tokens_cons_ws h1]
    · rw [collapseWs]
      simp only [h1, Bool.false_and, Bool.false_eq_true, if_false, if_neg]
      exact tokens_cons_congr (tokens_collapseWs (c2 :: cs))
        (headNonWs_collapseWs (c2 :: cs))

theorem tokens_all_ws {w : List Char} (h : ∀ x ∈ w, isWs x) : tokens w = [] := by
  induction w with
  | nil => rfl
  | cons c cs ih =>
    rw [tokens_cons_ws (h c (by simp))]
    exact ih (fun x hx => h x (by simp [hx]))

/-- Appending trailing whitespace preserves the token list. -/
theorem tokens_append_ws {w : List Char} (hw : ∀ x ∈ w, isWs x) :
    ∀ a, tokens (a ++ w) = tokens a
  | [] => by simpa using tokens_all_ws hw
  | c :: cs => by
    have htok := tokens_append_ws hw cs
    have hhead : headNonWs (cs ++ w) = headNonWs cs := by
      cases cs with
      | nil =>
        cases w with
        | nil => rfl
        | cons g gs => simp [headNonWs, hw g (by simp)]
      | cons d ds => rfl
    exact tokens_cons_congr htok hhead

theorem tokens_dropWhile_ws : ∀ s : List Char, tokens (s.dropWhile isWs) = tokens s
  | [] => rfl
  | c :: cs => by
    by_cases h : isWs c
    · rw [List.dropWhile_cons, if_pos h, tokens_dropWhile_ws cs, tokens_cons_ws h]
    · rw [List.dropWhile_cons, if_neg h]

/-- Trimming preserves the token list. -/
theorem tokens_trimWs (s : List Char) : tokens (trimWs s) = tokens s := by
  unfold trimWs
  rw [← tokens_dropWhile_ws s]
  set u := s.dropWhile isWs with hu
  have hw : ∀ x ∈ (u.reverse.takeWhile isWs).reverse, isWs x := by
    intro x hx
    rw [List.mem_reverse] at hx
    exact List.mem_takeWhile_imp hx
  have hsplit : u = (u.reverse.dropWhile isWs).reverse ++
      (u.reverse.takeWhile isWs).reverse := by
    have h2 : u.reverse.takeWhile isWs ++ u.reverse.dropWhile isWs = u.reverse :=
      List.takeWhile_append_dropWhile isWs u.reverse
    have h3 := congrArg List.reverse h2
    rw [List.reverse_append, List.reverse_reverse] at h3
    exact h3.symm
  conv_rhs => rw [hsplit]
  exact (tokens_append_ws hw _).symm

/-- A single whitespace-free nonempty word is one token. -/
theorem tokens_word {tk : List Char} (hne : tk ≠ []) (hnw : ∀ x ∈ tk, ¬ isWs x) :
    tokens tk = [tk] := by
  cases tk with
  | nil => exact absurd rfl hne
  | cons c cs =>
    have hc : ¬ isWs c := hnw c (by simp)
    rw [tokens_cons_tok hc]
    have ht : cs.takeWhile nonWs = cs := by
      rw [List.takeWhile_eq_self_iff]
      intro x hx
      simp [nonWs, hnw x (by simp [hx])]
    have hd : cs.dropWhile nonWs = [] := by
      have := List.takeWhile_append_dropWhile nonWs cs
      rw [ht] at this
      have hlen := congrArg List.length this
      simp only [List.length_append] at hlen
      exact List.eq_nil_of_length_eq_zero (by omega)
    rw [ht, hd]
    rfl

/-- The token list splits at an explicit space separator. -/
theorem tokens_append_sep : ∀ a b : List Char, tokens (a ++ ' ' :: b) = tokens a ++ tokens b
  | [], b => by
    rw [List.nil_append, tokens_cons_ws isWs_space]
    rfl
  | c :: cs, b => by
    by_cases hc : isWs c
    · rw [List.cons_append, tokens_cons_ws hc, tokens_cons_ws hc,
        tokens_append_sep cs b]
    · rw [List.cons_append, tokens_cons_tok hc, tokens_cons_tok hc]
      have htw : (cs ++ ' ' :: b).takeWhile nonWs = cs.takeWhile nonWs := by
        rw [List.takeWhile_append]
        by_cases hlen : (cs.takeWhile nonWs).length = cs.length
        · rw [if_pos hlen]
          have hsb : (' ' :: b).takeWhile nonWs = [] := by
            rw [List.takeWhile_cons]
            simp [nonWs, isWs_space]
          have hpre : cs.takeWhile nonWs <+: cs := List.takeWhile_prefix nonWs
          have hcs : cs.takeWhile nonWs = cs := hpre.eq_of_length hlen
          rw [hsb, List.append_nil, hcs]
        · rw [if_neg hlen]
      cases hDW : cs.dropWhile nonWs with
      | nil =>
        rw [htw]
        rw [show (cs ++ ' ' :: b).dropWhile nonWs = ' ' :: b from by
          rw [List.dropWhile_append, hDW]
          simp [List.dropWhile_cons, nonWs, isWs_space]]
        rw [tokens_cons_ws isWs_space]
        simp [tokens_nil]
      | cons d ds =>
        rw [htw]
        rw [show (cs ++ ' ' :: b).dropWhile nonWs = (d :: ds) ++ ' ' :: b from by
          rw [List.dropWhile_append, hDW]
          simp]
        rw [tokens_append_sep (d :: ds) b]
        simp
termination_by a b => a.length
decreasing_by
· simp only [List.length_cons]
  omega
· have hle := length_dropWhile_le nonWs cs
  rw [hDW] at hle
  simp only [List.length_cons] at hle ⊢
  omega

/-- Appending a separator and a whitespace-free token appends one token. -/
theorem tokens_append_tok {a tk : List Char} (hne : tk ≠ [])
    (hnw : ∀ x ∈ tk, ¬ isWs x) :
    tokens (a ++ (' ' :: tk)) = tokens a ++ [tk] := by
  rw [tokens_append_sep, tokens_word hne hnw]

theorem stripPre_append_some {p s r x : List Char} (h : stripPre p s = some r) :
    stripPre p (s ++ x) = some (r ++ x) := by
  rw [stripPre_eq_some] at h ⊢
  rw [h]
  simp

theorem hasSub_exists {p s : List Char} (h : hasSub p s = true) :
    ∃ n r, stripPre p (s.drop n) = some r := by
  induction s with
  | nil =>
    simp only [hasSub] at h
    cases hp : stripPre p ([] : List Char) with
    | none => rw [hp] at h; simp at h
    | some w => exact ⟨0, w, by simpa using hp⟩
  | cons c cs ih =>
    simp only [hasSub, Bool.or_eq_true] at h
    rcases h with h | h
    · cases hp : stripPre p (c :: cs) with
      | none => rw [hp] at h; simp at h
      | some w => exact ⟨0, w, by simpa using hp⟩
    · obtain ⟨n, r, hnr⟩ := ih h
      exact ⟨n + 1, r, by simpa using hnr⟩

theorem hasSub_append_left {p a b : List Char} (h : hasSub p a = true) :
    hasSub p (a ++ b) = true := by
  obtain ⟨n, r, hnr⟩ := hasSub_exists h
  by_cases hn : n ≤ a.length
  · have hdrop : (a ++ b).drop n = a.drop n ++ b :=
      List.drop_append_of_le_length hn
    exact hasSub_true_of_stripPre
      (show stripPre p ((a ++ b).drop n) = some (r ++ b) from by
        rw [hdrop]; exact stripPre_append_some hnr)
  · have hd0 : a.drop n = [] := List.drop_eq_nil_of_le (by omega)
    rw [hd0] at hnr
    have hp : p = [] := by
      have := stripPre_eq_some.mp hnr
      cases p with
      | nil => rfl
      | cons q qs => simp at this
    subst hp
    exact hasSub_true_of_stripPre
      (show stripPre [] ((a ++ b).drop 0) = some (a ++ b) from rfl)

theorem hasSub_append_right {p a b : List Char} (h : hasSub p b = true) :
    hasSub p (a ++ b) = true := by
  obtain ⟨n, r, hnr⟩ := hasSub_exists h
  refine hasSub_true_of_stripPre
    (show stripPre p ((a ++ b).drop (a.length + n)) = some r from ?_)
  rw [List.drop_append]
  exact hnr

/-- Splitting an `includes` test over a space separator: a pattern without a
space cannot straddle the boundary. -/
theorem hasSub_append_sep {p a b : List Char} (hsep : ' ' ∉ p) :
    hasSub p (a ++ ' ' :: b) = (hasSub p a || hasSub p (' ' :: b)) := by
  have himp : hasSub p (a ++ ' ' :: b) = true →
      (hasSub p a = true ∨ hasSub p (' ' :: b) = true) := by
    intro hL
    obtain ⟨n, r, hnr⟩ := hasSub_exists hL
    by_cases hn : n ≤ a.length
    · have hdrop : (a ++ ' ' :: b).drop n = a.drop n ++ ' ' :: b :=
        List.drop_append_of_le_length hn
      rw [hdrop] at hnr
      have heq := (stripPre_eq_some.mp hnr)
      rcases List.append_eq_append_iff.mp heq with ⟨w, hw1, hw2⟩ | ⟨w, hw1, hw2⟩
      · cases w with
        | nil =>
          left
          refine hasSub_true_of_stripPre
            (show stripPre p (a.drop n) = some [] from ?_)
          rw [stripPre_eq_some]
          simpa using hw1.symm
        | cons w0 wr =>
          exfalso
          have hw0 : w0 = ' ' := by
            have := hw2
            simp only [List.cons_append] at this
            exact (List.cons.injEq .. ▸ this).1.symm
          subst hw0
          exact hsep (by simp [hw1])
      · left
        exact hasSub_true_of_stripPre
          (show stripPre p (a.drop n) = some w from stripPre_eq_some.mpr hw1)
    · right
      obtain ⟨m, hm⟩ : ∃ m, n = a.length + m := ⟨n - a.length, by omega⟩
      subst hm
      rw [List.drop_append] at hnr
      exact hasSub_true_of_stripPre hnr
  cases hA : hasSub p a with
  | true => simp [hasSub_append_left hA]
  | false =>
    cases hB : hasSub p (' ' :: b) with
    | true => simp [hasSub_append_right hB]
    | false =>
      simp only [Bool.or_self]
      cases hL : hasSub p (a ++ ' ' :: b) with
      | false => rfl
      | true =>
        rcases himp hL with h | h
        · rw [hA] at h; exact absurd h (by simp)
        · rw [hB] at h; exact absurd h (by simp)

/-- Counterexample to C2: membership in the whitespace-delimited token set is
not what the code tests — both merge implementations use a substring test
(`String.includes`).  With boot-args `-verbose debug=0x100 keepsyms=1`, the
token `-v` is not a member of the token set, yet the golden-template merge
appends nothing because `-v` occurs as a substring of `-verbose`; likewise
`main.js` leaves `x-v` unchanged when verbose is requested.  The `main.js`
append branch also does not collapse whitespace runs. -/
theorem C2_counterexample :
    mergeTokens (lit "-verbose debug=0x100 keepsyms=1") =
      lit "-verbose debug=0x100 keepsyms=1" ∧
    (lit "-v") ∉ tokens (lit "-verbose debug=0x100 keepsyms=1") ∧
    (lit "-v") ∉ tokens (mergeTokens (lit "-verbose debug=0x100 keepsyms=1")) ∧
    mainMergeArgs true (lit "x-v") = lit "x-v" ∧
    mainMergeArgs true (lit "a  b") = lit "a  b -v" ∧
    hasSub (lit "  ") (mainMergeArgs true (lit "a  b")) = true := by
  refine ⟨by decide, by decide, by decide, by decide, by decide, by decide⟩

/-- C2 as amended: the boot-args merge is additive over the token list with a
substring (not token-membership) presence test.  For every current boot-args
string the merged token list is the original token list, in order, followed
by exactly the required tokens that were absent as substrings (whitespace
runs are collapsed and the result trimmed, which the token list is invariant
under).  The spec's examples hold in the `main.js` verbose-only merge, which
appends ` -v` verbatim. -/
theorem C2_boot_args_merge_amended :
    (∀ cur : List Char,
      tokens (mergeTokens cur) =
        ((tokens cur ++
          (if hasSub (lit "debug=0x100") cur then [] else [lit "debug=0x100"])) ++
          (if hasSub (lit "keepsyms=1") cur then [] else [lit "keepsyms=1"])) ++
          (if hasSub (lit "-v") cur then [] else [lit "-v"])) ∧
    mergeTokens (lit "-v") = lit "-v debug=0x100 keepsyms=1" ∧
    mergeTokens (lit "keepsyms=1") = lit "keepsyms=1 debug=0x100 -v" ∧
    mainMergeArgs true (lit "-v") = lit "-v" ∧
    mainMergeArgs true (lit "keepsyms=1") = lit "keepsyms=1 -v" := by
  refine ⟨?_, by decide, by decide, by decide, by decide⟩
  intro cur
  have hdl : lit " debug=0x100" = ' ' :: lit "debug=0x100" := rfl
  have hkl : lit " keepsyms=1" = ' ' :: lit "keepsyms=1" := rfl
  have hvl : lit " -v" = ' ' :: lit "-v" := rfl
  have hdw : ∀ x ∈ lit "debug=0x100", ¬ isWs x := by decide
  have hkw : ∀ x ∈ lit "keepsyms=1", ¬ isWs x := by decide
  have hvw : ∀ x ∈ lit "-v", ¬ isWs x := by decide
  have hdn : lit "debug=0x100" ≠ [] := by decide
  have hkn : lit "keepsyms=1" ≠ [] := by decide
  have hvn : lit "-v" ≠ [] := by decide
  unfold mergeTokens
  dsimp only
  rw [tokens_trimWs, tokens_collapseWs]
  by_cases h1 : hasSub (lit "debug=0x100") cur = true
  · rw [if_pos h1]
    by_cases h2 : hasSub (lit "keepsyms=1") cur = true
    · rw [if_pos h2]
      by_cases h3 : hasSub (lit "-v") cur = true
      · rw [if_pos h3, if_pos h1, if_pos h2, if_pos h3]
        simp
      · rw [if_neg h3, if_pos h1, if_pos h2, if_neg h3]
        rw [hvl, tokens_append_tok hvn hvw]
        simp
    · rw [if_neg h2]
      have e3 : hasSub (lit "-v") (cur ++ lit " keepsyms=1") =
          hasSub (lit "-v") cur := by
        rw [hkl, hasSub_append_sep (by decide)]
        rw [show hasSub (lit "-v") (' ' :: lit "keepsyms=1") = false from by decide]
        simp
      rw [e3]
      by_cases h3 : hasSub (lit "-v") cur = true
      · rw [if_pos h3, if_pos h1, if_neg h2, if_pos h3]
        rw [hkl, tokens_append_tok hkn hkw]
        simp
      · rw [if_neg h3, if_pos h1, if_neg h2, if_neg h3]
        rw [hvl, tokens_append_tok hvn hvw, hkl, tokens_append_tok hkn hkw]
        simp
  · rw [if_neg h1]
    have e2 : hasSub (lit "keepsyms=1") (cur ++ lit " debug=0x100") =
        hasSub (lit "keepsyms=1") cur := by
      rw [hdl, hasSub_append_sep (by decide)]
      rw [show hasSub (lit "keepsyms=1") (' ' :: lit "debug=0x100") = false from by decide]
      simp
    rw [e2]
    by_cases h2 : hasSub (lit "keepsyms=1") cur = true
    · rw [if_pos h2]
      have e3 : hasSub (lit "-v") (cur ++ lit " debug=0x100") =
          hasSub (lit "-v") cur := by
        rw [hdl, hasSub_append_sep (by decide)]
        rw [show hasSub (lit "-v") (' ' :: lit "debug=0x100") = false from by decide]
        simp
      rw [e3]
      by_cases h3 : hasSub (lit "-v") cur = true
      · rw [if_pos h3, if_neg h1, if_pos h2, if_pos h3]
        rw [hdl, tokens_append_tok hdn hdw]
        simp
      · rw [if_neg h3, if_neg h1, if_pos h2, if_neg h3]
        rw [hvl, tokens_append_tok hvn hvw, hdl, tokens_append_tok hdn hdw]
        simp
    · rw [if_neg h2]
      have e3 : hasSub (lit "-v") ((cur ++ lit " debug=0x100") ++ lit " keepsyms=1") =
          hasSub (lit "-v") cur := by
        rw [hkl, hasSub_append_sep (by decide)]
        rw [show hasSub (lit "-v") (' ' :: lit "keepsyms=1") = false from by decide]
        rw [hdl, hasSub_append_sep (by decide)]
        rw [show hasSub (lit "-v") (' ' :: lit "debug=0x100") = false from by decide]
        simp
      rw [e3]
      by_cases h3 : hasSub (lit "-v") cur = true
      · rw [if_pos h3, if_neg h1, if_neg h2, if_pos h3]
        rw [hkl, tokens_append_tok hkn hkw, hdl, tokens_append_tok hdn hdw]
        simp
      · rw [if_neg h3, if_neg h1, if_neg h2, if_neg h3]
        rw [hvl, tokens_append_tok hvn hvw, hkl, tokens_append_tok hkn hkw,
          hdl, tokens_append_tok hdn hdw]

/-- Counterexample to C4: `.` in the rewriter's regex does not match line
terminators, so an occurrence of `<key>K</key>` followed by the open tag whose
value contains a newline is left unrewritten — not every occurrence of the
key-plus-open-tag pattern has its content replaced. -/
theorem C4_counterexample :
    replaceStringValue (lit "K") (lit "VAL")
      (lit "<key>K</key><string>a\nb</string>") =
      lit "<key>K</key><string>a\nb</string>" ∧
    lit "<key>K</key><string>a\nb</string>" ≠
      lit "<key>K</key><string>VAL</string>" := by
  refine ⟨by decide, by decide⟩

/-- A document decomposed around occurrences of a key-tagged element: each
block is a match-free gap, the occurrence's whitespace and its content; the
tail follows the last occurrence. -/
def assembleKT (k o c : List Char) :
    List (List Char × List Char × List Char) → List Char → List Char
  | [], tail => tail
  | (gap, ws, content) :: rest, tail =>
    gap ++ (keyTok k ++ ws ++ o ++ content ++ c ++ assembleKT k o c rest tail)

/-- Well-formedness of such a decomposition with respect to the rewriter:
gaps contain no match start, whitespace blocks are whitespace, contents have
no early close-tag match and no line terminator, and the tail has no match. -/
def KTwf (k : List Char) (o0 : Char) (orest : List Char) (cq : Char)
    (cqs v : List Char) :
    List (List Char × List Char × List Char) → List Char → Prop
  | [], tail => ∀ n < tail.length,
      findKeyTagged k (o0 :: orest) (cq :: cqs) v (tail.drop n) = none
  | (gap, ws, content) :: rest, tail =>
    (∀ n < gap.length, findKeyTagged k (o0 :: orest) (cq :: cqs) v
      ((assembleKT k (o0 :: orest) (cq :: cqs) ((gap, ws, content) :: rest)
        tail).drop n) = none) ∧
    (∀ x ∈ ws, isWs x) ∧
    (∀ i < content.length, stripPre (cq :: cqs)
      ((content ++ (cq :: cqs) ++
        assembleKT k (o0 :: orest) (cq :: cqs) rest tail).drop i) = none) ∧
    (∀ x ∈ content, ¬ isLineTerm x) ∧
    KTwf k o0 orest cq cqs v rest tail

theorem findKeyTagged_nil (k o c v : List Char) :
    findKeyTagged k o c v [] = none := by
  refine findKeyTagged_none ?_
  rw [keyTok_head]
  rfl

/-- C4 as amended: one rewriter call rewrites the value content of every
well-formed occurrence (key, whitespace, open tag, single-line content, close
tag) to the new value, writing it identically at each occurrence, and no byte
outside the content spans changes — gaps, keys, whitespace and tags are
reproduced verbatim. -/
theorem C4_amended_rewrites_all_occurrences (k : List Char) (o0 : Char)
    (orest : List Char) (cq : Char) (cqs v : List Char) (ho : ¬ isWs o0)
    (segs : List (List Char × List Char × List Char)) (tail : List Char)
    (hwf : KTwf k o0 orest cq cqs v segs tail) :
    applyRule (findKeyTagged k (o0 :: orest) (cq :: cqs) v) true
        (assembleKT k (o0 :: orest) (cq :: cqs) segs tail) =
      assembleKT k (o0 :: orest) (cq :: cqs)
        (segs.map (fun s => (s.1, s.2.1, v))) tail := by
  induction segs with
  | nil =>
    simp only [assembleKT, List.map_nil]
    refine applyRule_of_no_match (fun n => ?_)
    by_cases hn : n < tail.length
    · exact hwf n hn
    · rw [List.drop_eq_nil_of_le (by omega)]
      exact findKeyTagged_nil _ _ _ _
  | cons seg rest ih =>
    obtain ⟨gap, ws, content⟩ := seg
    obtain ⟨hgap, hws, hmiss, hlt, hrest⟩ := hwf
    simp only [assembleKT] at hgap ⊢
    rw [applyRule_append gap _ hgap]
    rw [applyRule_head_some (findKeyTagged_consuming _ _ _ _)
      (findKeyTagged_complete hws ho hmiss hlt), if_pos rfl]
    rw [ih hrest]

/-- Witness for the amended C4: a document with two serial-number elements
(and an unrelated key in between) has both values rewritten identically and
everything else byte-identical. -/
theorem C4_witness :
    applyRule (findKeyTagged (lit "SystemSerialNumber")
        (lit "<string>") (lit "</string>") (lit "C02XYZ123")) true
      (assembleKT (lit "SystemSerialNumber") (lit "<string>") (lit "</string>")
        [(lit "<dict>", lit "\n\t", lit "PLACEHOLDER"),
         (lit "<key>Other</key><string>keep</string>", lit " ", lit "OLD")]
        (lit "</dict>")) =
      assembleKT (lit "SystemSerialNumber") (lit "<string>") (lit "</string>")
        [(lit "<dict>", lit "\n\t", lit "C02XYZ123"),
         (lit "<key>Other</key><string>keep</string>", lit " ", lit "C02XYZ123")]
        (lit "</dict>") := by
  have h := C4_amended_rewrites_all_occurrences (lit "SystemSerialNumber")
    '<' (lit "string>") '<' (lit "/string>") (lit "C02XYZ123") (by decide)
    [(lit "<dict>", lit "\n\t", lit "PLACEHOLDER"),
     (lit "<key>Other</key><string>keep</string>", lit " ", lit "OLD")]
    (lit "</dict>")
    (by
      refine ⟨by decide, by decide, by decide, by decide,
        by decide, by decide, by decide, by decide, by unfold KTwf; decide⟩)
  exact h

/-- C8: no partial write.  Across all outcomes of the file-system calls, the
patched output is written at most once, any written patched content is the
full pipeline result (all rules applied in memory before the write), and when
an error is surfaced no patched write has happened at all. -/
theorem C8_no_partial_write (fl : IOFlags) (template : List Char)
    (sm : Option Smbios) (mv : Option (List Char)) (vb : Bool) :
    (∀ c, IOEvent.writeDest c ∈ (injectConfigRun fl template sm mv vb).1 →
      c = injectPatch sm mv vb template) ∧
    ((injectConfigRun fl template sm mv vb).1.countP IOEvent.isWrite ≤ 1) ∧
    ((injectConfigRun fl template sm mv vb).2.isSome = true →
      ∀ c, IOEvent.writeDest c ∉ (injectConfigRun fl template sm mv vb).1) := by
  obtain ⟨te, co, ro, wo⟩ := fl
  cases te <;> cases co <;> cases ro <;> cases wo <;>
    simp [injectConfigRun, IOEvent.isWrite]

/-- Witness for C8: with a failing write no patched content reaches the
output path, and on the success path the single write carries the fully
patched text. -/
theorem C8_witness :
    (IOEvent.writeDest (lit "X") ∉
      (injectConfigRun ⟨true, true, true, false⟩ (lit "T") none none true).1) ∧
    ((lit "Y") = injectPatch none none true (lit "T") →
      IOEvent.writeDest (lit "Y") ∈
        (injectConfigRun ⟨true, true, true, true⟩ (lit "T") none none true).1 →
      (lit "Y") = injectPatch none none true (lit "T")) :=
  ⟨(C8_no_partial_write ⟨true, true, true, false⟩ (lit "T") none none true).2.2
      (by decide) (lit "X"),
    fun _ hm => (C8_no_partial_write ⟨true, true, true, true⟩ (lit "T")
      none none true).1 (lit "Y") hm⟩

/-- One version-tagged WiFi kext record: bundle-filename string followed by
its Enabled boolean. -/
def wifiRec (name : List Char) (b : Bool) : List Char :=
  lit "<string>" ++ name ++ lit "</string><key>Enabled</key>" ++
    (if b then lit "<true/>" else lit "<false/>")

/-- A document holding all six version-tagged WiFi kext variants with the
given Enabled states. -/
def wifiDocOf (b1 b2 b3 b4 b5 b6 : Bool) : List Char :=
  wifiRec (lit "AirportItlwm-Catalina.kext") b1 ++
  wifiRec (lit "AirportItlwm-BigSur.kext") b2 ++
  wifiRec (lit "AirportItlwm-Monterey.kext") b3 ++
  wifiRec (lit "AirportItlwm-Ventura.kext") b4 ++
  wifiRec (lit "AirportItlwm-Sonoma.kext") b5 ++
  wifiRec (lit "AirportItlwm-Sonoma144.kext") b6

/-- The Enabled states the version if-chain produces: the matched variant
(Sonoma and Sequoia both map to the Sonoma144 build), or none when no prefix
is recognized. -/
def wifiSel (mv : List Char) : Bool × Bool × Bool × Bool × Bool × Bool :=
  if startsWith (lit "Catalina") mv || startsWith (lit "10.15") mv then
    (true, false, false, false, false, false)
  else if startsWith (lit "Big Sur") mv || startsWith (lit "11.") mv then
    (false, true, false, false, false, false)
  else if startsWith (lit "Monterey") mv || startsWith (lit "12.") mv then
    (false, false, true, false, false, false)
  else if startsWith (lit "Ventura") mv || startsWith (lit "13.") mv then
    (false, false, false, true, false, false)
  else if startsWith (lit "Sonoma") mv || startsWith (lit "14.") mv then
    (false, false, false, false, false, true)
  else if startsWith (lit "Sequoia") mv || startsWith (lit "15.") mv then
    (false, false, false, false, false, true)
  else (false, false, false, false, false, false)

/-- Counterexample to C9: a version tag matching none of the recognized
prefixes (here "10.13") disables every variant and enables none, so after
the step zero variants are enabled, not exactly one — even though the
document held all six variants and one was enabled before the step. -/
theorem C9_counterexample :
    hasSub (lit "<true/>")
      (kextSelection (lit "10.13")
        (wifiDocOf false false false false true false)) = false ∧
    hasSub (lit "<true/>") (wifiDocOf false false false false true false)
      = true := by
  refine ⟨by decide, by decide⟩

/-- C9 as amended: on a document holding all six variants (all initially
enabled), the selection step first disables every variant and then enables
exactly the variant the recognized version prefix maps to (Sonoma and
Sequoia both map to Sonoma144); an unrecognized tag leaves all six
disabled. -/
theorem C9_amended_selects_mapped_variant (mv : List Char) :
    kextSelection mv (wifiDocOf true true true true true true) =
      wifiDocOf (wifiSel mv).1 (wifiSel mv).2.1 (wifiSel mv).2.2.1
        (wifiSel mv).2.2.2.1 (wifiSel mv).2.2.2.2.1 (wifiSel mv).2.2.2.2.2 := by
  have hdis : toggleKext (lit "AirportItlwm-Sonoma144.kext") false
      (toggleKext (lit "AirportItlwm-Sonoma.kext") false
      (toggleKext (lit "AirportItlwm-Ventura.kext") false
      (toggleKext (lit "AirportItlwm-Monterey.kext") false
      (toggleKext (lit "AirportItlwm-BigSur.kext") false
      (toggleKext (lit "AirportItlwm-Catalina.kext") false
      (wifiDocOf true true true true true true)))))) =
      wifiDocOf false false false false false false := by decide
  simp only [kextSelection, wifiSel]
  rw [hdis]
  by_cases h1 : (startsWith (lit "Catalina") mv || startsWith (lit "10.15") mv)
    = true
  · rw [if_pos h1, if_pos h1]
    decide
  · rw [if_neg h1, if_neg h1]
    by_cases h2 : (startsWith (lit "Big Sur") mv || startsWith (lit "11.") mv)
      = true
    · rw [if_pos h2, if_pos h2]
      decide
    · rw [if_neg h2, if_neg h2]
      by_cases h3 : (startsWith (lit "Monterey") mv
        || startsWith (lit "12.") mv) = true
      · rw [if_pos h3, if_pos h3]
        decide
      · rw [if_neg h3, if_neg h3]
        by_cases h4 : (startsWith (lit "Ventura") mv
          || startsWith (lit "13.") mv) = true
        · rw [if_pos h4, if_pos h4]
          decide
        · rw [if_neg h4, if_neg h4]
          by_cases h5 : (startsWith (lit "Sonoma") mv
            || startsWith (lit "14.") mv) = true
          · rw [if_pos h5, if_pos h5]
            decide
          · rw [if_neg h5, if_neg h5]
            by_cases h6 : (startsWith (lit "Sequoia") mv
              || startsWith (lit "15.") mv) = true
            · rw [if_pos h6, if_pos h6]
              decide
            · rw [if_neg h6, if_neg h6]

/-- Witness for the amended C9 at the concrete tag "Sonoma": only the
Sonoma144 variant ends enabled. -/
theorem C9_witness :
    kextSelection (lit "Sonoma") (wifiDocOf true true true true true true) =
      wifiDocOf false false false false false true := by
  have h := C9_amended_selects_mapped_variant (lit "Sonoma")
  rw [h]
  decide

/-- A matcher is silent on a document when every match, at every position, is
byte-preserving: the replacement plus remainder reproduces the suffix. -/
def SilentOn (f : Find) (u : List Char) : Prop :=
  ∀ n r rest, f (u.drop n) = some (r, rest) → u.drop n = r ++ rest

theorem silentOn_drop {f : Find} {u : List Char} (h : SilentOn f u) (j : Nat) :
    SilentOn f (u.drop j) := by
  intro n r rest hm
  rw [List.drop_drop] at hm
  have hv := h _ r rest hm
  rw [List.drop_drop]
  exact hv

/-- A rule application is the identity on a document the matcher is silent
on. -/
theorem applyRule_id_of_silent {f : Find} (hf : Consuming f) {g : Bool}
    {u : List Char} (h : SilentOn f u) : applyRule f g u = u := by
  have main : ∀ N u, List.length u ≤ N → SilentOn f u → applyRule f g u = u := by
    intro N
    induction N with
    | zero =>
      intro u hu _
      rw [List.length_eq_zero.mp (Nat.le_zero.mp hu)]
      rfl
    | succ N ih =>
      intro u hu hsil
      cases u with
      | nil => rfl
      | cons c cs =>
        cases hm : f (c :: cs) with
        | none =>
          rw [applyRule_head_none hm]
          have hcs : SilentOn f cs := by
            have := silentOn_drop hsil 1
            simpa using this
          simp only [List.length_cons] at hu
          rw [ih cs (by omega) hcs]
        | some pr =>
          obtain ⟨r, rest⟩ := pr
          rw [applyRule_head_some hf hm]
          have he : c :: cs = r ++ rest := by
            have := hsil 0 r rest (by simpa using hm)
            simpa using this
          have hrest : SilentOn f rest := by
            have h2 := silentOn_drop hsil r.length
            rw [show (c :: cs).drop r.length = rest by rw [he]; simp] at h2
            exact h2
          have hlen := hf _ _ _ hm
          simp only [List.length_cons] at hu hlen
          rw [ih rest (by omega) hrest]
          cases g <;> simp [he]
  exact main u.length u (le_refl _) h

/-- Leftmost-match dichotomy: the matcher either fails at every suffix or has
a first match position. -/
theorem first_match (f : Find) (s : List Char) :
    (∀ n, f (s.drop n) = none) ∨
    ∃ p r rest, f (s.drop p) = some (r, rest) ∧
      ∀ j < p, f (s.drop j) = none := by
  by_cases h : ∃ n, (f (s.drop n)).isSome = true
  · right
    have hp := Nat.find_spec h
    cases hm : f (s.drop (Nat.find h)) with
    | none => rw [hm] at hp; simp at hp
    | some pr =>
      obtain ⟨r, rest⟩ := pr
      refine ⟨Nat.find h, r, rest, hm, fun j hj => ?_⟩
      have := Nat.find_min h hj
      cases hj2 : f (s.drop j) with
      | none => rfl
      | some w => rw [hj2] at this; simp at this
  · left
    intro n
    cases hm : f (s.drop n) with
    | none => rfl
    | some w => exact absurd ⟨n, by simp [hm]⟩ h

theorem stripPre_append_some_left {a b s r : List Char}
    (h : stripPre (a ++ b) s = some r) : stripPre a s = some (b ++ r) := by
  rw [stripPre_eq_some] at h ⊢
  simp [h]

/-- A successful pattern match reading only bytes of `A` transfers to any
continuation. -/
theorem stripPre_stable_some {pat A X X' w : List Char}
    (hlen : pat.length ≤ A.length) (h : stripPre pat (A ++ X) = some w) :
    ∃ w', stripPre pat (A ++ X') = some w' := by
  rw [stripPre_eq_some] at h
  have htake : A.take pat.length = pat := by
    have h1 : (A ++ X).take pat.length = A.take pat.length := by
      rw [List.take_append_eq_append_take]
      simp [Nat.sub_eq_zero_of_le hlen]
    have h2 : (pat ++ w).take pat.length = pat := by
      rw [List.take_append_eq_append_take]
      simp
    rw [← h1, h, h2]
  refine ⟨A.drop pat.length ++ X', ?_⟩
  rw [stripPre_eq_some]
  conv_lhs => rw [← List.take_append_drop pat.length A]
  rw [htake]
  simp

theorem stripPre_stable_none {pat A X X' : List Char}
    (hlen : pat.length ≤ A.length) (h : stripPre pat (A ++ X) = none) :
    stripPre pat (A ++ X') = none := by
  cases hm : stripPre pat (A ++ X') with
  | none => rfl
  | some w =>
    obtain ⟨w', hw'⟩ := stripPre_stable_some hlen hm
    rw [h] at hw'
    exact absurd hw' (by simp)

/-- The lazy scan stops at the first pattern match: no earlier suffix of the
content matches the pattern. -/
theorem lazyDotUntil_no_early {pat s content r : List Char}
    (h : lazyDotUntil pat s = some (content, r)) :
    ∀ i < content.length, stripPre pat (s.drop i) = none := by
  induction s generalizing content with
  | nil =>
    simp only [lazyDotUntil] at h
    cases hp : stripPre pat ([] : List Char) with
    | none => rw [hp] at h; exact absurd h (by simp)
    | some w =>
      rw [hp] at h
      simp only [Option.some.injEq, Prod.mk.injEq] at h
      obtain ⟨h1, h2⟩ := h
      subst h1
      intro i hi
      simp at hi
  | cons c cs ih =>
    simp only [lazyDotUntil] at h
    cases hp : stripPre pat (c :: cs) with
    | some w =>
      rw [hp] at h
      simp only [Option.some.injEq, Prod.mk.injEq] at h
      obtain ⟨h1, h2⟩ := h
      subst h1
      intro i hi
      simp at hi
    | none =>
      rw [hp] at h
      by_cases hlt : isLineTerm c
      · simp [hlt] at h
      · rw [if_neg hlt] at h
        cases hrec : lazyDotUntil pat cs with
        | none => rw [hrec] at h; exact absurd h (by simp)
        | some w =>
          obtain ⟨content', r'⟩ := w
          rw [hrec] at h
          simp only [Option.some.injEq, Prod.mk.injEq] at h
          obtain ⟨h1, h2⟩ := h
          subst h2
          subst h1
          intro i hi
          cases i with
          | zero => simpa using hp
          | succ i =>
            simp only [List.length_cons] at hi
            simpa using ih hrec i (by omega)

/-- The lazy scan succeeds whenever some line-terminator-free prefix is
followed by the pattern. -/
theorem lazyDotUntil_isSome {pat a b : List Char}
    (ha : ∀ x ∈ a, ¬ isLineTerm x) :
    ∃ c r, lazyDotUntil pat (a ++ pat ++ b) = some (c, r) := by
  induction a with
  | nil =>
    exact ⟨[], b, by simpa using lazyDotUntil_of_pre (stripPre_self pat b)⟩
  | cons x xs ih =>
    rw [show (x :: xs) ++ pat ++ b = x :: (xs ++ pat ++ b) by simp]
    cases hp : stripPre pat (x :: (xs ++ pat ++ b)) with
    | some w => exact ⟨[], w, lazyDotUntil_of_pre hp⟩
    | none =>
      obtain ⟨c, r, hc⟩ := ih (fun y hy => ha y (by simp [hy]))
      refine ⟨x :: c, r, ?_⟩
      rw [lazyDotUntil_cons hp (ha x (by simp))]
      rw [show xs ++ pat ++ b = xs ++ pat ++ b from rfl] at hc
      rw [hc]
      rfl

/-- No match of `pat` can start at any position of `D`, even reading past its
end into an arbitrary continuation. -/
def PatFree (pat D : List Char) : Prop :=
  ∀ j z, j < D.length → stripPre pat (D.drop j ++ z) = none

/-- As `PatFree` but excluding position 0 (used for `<key>` tokens, which do
start with the pattern `<k`). -/
def PatFree1 (pat D : List Char) : Prop :=
  ∀ j z, 0 < j → j < D.length → stripPre pat (D.drop j ++ z) = none

theorem stripPre_none_head {p0 : Char} {ps : List Char} {c : Char}
    {t : List Char} (h : c ≠ p0) : stripPre (p0 :: ps) (c :: t) = none := by
  simp [stripPre, h]

theorem stripPre_none_two {p0 p1 : Char} {ps : List Char} {c0 c1 : Char}
    {t : List Char} (h : c1 ≠ p1) :
    stripPre (p0 :: p1 :: ps) (c0 :: c1 :: t) = none := by
  by_cases h0 : c0 = p0
  · subst h0
    simp [stripPre, h]
  · simp [stripPre, h0]

theorem stripPre_none_three {p0 p1 p2 : Char} {ps : List Char} {c0 c1 c2 : Char}
    {t : List Char} (h : c2 ≠ p2) :
    stripPre (p0 :: p1 :: p2 :: ps) (c0 :: c1 :: c2 :: t) = none := by
  by_cases h0 : c0 = p0
  · subst h0
    by_cases h1 : c1 = p1
    · subst h1
      simp [stripPre, h]
    · simp [stripPre, h1]
  · simp [stripPre, h0]

theorem patFree_of_ne_head {p0 : Char} {ps D : List Char}
    (h : ∀ c ∈ D, c ≠ p0) : PatFree (p0 :: ps) D := by
  induction D with
  | nil => intro j z hj; simp at hj
  | cons d ds ih =>
    intro j z hj
    cases j with
    | zero => exact stripPre_none_head (h d (by simp))
    | succ j =>
      simp only [List.length_cons] at hj
      exact ih (fun c hc => h c (by simp [hc])) j z (by omega)

theorem patFree_append {pat a b : List Char} (ha : PatFree pat a)
    (hb : PatFree pat b) : PatFree pat (a ++ b) := by
  intro j z hj
  rw [List.drop_append_eq_append_drop]
  by_cases hja : j < a.length
  · rw [Nat.sub_eq_zero_of_le (le_of_lt hja), List.drop_zero, List.append_assoc]
    exact ha j (b ++ z) hja
  · rw [List.drop_eq_nil_of_le (by omega), List.nil_append]
    refine hb (j - a.length) z ?_
    simp only [List.length_append] at hj
    omega

theorem patFree1_append {pat a b : List Char} (ha : PatFree1 pat a)
    (hb : PatFree pat b) : PatFree1 pat (a ++ b) := by
  intro j z h0 hj
  rw [List.drop_append_eq_append_drop]
  by_cases hja : j < a.length
  · rw [Nat.sub_eq_zero_of_le (le_of_lt hja), List.drop_zero, List.append_assoc]
    exact ha j (b ++ z) h0 hja
  · rw [List.drop_eq_nil_of_le (by omega), List.nil_append]
    refine hb (j - a.length) z ?_
    simp only [List.length_append] at hj
    omega

theorem isWs_ne_lt {c : Char} (h : isWs c = true) : c ≠ '<' := by
  intro he
  subst he
  exact absurd h (by decide)

theorem isWs_ne_slash {c : Char} (h : isWs c = true) : c ≠ '/' := by
  intro he
  subst he
  exact absurd h (by decide)

theorem keyTok_eq (k : List Char) :
    keyTok k = '<' :: 'k' :: 'e' :: 'y' :: '>' :: (k ++ lit "</key>") := rfl

theorem keyTok_ltk (k : List Char) :
    keyTok k = lit "<k" ++ ('e' :: 'y' :: '>' :: (k ++ lit "</key>")) := rfl

theorem boolTag_cons (b : Bool) :
    boolTag b = '<' :: (if b then lit "true/>" else lit "false/>") := by
  cases b <;> rfl

theorem stripPre_keyTok_none_of_ltk {K s : List Char}
    (h : stripPre (lit "<k") s = none) : stripPre (keyTok K) s = none := by
  cases hm : stripPre (keyTok K) s with
  | none => rfl
  | some w =>
    rw [keyTok_ltk] at hm
    have h2 := stripPre_append_some_left hm
    rw [h] at h2
    exact absurd h2 (by simp)

theorem patFree_ltk_closekey : PatFree (lit "<k") (lit "</key>") := by
  intro j z hj
  have hl : (lit "</key>").length = 6 := rfl
  rw [hl] at hj
  interval_cases j
  · exact stripPre_none_two (by decide)
  · exact stripPre_none_head (by decide)
  · exact stripPre_none_head (by decide)
  · exact stripPre_none_head (by decide)
  · exact stripPre_none_head (by decide)
  · exact stripPre_none_head (by decide)

theorem patFree1_ltk_keyTok {K : List Char} (hK : ∀ c ∈ K, c ≠ '<') :
    PatFree1 (lit "<k") (keyTok K) := by
  intro j z h0 hj
  rw [keyTok_eq] at hj ⊢
  simp only [List.length_cons, List.length_append] at hj
  match j, h0 with
  | 1, _ => exact stripPre_none_head (by decide)
  | 2, _ => exact stripPre_none_head (by decide)
  | 3, _ => exact stripPre_none_head (by decide)
  | 4, _ => exact stripPre_none_head (by decide)
  | (m + 5), _ =>
    show stripPre (lit "<k") ((K ++ lit "</key>").drop m ++ z) = none
    refine patFree_append (patFree_of_ne_head hK) patFree_ltk_closekey m z ?_
    simp only [List.length_append]
    have : (lit "</key>").length = 6 := rfl
    omega

theorem patFree_ltk_boolTag (b : Bool) : PatFree (lit "<k") (boolTag b) := by
  cases b with
  | true =>
    intro j z hj
    have hl : (boolTag true).length = 7 := rfl
    rw [hl] at hj
    interval_cases j
    · exact stripPre_none_two (by decide)
    · exact stripPre_none_head (by decide)
    · exact stripPre_none_head (by decide)
    · exact stripPre_none_head (by decide)
    · exact stripPre_none_head (by decide)
    · exact stripPre_none_head (by decide)
    · exact stripPre_none_head (by decide)
  | false =>
    intro j z hj
    have hl : (boolTag false).length = 8 := rfl
    rw [hl] at hj
    interval_cases j
    · exact stripPre_none_two (by decide)
    · exact stripPre_none_head (by decide)
    · exact stripPre_none_head (by decide)
    · exact stripPre_none_head (by decide)
    · exact stripPre_none_head (by decide)
    · exact stripPre_none_head (by decide)
    · exact stripPre_none_head (by decide)
    · exact stripPre_none_head (by decide)

theorem patFree_ltk_openInt : PatFree (lit "<k") (lit "<integer>") := by
  intro j z hj
  have hl : (lit "<integer>").length = 9 := rfl
  rw [hl] at hj
  interval_cases j
  · exact stripPre_none_two (by decide)
  · exact stripPre_none_head (by decide)
  · exact stripPre_none_head (by decide)
  · exact stripPre_none_head (by decide)
  · exact stripPre_none_head (by decide)
  · exact stripPre_none_head (by decide)
  · exact stripPre_none_head (by decide)
  · exact stripPre_none_head (by decide)
  · exact stripPre_none_head (by decide)

theorem patFree_ltk_closeInt : PatFree (lit "<k") (lit "</integer>") := by
  intro j z hj
  have hl : (lit "</integer>").length = 10 := rfl
  rw [hl] at hj
  interval_cases j
  · exact stripPre_none_two (by decide)
  · exact stripPre_none_head (by decide)
  · exact stripPre_none_head (by decide)
  · exact stripPre_none_head (by decide)
  · exact stripPre_none_head (by decide)
  · exact stripPre_none_head (by decide)
  · exact stripPre_none_head (by decide)
  · exact stripPre_none_head (by decide)
  · exact stripPre_none_head (by decide)
  · exact stripPre_none_head (by decide)

theorem patFree_close_closekey : PatFree (lit "</integer>") (lit "</key>") := by
  intro j z hj
  have hl : (lit "</key>").length = 6 := rfl
  rw [hl] at hj
  interval_cases j
  · exact stripPre_none_three (by decide)
  · exact stripPre_none_head (by decide)
  · exact stripPre_none_head (by decide)
  · exact stripPre_none_head (by decide)
  · exact stripPre_none_head (by decide)
  · exact stripPre_none_head (by decide)

theorem patFree_close_keyTok {K : List Char} (hK : ∀ c ∈ K, c ≠ '<') :
    PatFree (lit "</integer>") (keyTok K) := by
  intro j z hj
  rw [keyTok_eq] at hj ⊢
  simp only [List.length_cons, List.length_append] at hj
  match j with
  | 0 => exact stripPre_none_two (by decide)
  | 1 => exact stripPre_none_head (by decide)
  | 2 => exact stripPre_none_head (by decide)
  | 3 => exact stripPre_none_head (by decide)
  | 4 => exact stripPre_none_head (by decide)
  | (m + 5) =>
    show stripPre (lit "</integer>") ((K ++ lit "</key>").drop m ++ z) = none
    refine patFree_append (patFree_of_ne_head hK) patFree_close_closekey m z ?_
    simp only [List.length_append]
    have : (lit "</key>").length = 6 := rfl
    omega

theorem patFree_close_boolTag (b : Bool) :
    PatFree (lit "</integer>") (boolTag b) := by
  cases b with
  | true =>
    intro j z hj
    have hl : (boolTag true).length = 7 := rfl
    rw [hl] at hj
    interval_cases j
    · exact stripPre_none_two (by decide)
    · exact stripPre_none_head (by decide)
    · exact stripPre_none_head (by decide)
    · exact stripPre_none_head (by decide)
    · exact stripPre_none_head (by decide)
    · exact stripPre_none_head (by decide)
    · exact stripPre_none_head (by decide)
  | false =>
    intro j z hj
    have hl : (boolTag false).length = 8 := rfl
    rw [hl] at hj
    interval_cases j
    · exact stripPre_none_two (by decide)
    · exact stripPre_none_head (by decide)
    · exact stripPre_none_head (by decide)
    · exact stripPre_none_head (by decide)
    · exact stripPre_none_head (by decide)
    · exact stripPre_none_head (by decide)
    · exact stripPre_none_head (by decide)
    · exact stripPre_none_head (by decide)

theorem patFree_close_openInt : PatFree (lit "</integer>") (lit "<integer>") := by
  intro j z hj
  have hl : (lit "<integer>").length = 9 := rfl
  rw [hl] at hj
  interval_cases j
  · exact stripPre_none_two (by decide)
  · exact stripPre_none_head (by decide)
  · exact stripPre_none_head (by decide)
  · exact stripPre_none_head (by decide)
  · exact stripPre_none_head (by decide)
  · exact stripPre_none_head (by decide)
  · exact stripPre_none_head (by decide)
  · exact stripPre_none_head (by decide)
  · exact stripPre_none_head (by decide)

theorem ws_ne_lt_all {ws : List Char} (h : ∀ x ∈ ws, isWs x) :
    ∀ c ∈ ws, c ≠ '<' := fun c hc => isWs_ne_lt (h c hc)

/-- No `<k` starts strictly inside a toggle replacement
`<key>K</key> ws <bool/>`. -/
theorem patFree1_ltk_toggleRepl {K ws : List Char} {b : Bool}
    (hK : ∀ c ∈ K, c ≠ '<') (hws : ∀ x ∈ ws, isWs x) :
    PatFree1 (lit "<k") (keyTok K ++ ws ++ boolTag b) := by
  exact patFree1_append
    (patFree1_append (patFree1_ltk_keyTok hK)
      (patFree_of_ne_head (ws_ne_lt_all hws)))
    (patFree_ltk_boolTag b)

/-- No `<k` starts strictly inside an integer replacement
`<key>K</key> ws <integer>num</integer>`. -/
theorem patFree1_ltk_intRepl {K ws num : List Char}
    (hK : ∀ c ∈ K, c ≠ '<') (hws : ∀ x ∈ ws, isWs x)
    (hnum : ∀ c ∈ num, c ≠ '<') :
    PatFree1 (lit "<k")
      (keyTok K ++ ws ++ lit "<integer>" ++ num ++ lit "</integer>") := by
  exact patFree1_append
    (patFree1_append
      (patFree1_append
        (patFree1_append (patFree1_ltk_keyTok hK)
          (patFree_of_ne_head (ws_ne_lt_all hws)))
        patFree_ltk_openInt)
      (patFree_of_ne_head hnum))
    patFree_ltk_closeInt

/-- No `</integer>` starts anywhere inside a toggle replacement. -/
theorem patFree_close_toggleRepl {K ws : List Char} {b : Bool}
    (hK : ∀ c ∈ K, c ≠ '<') (hws : ∀ x ∈ ws, isWs x) :
    PatFree (lit "</integer>") (keyTok K ++ ws ++ boolTag b) := by
  exact patFree_append
    (patFree_append (patFree_close_keyTok hK)
      (patFree_of_ne_head (ws_ne_lt_all hws)))
    (patFree_close_boolTag b)

/-- No `</integer>` starts anywhere inside the head of an integer element
(everything before the close tag). -/
theorem patFree_close_intFront {K ws num : List Char}
    (hK : ∀ c ∈ K, c ≠ '<') (hws : ∀ x ∈ ws, isWs x)
    (hnum : ∀ c ∈ num, c ≠ '<') :
    PatFree (lit "</integer>") (keyTok K ++ ws ++ lit "<integer>" ++ num) := by
  exact patFree_append
    (patFree_append
      (patFree_append (patFree_close_keyTok hK)
        (patFree_of_ne_head (ws_ne_lt_all hws)))
      patFree_close_openInt)
    (patFree_of_ne_head hnum)

theorem stripPre_append_common (a p s : List Char) :
    stripPre (a ++ p) (a ++ s) = stripPre p s := by
  induction a with
  | nil => rfl
  | cons c cs ih => simp [stripPre, ih]

theorem stripPre_ltk_keyTok (K t : List Char) :
    stripPre (lit "<k") (keyTok K ++ t) =
      some (('e' :: 'y' :: '>' :: (K ++ lit "</key>")) ++ t) := by
  rw [keyTok_ltk, List.append_assoc]
  exact stripPre_self _ _

/-- Two distinct `<`-free keys never produce prefix-compatible key tokens. -/
theorem stripPre_keyTok_keyTok_ne {K K' t : List Char}
    (hK : ∀ c ∈ K, c ≠ '<') (hK' : ∀ c ∈ K', c ≠ '<') (hne : K ≠ K') :
    stripPre (keyTok K) (keyTok K' ++ t) = none := by
  have haux : ∀ A A' u, (∀ c ∈ A, c ≠ '<') → (∀ c ∈ A', c ≠ '<') → A ≠ A' →
      stripPre (A ++ lit "</key>") (A' ++ (lit "</key>" ++ u)) = none := by
    intro A
    induction A with
    | nil =>
      intro A' u _ hA' hne2
      cases A' with
      | nil => exact absurd rfl hne2
      | cons d ds =>
        show stripPre (lit "</key>") (d :: (ds ++ (lit "</key>" ++ u))) = none
        exact stripPre_none_head (hA' d (by simp))
    | cons c cs ih =>
      intro A' u hA hA' hne2
      cases A' with
      | nil =>
        show stripPre (c :: (cs ++ lit "</key>")) ('<' :: (lit "/key>" ++ u))
          = none
        exact stripPre_none_head (Ne.symm (hA c (by simp)))
      | cons d ds =>
        show stripPre (c :: (cs ++ lit "</key>"))
          (d :: (ds ++ (lit "</key>" ++ u))) = none
        by_cases hcd : d = c
        · subst hcd
          have hstep : stripPre (d :: (cs ++ lit "</key>"))
              (d :: (ds ++ (lit "</key>" ++ u))) =
              stripPre (cs ++ lit "</key>") (ds ++ (lit "</key>" ++ u)) := by
            simp [stripPre]
          rw [hstep]
          exact ih ds u (fun x hx => hA x (by simp [hx]))
            (fun x hx => hA' x (by simp [hx]))
            (fun he => hne2 (by rw [he]))
        · exact stripPre_none_head hcd
  have hsh1 : keyTok K = lit "<key>" ++ (K ++ lit "</key>") := by
    rw [keyTok]
    simp
  have hsh2 : keyTok K' ++ t = lit "<key>" ++ (K' ++ (lit "</key>" ++ t)) := by
    rw [keyTok]
    simp
  rw [hsh1, hsh2, stripPre_append_common]
  exact haux K K' t hK hK' hne

theorem findKeyBool_nil (K : List Char) (v : Bool) :
    findKeyBool K v [] = none := by
  refine findKeyBool_none ?_
  rw [keyTok_head]
  rfl

theorem findKeyTagged_nil' (k o c v : List Char) :
    findKeyTagged k o c v [] = none := findKeyTagged_nil k o c v

/-- Soundness of `findKeyTagged` including laziness: the content has no
earlier close-tag match, even reading into the continuation. -/
theorem findKeyTagged_sound_full {k o c v s r rest : List Char}
    (h : findKeyTagged k o c v s = some (r, rest)) :
    ∃ ws content, s = keyTok k ++ ws ++ o ++ content ++ c ++ rest ∧
      r = keyTok k ++ ws ++ o ++ v ++ c ∧
      (∀ x ∈ ws, isWs x) ∧ (∀ x ∈ content, ¬ isLineTerm x) ∧
      (∀ i < content.length,
        stripPre c ((content ++ c ++ rest).drop i) = none) := by
  unfold findKeyTagged at h
  cases h1 : stripPre (keyTok k) s with
  | none => rw [h1] at h; dsimp only at h; exact absurd h (by simp)
  | some s1 =>
    rw [h1] at h; dsimp only at h
    cases h2 : stripPre o (wsDrop s1) with
    | none => rw [h2] at h; dsimp only at h; exact absurd h (by simp)
    | some s3 =>
      rw [h2] at h; dsimp only at h
      cases h3 : lazyDotUntil c s3 with
      | none => rw [h3] at h; dsimp only at h; exact absurd h (by simp)
      | some p =>
        obtain ⟨content, rest'⟩ := p
        rw [h3] at h; dsimp only at h
        simp only [Option.some.injEq, Prod.mk.injEq] at h
        obtain ⟨hr, hrest⟩ := h
        subst hrest
        obtain ⟨e3, e3lt⟩ := lazyDotUntil_eq_some h3
        have hne := lazyDotUntil_no_early h3
        have e1 : s = keyTok k ++ s1 := stripPre_eq_some.mp h1
        have e2 : wsDrop s1 = o ++ s3 := stripPre_eq_some.mp h2
        have esplit : s1 = wsTake s1 ++ (o ++ s3) := by
          conv_lhs => rw [← wsTake_append_wsDrop s1]
          rw [e2]
        refine ⟨wsTake s1, content, ?_, by rw [← hr], wsTake_all s1, e3lt, ?_⟩
        · rw [e1]
          conv_lhs => rw [esplit, e3]
          simp
        · intro i hi
          have := hne i hi
          rw [e3] at this
          rw [show content ++ c ++ rest' = content ++ (c ++ rest') by simp] at this ⊢
          exact this

/-- Master lemma: silence of a boolean-toggle matcher survives one global
pass of a (same or different) boolean-toggle rule.  The hypothesis says every
match of the tracked matcher in `t` is either already byte-preserving or is
itself a match of the applied rule (the latter holds trivially when the two
rules are the same). -/
theorem silent_toggle_toggle {K K' : List Char} {v v' : Bool}
    (hK : ∀ c ∈ K, c ≠ '<') (hK' : ∀ c ∈ K', c ≠ '<')
    (hkv : K = K' → v = v') :
    ∀ t, (∀ n r ρ, findKeyBool K v (t.drop n) = some (r, ρ) →
        t.drop n = r ++ ρ ∨ findKeyBool K' v' (t.drop n) = some (r, ρ)) →
      SilentOn (findKeyBool K v) (applyRule (findKeyBool K' v') true t) := by
  have main : ∀ N t, List.length t ≤ N →
      (∀ n r ρ, findKeyBool K v (t.drop n) = some (r, ρ) →
        t.drop n = r ++ ρ ∨ findKeyBool K' v' (t.drop n) = some (r, ρ)) →
      SilentOn (findKeyBool K v) (applyRule (findKeyBool K' v') true t) := by
    intro N
    induction N with
    | zero =>
      intro t ht _
      rw [List.length_eq_zero.mp (Nat.le_zero.mp ht)]
      intro n r ρ hm
      simp only [applyRule_nil, List.drop_nil] at hm
      rw [findKeyBool_nil] at hm
      exact absurd hm (by simp)
    | succ N ih =>
      intro t ht HH
      rcases first_match (findKeyBool K' v') t with hnone | ⟨p, r', rest', hp, hmin⟩
      · rw [applyRule_of_no_match hnone]
        intro n r ρ hm
        rcases HH n r ρ hm with hsil | hf'
        · exact hsil
        · rw [hnone n] at hf'
          exact absurd hf' (by simp)
      · have hplt : p < t.length := by
          by_contra hge
          push_neg at hge
          rw [List.drop_eq_nil_of_le hge, findKeyBool_nil] at hp
          exact absurd hp (by simp)
        obtain ⟨ws', b', hdec, hr', hws'⟩ := findKeyBool_sound hp
        have htp : t = t.take p ++ t.drop p := (List.take_append_drop p t).symm
        have hglen : (t.take p).length = p := by
          rw [List.length_take]
          omega
        have hgmin : ∀ j, j < (t.take p).length →
            findKeyBool K' v' ((t.take p ++ t.drop p).drop j) = none := by
          intro j hj
          rw [← htp]
          exact hmin j (by omega)
        have hout : applyRule (findKeyBool K' v') true t =
            t.take p ++ (r' ++ applyRule (findKeyBool K' v') true rest') := by
          conv_lhs => rw [htp]
          rw [applyRule_append _ _ hgmin,
            applyRule_head_some (findKeyBool_consuming K' v') hp]
          rw [if_pos rfl]
        have hrlen : rest'.length ≤ N := by
          have hc := findKeyBool_consuming K' v' _ _ _ hp
          have hd : (t.drop p).length = t.length - p := List.length_drop p t
          omega
        have hrestdrop : rest' =
            t.drop (p + (keyTok K' ++ ws' ++ boolTag b').length) := by
          have h1 : (t.drop p).drop (keyTok K' ++ ws' ++ boolTag b').length
              = rest' := by
            rw [hdec]
            exact List.drop_left _ _
          rw [← h1, List.drop_drop]
        have HHrest : ∀ n r ρ, findKeyBool K v (rest'.drop n) = some (r, ρ) →
            rest'.drop n = r ++ ρ ∨
            findKeyBool K' v' (rest'.drop n) = some (r, ρ) := by
          intro n r ρ hm
          rw [hrestdrop, List.drop_drop] at hm ⊢
          exact HH _ r ρ hm
        have hzsil := ih rest' hrlen HHrest
        rw [hout]
        intro n r ρ hm
        by_cases hn1 : n < (t.take p).length
        · -- the match starts strictly inside the gap
          have hudrop : ((t.take p) ++
              (r' ++ applyRule (findKeyBool K' v') true rest')).drop n =
              (t.take p).drop n ++
              (r' ++ applyRule (findKeyBool K' v') true rest') := by
            rw [List.drop_append_eq_append_drop,
              Nat.sub_eq_zero_of_le (le_of_lt hn1), List.drop_zero]
          rw [hudrop] at hm ⊢
          obtain ⟨ws, b, hdec2, hr2, hwsb⟩ := findKeyBool_sound hm
          have hDg : (keyTok K ++ ws ++ boolTag b).length ≤
              ((t.take p).drop n).length := by
            by_contra hgt
            push_neg at hgt
            have hγpos : 0 < ((t.take p).drop n).length := by
              rw [List.length_drop]
              omega
            have e1 : (keyTok K ++ ws ++ boolTag b ++ ρ).drop
                ((t.take p).drop n).length =
                r' ++ applyRule (findKeyBool K' v') true rest' := by
              rw [← hdec2]
              exact List.drop_left _ _
            have e2 : (keyTok K ++ ws ++ boolTag b ++ ρ).drop
                ((t.take p).drop n).length =
                (keyTok K ++ ws ++ boolTag b).drop
                  ((t.take p).drop n).length ++ ρ := by
              rw [List.drop_append_eq_append_drop,
                Nat.sub_eq_zero_of_le (le_of_lt hgt), List.drop_zero]
            have hpf : PatFree1 (lit "<k") (keyTok K ++ ws ++ boolTag b) :=
              patFree1_ltk_toggleRepl hK hwsb
            have hnone3 := hpf ((t.take p).drop n).length ρ hγpos hgt
            rw [← e2, e1] at hnone3
            rw [hr'] at hnone3
            rw [show (keyTok K' ++ ws' ++ boolTag v') ++
                applyRule (findKeyBool K' v') true rest' =
                keyTok K' ++ (ws' ++ (boolTag v' ++
                  applyRule (findKeyBool K' v') true rest')) by simp]
              at hnone3
            rw [stripPre_ltk_keyTok] at hnone3
            exact absurd hnone3 (by simp)
          obtain ⟨gtail, hgt1, hgt2⟩ : ∃ gtail,
              (t.take p).drop n = (keyTok K ++ ws ++ boolTag b) ++ gtail ∧
              ρ = gtail ++ (r' ++ applyRule (findKeyBool K' v') true rest') := by
            rcases List.append_eq_append_iff.mp hdec2 with
              ⟨a', ha1, ha2⟩ | ⟨c', hc1, hc2⟩
            · have hl : a'.length = 0 := by
                have hll := congrArg List.length ha1
                have hDg2 := hDg
                simp only [List.length_append] at hll hDg2
                omega
              have ha0 : a' = [] := List.length_eq_zero.mp hl
              subst ha0
              refine ⟨[], ?_, ?_⟩
              · simpa using ha1.symm
              · simpa using ha2.symm
            · exact ⟨c', hc1, hc2⟩
          have htdropn : t.drop n =
              (keyTok K ++ ws ++ boolTag b) ++ (gtail ++ t.drop p) := by
            conv_lhs => rw [htp]
            rw [List.drop_append_eq_append_drop,
              Nat.sub_eq_zero_of_le (le_of_lt hn1), List.drop_zero, hgt1]
            simp
          have htm : findKeyBool K v (t.drop n) =
              some (keyTok K ++ ws ++ boolTag v, gtail ++ t.drop p) := by
            rw [htdropn]
            exact findKeyBool_complete hwsb
          rcases HH n _ _ htm with hsil | hf'
          · rw [htdropn] at hsil
            have hD : (keyTok K ++ ws) ++ boolTag b =
                (keyTok K ++ ws) ++ boolTag v := by
              refine (List.append_inj hsil ?_).1
              have hlen := congrArg List.length hsil
              simp only [List.length_append] at hlen ⊢
              omega
            have hbv : boolTag b = boolTag v := List.append_cancel_left hD
            have hb : b = v := by
              cases b <;> cases v <;>
                first | rfl | exact absurd hbv (by decide)
            subst hb
            rw [hdec2, hr2]
          · rw [hmin n (by omega)] at hf'
            exact absurd hf' (by simp)
        · by_cases hn2 : n < (t.take p).length + r'.length
          · by_cases hn0 : n = (t.take p).length
            · -- the match is aligned with the replacement
              subst hn0
              have hdropa : ((t.take p) ++
                  (r' ++ applyRule (findKeyBool K' v') true rest')).drop
                  (t.take p).length =
                  r' ++ applyRule (findKeyBool K' v') true rest' :=
                List.drop_left _ _
              rw [hdropa] at hm ⊢
              by_cases hKK : K = K'
              · have hv := hkv hKK
                subst hKK
                subst hv
                rw [hr'] at hm ⊢
                have hcomp : findKeyBool K v (keyTok K ++ ws' ++ boolTag v ++
                    applyRule (findKeyBool K v) true rest') =
                    some (keyTok K ++ ws' ++ boolTag v,
                      applyRule (findKeyBool K v) true rest') :=
                  findKeyBool_complete hws'
                rw [hcomp] at hm
                simp only [Option.some.injEq, Prod.mk.injEq] at hm
                obtain ⟨h1, h2⟩ := hm
                rw [← h1, ← h2]
              · have hnone2 : stripPre (keyTok K)
                    (r' ++ applyRule (findKeyBool K' v') true rest') = none := by
                  rw [hr']
                  rw [show (keyTok K' ++ ws' ++ boolTag v') ++
                      applyRule (findKeyBool K' v') true rest' =
                      keyTok K' ++ (ws' ++ (boolTag v' ++
                        applyRule (findKeyBool K' v') true rest')) by simp]
                  exact stripPre_keyTok_keyTok_ne hK hK' hKK
                rw [findKeyBool_none hnone2] at hm
                exact absurd hm (by simp)
            · -- the match would start strictly inside the replacement
              have hdropr : ((t.take p) ++
                  (r' ++ applyRule (findKeyBool K' v') true rest')).drop n =
                  r'.drop (n - (t.take p).length) ++
                  applyRule (findKeyBool K' v') true rest' := by
                rw [List.drop_append_eq_append_drop,
                  List.drop_eq_nil_of_le (by omega), List.nil_append,
                  List.drop_append_eq_append_drop]
                have hz0 : n - (t.take p).length - r'.length = 0 := by omega
                rw [hz0, List.drop_zero]
              rw [hdropr] at hm
              have hpf1 : PatFree1 (lit "<k") r' := by
                rw [hr']
                exact patFree1_ltk_toggleRepl hK' hws'
              have hpf := hpf1 (n - (t.take p).length)
                (applyRule (findKeyBool K' v') true rest') (by omega) (by omega)
              rw [findKeyBool_none (stripPre_keyTok_none_of_ltk hpf)] at hm
              exact absurd hm (by simp)
          · -- the match lies in the rewritten tail
            have hdropz : ((t.take p) ++
                (r' ++ applyRule (findKeyBool K' v') true rest')).drop n =
                (applyRule (findKeyBool K' v') true rest').drop
                  (n - (t.take p).length - r'.length) := by
              rw [List.drop_append_eq_append_drop,
                List.drop_eq_nil_of_le (by omega), List.nil_append,
                List.drop_append_eq_append_drop,
                List.drop_eq_nil_of_le (by omega), List.nil_append]
            rw [hdropz] at hm ⊢
            exact hzsil _ r ρ hm
  exact fun t HH => main t.length t (le_refl _) HH

/-- Master lemma: silence of a boolean-toggle matcher survives one global
pass of an integer-set rule. -/
theorem silent_toggle_int {K K' num' : List Char} {v : Bool}
    (hK : ∀ c ∈ K, c ≠ '<') (hK' : ∀ c ∈ K', c ≠ '<')
    (hnum' : ∀ c ∈ num', c ≠ '<') :
    ∀ t, (∀ n r ρ, findKeyBool K v (t.drop n) = some (r, ρ) →
        t.drop n = r ++ ρ) →
      SilentOn (findKeyBool K v)
        (applyRule (findKeyTagged K' (lit "<integer>") (lit "</integer>") num')
          true t) := by
  have main : ∀ N t, List.length t ≤ N →
      (∀ n r ρ, findKeyBool K v (t.drop n) = some (r, ρ) → t.drop n = r ++ ρ) →
      SilentOn (findKeyBool K v)
        (applyRule (findKeyTagged K' (lit "<integer>") (lit "</integer>") num')
          true t) := by
    intro N
    induction N with
    | zero =>
      intro t ht _
      rw [List.length_eq_zero.mp (Nat.le_zero.mp ht)]
      intro n r ρ hm
      simp only [applyRule_nil, List.drop_nil] at hm
      rw [findKeyBool_nil] at hm
      exact absurd hm (by simp)
    | succ N ih =>
      intro t ht HH
      rcases first_match
        (findKeyTagged K' (lit "<integer>") (lit "</integer>") num') t with
        hnone | ⟨p, r', rest', hp, hmin⟩
      · rw [applyRule_of_no_match hnone]
        intro n r ρ hm
        exact HH n r ρ hm
      · have hplt : p < t.length := by
          by_contra hge
          push_neg at hge
          rw [List.drop_eq_nil_of_le hge, findKeyTagged_nil] at hp
          exact absurd hp (by simp)
        obtain ⟨ws', content', hdec, hr', hws', hlt'⟩ := findKeyTagged_sound hp
        have htp : t = t.take p ++ t.drop p := (List.take_append_drop p t).symm
        have hglen : (t.take p).length = p := by
          rw [List.length_take]
          omega
        have hgmin : ∀ j, j < (t.take p).length →
            findKeyTagged K' (lit "<integer>") (lit "</integer>") num'
              ((t.take p ++ t.drop p).drop j) = none := by
          intro j hj
          rw [← htp]
          exact hmin j (by omega)
        have hout : applyRule
            (findKeyTagged K' (lit "<integer>") (lit "</integer>") num') true t =
            t.take p ++ (r' ++ applyRule
              (findKeyTagged K' (lit "<integer>") (lit "</integer>") num')
              true rest') := by
          conv_lhs => rw [htp]
          rw [applyRule_append _ _ hgmin,
            applyRule_head_some (findKeyTagged_consuming _ _ _ _) hp]
          rw [if_pos rfl]
        have hrlen : rest'.length ≤ N := by
          have hc := findKeyTagged_consuming K' (lit "<integer>")
            (lit "</integer>") num' _ _ _ hp
          have hd : (t.drop p).length = t.length - p := List.length_drop p t
          omega
        have hrestdrop : rest' = t.drop (p + (keyTok K' ++ ws' ++
            lit "<integer>" ++ content' ++ lit "</integer>").length) := by
          have h1 : (t.drop p).drop (keyTok K' ++ ws' ++ lit "<integer>" ++
              content' ++ lit "</integer>").length = rest' := by
            rw [hdec]
            exact List.drop_left _ _
          rw [← h1, List.drop_drop]
        have HHrest : ∀ n r ρ, findKeyBool K v (rest'.drop n) = some (r, ρ) →
            rest'.drop n = r ++ ρ := by
          intro n r ρ hm
          rw [hrestdrop, List.drop_drop] at hm ⊢
          exact HH _ r ρ hm
        have hzsil := ih rest' hrlen HHrest
        rw [hout]
        intro n r ρ hm
        by_cases hn1 : n < (t.take p).length
        · -- the match starts strictly inside the gap
          have hudrop : ((t.take p) ++ (r' ++ applyRule
              (findKeyTagged K' (lit "<integer>") (lit "</integer>") num')
              true rest')).drop n =
              (t.take p).drop n ++ (r' ++ applyRule
              (findKeyTagged K' (lit "<integer>") (lit "</integer>") num')
              true rest') := by
            rw [List.drop_append_eq_append_drop,
              Nat.sub_eq_zero_of_le (le_of_lt hn1), List.drop_zero]
          rw [hudrop] at hm ⊢
          obtain ⟨ws, b, hdec2, hr2, hwsb⟩ := findKeyBool_sound hm
          have hDg : (keyTok K ++ ws ++ boolTag b).length ≤
              ((t.take p).drop n).length := by
            by_contra hgt
            push_neg at hgt
            have hγpos : 0 < ((t.take p).drop n).length := by
              rw [List.length_drop]
              omega
            have e1 : (keyTok K ++ ws ++ boolTag b ++ ρ).drop
                ((t.take p).drop n).length =
                r' ++ applyRule (findKeyTagged K' (lit "<integer>")
                  (lit "</integer>") num') true rest' := by
              rw [← hdec2]
              exact List.drop_left _ _
            have e2 : (keyTok K ++ ws ++ boolTag b ++ ρ).drop
                ((t.take p).drop n).length =
                (keyTok K ++ ws ++ boolTag b).drop
                  ((t.take p).drop n).length ++ ρ := by
              rw [List.drop_append_eq_append_drop,
                Nat.sub_eq_zero_of_le (le_of_lt hgt), List.drop_zero]
            have hpf : PatFree1 (lit "<k") (keyTok K ++ ws ++ boolTag b) :=
              patFree1_ltk_toggleRepl hK hwsb
            have hnone3 := hpf ((t.take p).drop n).length ρ hγpos hgt
            rw [← e2, e1] at hnone3
            rw [hr'] at hnone3
            rw [show (keyTok K' ++ ws' ++ lit "<integer>" ++ num' ++
                lit "</integer>") ++ applyRule (findKeyTagged K'
                  (lit "<integer>") (lit "</integer>") num') true rest' =
                keyTok K' ++ (ws' ++ (lit "<integer>" ++ (num' ++
                  (lit "</integer>" ++ applyRule (findKeyTagged K'
                    (lit "<integer>") (lit "</integer>") num') true rest'))))
              by simp] at hnone3
            rw [stripPre_ltk_keyTok] at hnone3
            exact absurd hnone3 (by simp)
          obtain ⟨gtail, hgt1, hgt2⟩ : ∃ gtail,
              (t.take p).drop n = (keyTok K ++ ws ++ boolTag b) ++ gtail ∧
              ρ = gtail ++ (r' ++ applyRule (findKeyTagged K'
                (lit "<integer>") (lit "</integer>") num') true rest') := by
            rcases List.append_eq_append_iff.mp hdec2 with
              ⟨a', ha1, ha2⟩ | ⟨c', hc1, hc2⟩
            · have hl : a'.length = 0 := by
                have hll := congrArg List.length ha1
                have hDg2 := hDg
                simp only [List.length_append] at hll hDg2
                omega
              have ha0 : a' = [] := List.length_eq_zero.mp hl
              subst ha0
              refine ⟨[], ?_, ?_⟩
              · simpa using ha1.symm
              · simpa using ha2.symm
            · exact ⟨c', hc1, hc2⟩
          have htdropn : t.drop n =
              (keyTok K ++ ws ++ boolTag b) ++ (gtail ++ t.drop p) := by
            conv_lhs => rw [htp]
            rw [List.drop_append_eq_append_drop,
              Nat.sub_eq_zero_of_le (le_of_lt hn1), List.drop_zero, hgt1]
            simp
          have htm : findKeyBool K v (t.drop n) =
              some (keyTok K ++ ws ++ boolTag v, gtail ++ t.drop p) := by
            rw [htdropn]
            exact findKeyBool_complete hwsb
          have hsil := HH n _ _ htm
          rw [htdropn] at hsil
          have hD : (keyTok K ++ ws) ++ boolTag b =
              (keyTok K ++ ws) ++ boolTag v := by
            refine (List.append_inj hsil ?_).1
            have hlen := congrArg List.length hsil
            simp only [List.length_append] at hlen ⊢
            omega
          have hbv : boolTag b = boolTag v := List.append_cancel_left hD
          have hb : b = v := by
            cases b <;> cases v <;> first | rfl | exact absurd hbv (by decide)
          subst hb
          rw [hdec2, hr2]
        · by_cases hn2 : n < (t.take p).length + r'.length
          · by_cases hn0 : n = (t.take p).length
            · -- aligned with the replacement: the toggle matcher cannot fire
              subst hn0
              have hdropa : ((t.take p) ++ (r' ++ applyRule (findKeyTagged K'
                  (lit "<integer>") (lit "</integer>") num') true rest')).drop
                  (t.take p).length =
                  r' ++ applyRule (findKeyTagged K' (lit "<integer>")
                    (lit "</integer>") num') true rest' :=
                List.drop_left _ _
              rw [hdropa] at hm
              by_cases hKK : K = K'
              · subst hKK
                have hnone2 : findKeyBool K v (r' ++ applyRule (findKeyTagged K
                    (lit "<integer>") (lit "</integer>") num') true rest')
                    = none := by
                  rw [hr']
                  rw [show (keyTok K ++ ws' ++ lit "<integer>" ++ num' ++
                      lit "</integer>") ++ applyRule (findKeyTagged K
                        (lit "<integer>") (lit "</integer>") num') true rest' =
                      keyTok K ++ (ws' ++ (lit "<integer>" ++ (num' ++
                        (lit "</integer>" ++ applyRule (findKeyTagged K
                          (lit "<integer>") (lit "</integer>") num') true
                          rest')))) by simp]
                  unfold findKeyBool
                  rw [stripPre_self]
                  obtain ⟨hT, hD⟩ := @wsTake_split' ws'
                    (lit "<integer>" ++ (num' ++ (lit "</integer>" ++
                      applyRule (findKeyTagged K (lit "<integer>")
                        (lit "</integer>") num') true rest'))) '<'
                    (lit "integer>" ++ (num' ++ (lit "</integer>" ++
                      applyRule (findKeyTagged K (lit "<integer>")
                        (lit "</integer>") num') true rest'))) hws'
                    (by decide) rfl
                  dsimp only
                  rw [hD]
                  have h1 : stripPre (lit "<true/>") (lit "<integer>" ++
                      (num' ++ (lit "</integer>" ++ applyRule (findKeyTagged K
                        (lit "<integer>") (lit "</integer>") num') true
                        rest'))) = none := stripPre_none_two (by decide)
                  have h2 : stripPre (lit "<false/>") (lit "<integer>" ++
                      (num' ++ (lit "</integer>" ++ applyRule (findKeyTagged K
                        (lit "<integer>") (lit "</integer>") num') true
                        rest'))) = none := stripPre_none_two (by decide)
                  rw [h1]
                  dsimp only
                  rw [h2]
                rw [hnone2] at hm
                exact absurd hm (by simp)
              · have hnone2 : stripPre (keyTok K) (r' ++ applyRule
                    (findKeyTagged K' (lit "<integer>") (lit "</integer>")
                      num') true rest') = none := by
                  rw [hr']
                  rw [show (keyTok K' ++ ws' ++ lit "<integer>" ++ num' ++
                      lit "</integer>") ++ applyRule (findKeyTagged K'
                        (lit "<integer>") (lit "</integer>") num') true rest' =
                      keyTok K' ++ (ws' ++ (lit "<integer>" ++ (num' ++
                        (lit "</integer>" ++ applyRule (findKeyTagged K'
                          (lit "<integer>") (lit "</integer>") num') true
                          rest')))) by simp]
                  exact stripPre_keyTok_keyTok_ne hK hK' hKK
                rw [findKeyBool_none hnone2] at hm
                exact absurd hm (by simp)
            · -- strictly inside the replacement
              have hdropr : ((t.take p) ++ (r' ++ applyRule (findKeyTagged K'
                  (lit "<integer>") (lit "</integer>") num') true rest')).drop
                  n = r'.drop (n - (t.take p).length) ++ applyRule
                  (findKeyTagged K' (lit "<integer>") (lit "</integer>") num')
                  true rest' := by
                rw [List.drop_append_eq_append_drop,
                  List.drop_eq_nil_of_le (by omega), List.nil_append,
                  List.drop_append_eq_append_drop]
                have hz0 : n - (t.take p).length - r'.length = 0 := by omega
                rw [hz0, List.drop_zero]
              rw [hdropr] at hm
              have hpf1 : PatFree1 (lit "<k") r' := by
                rw [hr']
                exact patFree1_ltk_intRepl hK' hws' hnum'
              have hpf := hpf1 (n - (t.take p).length)
                (applyRule (findKeyTagged K' (lit "<integer>")
                  (lit "</integer>") num') true rest') (by omega) (by omega)
              rw [findKeyBool_none (stripPre_keyTok_none_of_ltk hpf)] at hm
              exact absurd hm (by simp)
          · -- in the rewritten tail
            have hdropz : ((t.take p) ++ (r' ++ applyRule (findKeyTagged K'
                (lit "<integer>") (lit "</integer>") num') true rest')).drop
                n = (applyRule (findKeyTagged K' (lit "<integer>")
                  (lit "</integer>") num') true rest').drop
                  (n - (t.take p).length - r'.length) := by
              rw [List.drop_append_eq_append_drop,
                List.drop_eq_nil_of_le (by omega), List.nil_append,
                List.drop_append_eq_append_drop,
                List.drop_eq_nil_of_le (by omega), List.nil_append]
            rw [hdropz] at hm ⊢
            exact hzsil _ r ρ hm
  exact fun t HH => main t.length t (le_refl _) HH

theorem keyTok_no_lineterm {K : List Char} (h : ∀ c ∈ K, ¬ isLineTerm c) :
    ∀ c ∈ keyTok K, ¬ isLineTerm c := by
  intro c hc
  rw [keyTok] at hc
  rcases List.mem_append.mp hc with hc1 | hc2
  · rcases List.mem_append.mp hc1 with hc3 | hc4
    · have hall : ∀ x ∈ lit "<key>", ¬ isLineTerm x := by decide
      exact hall c hc3
    · exact h c hc4
  · have hall : ∀ x ∈ lit "</key>", ¬ isLineTerm x := by decide
    exact hall c hc2

theorem boolTag_no_lineterm (b : Bool) : ∀ c ∈ boolTag b, ¬ isLineTerm c := by
  cases b <;> decide

theorem boolTag_split (b : Bool) :
    boolTag b = ['<'] ++ (if b then lit "true/>" else lit "false/>") := by
  cases b <;> rfl

/-- Scan transparency: if the lazy `</integer>` scan succeeds on the result
of a boolean-toggle pass, it also succeeds on the original document.  A
toggle rewrite only changes tag letters bracketed by unchanged `<` and `/>`,
so close-tag positions and line terminators are unaffected. -/
theorem scan_trans_toggle {K' : List Char} {v' : Bool}
    (hK' : ∀ c ∈ K', c ≠ '<') (hK'lt : ∀ c ∈ K', ¬ isLineTerm c) :
    ∀ w content r, lazyDotUntil (lit "</integer>")
        (applyRule (findKeyBool K' v') true w) = some (content, r) →
      ∃ c2 r2, lazyDotUntil (lit "</integer>") w = some (c2, r2) := by
  have main : ∀ N w, List.length w ≤ N → ∀ content r,
      lazyDotUntil (lit "</integer>")
        (applyRule (findKeyBool K' v') true w) = some (content, r) →
      ∃ c2 r2, lazyDotUntil (lit "</integer>") w = some (c2, r2) := by
    intro N
    induction N with
    | zero =>
      intro w hw content r h
      rw [List.length_eq_zero.mp (Nat.le_zero.mp hw)] at h ⊢
      exact ⟨content, r, h⟩
    | succ N ih =>
      intro w hw content r h
      rcases first_match (findKeyBool K' v') w with hnone | ⟨p, r', rest', hp, hmin⟩
      · rw [applyRule_of_no_match hnone] at h
        exact ⟨content, r, h⟩
      · have hplt : p < w.length := by
          by_contra hge
          push_neg at hge
          rw [List.drop_eq_nil_of_le hge, findKeyBool_nil] at hp
          exact absurd hp (by simp)
        obtain ⟨ws', b', hdec, hr', hws'⟩ := findKeyBool_sound hp
        have htp : w = w.take p ++ w.drop p := (List.take_append_drop p w).symm
        have hglen : (w.take p).length = p := by
          rw [List.length_take]
          omega
        have hgmin : ∀ j, j < (w.take p).length →
            findKeyBool K' v' ((w.take p ++ w.drop p).drop j) = none := by
          intro j hj
          rw [← htp]
          exact hmin j (by omega)
        have hout : applyRule (findKeyBool K' v') true w =
            w.take p ++ (r' ++ applyRule (findKeyBool K' v') true rest') := by
          conv_lhs => rw [htp]
          rw [applyRule_append _ _ hgmin,
            applyRule_head_some (findKeyBool_consuming K' v') hp]
          rw [if_pos rfl]
        have hrlen : rest'.length ≤ N := by
          have hc := findKeyBool_consuming K' v' _ _ _ hp
          have hd : (w.drop p).length = w.length - p := List.length_drop p w
          omega
        rw [hout] at h
        obtain ⟨hoeq, holt⟩ := lazyDotUntil_eq_some h
        have hclose : stripPre (lit "</integer>")
            ((w.take p ++ (r' ++ applyRule (findKeyBool K' v') true
              rest')).drop content.length) = some r := by
          rw [hoeq]
          rw [show content ++ lit "</integer>" ++ r =
            content ++ (lit "</integer>" ++ r) by simp]
          rw [List.drop_left]
          exact stripPre_self _ _
        have hmid : ¬ ((w.take p).length ≤ content.length ∧
            content.length < (w.take p).length + r'.length) := by
          rintro ⟨hle, hlt2⟩
          have hs2 : (w.take p ++ (r' ++ applyRule (findKeyBool K' v') true
              rest')).drop content.length =
              r'.drop (content.length - (w.take p).length) ++
              applyRule (findKeyBool K' v') true rest' := by
            rw [List.drop_append_eq_append_drop,
              List.drop_eq_nil_of_le (by omega), List.nil_append,
              List.drop_append_eq_append_drop]
            have hz0 : content.length - (w.take p).length - r'.length = 0 := by
              omega
            rw [hz0, List.drop_zero]
          have hs1 := hclose
          rw [hs2] at hs1
          have hpfr : PatFree (lit "</integer>") r' := by
            rw [hr']
            exact patFree_close_toggleRepl hK' hws'
          have hn := hpfr (content.length - (w.take p).length)
            (applyRule (findKeyBool K' v') true rest') (by omega)
          rw [hn] at hs1
          exact absurd hs1 (by simp)
        by_cases hA : content.length < (w.take p).length
        · -- close tag found before the rewritten window
          have hs2 : (w.take p ++ (r' ++ applyRule (findKeyBool K' v') true
              rest')).drop content.length =
              (w.take p).drop content.length ++
              (r' ++ applyRule (findKeyBool K' v') true rest') := by
            rw [List.drop_append_eq_append_drop,
              Nat.sub_eq_zero_of_le (le_of_lt hA), List.drop_zero]
          have hs1 := hclose
          rw [hs2] at hs1
          have hsh1 : (w.take p).drop content.length ++
              (r' ++ applyRule (findKeyBool K' v') true rest') =
              ((w.take p).drop content.length ++ ((keyTok K' ++ ws') ++ ['<']))
              ++ ((if v' then lit "true/>" else lit "false/>") ++
                applyRule (findKeyBool K' v') true rest') := by
            rw [hr', boolTag_split]
            simp
          rw [hsh1] at hs1
          obtain ⟨w2, hw2⟩ := stripPre_stable_some (by
            simp only [List.length_append, List.length_drop]
            have h10 : (lit "</integer>").length = 10 := rfl
            have hkt : (keyTok K').length = K'.length + 11 := by
              simp only [keyTok, List.length_append]
              have h5 : (lit "<key>").length = 5 := rfl
              have h6 : (lit "</key>").length = 6 := rfl
              omega
            omega) hs1
          have hsh2 : ((w.take p).drop content.length ++
              ((keyTok K' ++ ws') ++ ['<'])) ++
              ((if b' then lit "true/>" else lit "false/>") ++ rest') =
              w.drop content.length := by
            conv_rhs => rw [htp]
            rw [List.drop_append_eq_append_drop,
              Nat.sub_eq_zero_of_le (le_of_lt hA), List.drop_zero, hdec,
              boolTag_split]
            simp
          rw [hsh2] at hw2
          have hwtake : w.take content.length = content := by
            have h1 : (w.take p ++ (r' ++ applyRule (findKeyBool K' v') true
                rest')).take content.length = content := by
              rw [hoeq]
              rw [show content ++ lit "</integer>" ++ r =
                content ++ (lit "</integer>" ++ r) by simp]
              exact List.take_left content _
            have h2 : (w.take p ++ (r' ++ applyRule (findKeyBool K' v') true
                rest')).take content.length =
                (w.take p).take content.length := by
              rw [List.take_append_eq_append_take,
                Nat.sub_eq_zero_of_le (le_of_lt hA), List.take_zero,
                List.append_nil]
            have h3 : (w.take p).take content.length = w.take content.length := by
              rw [List.take_take]
              have hmn : min content.length p = content.length := by omega
              rw [hmn]
            rw [← h3, ← h2, h1]
          have hw3 : w = content ++ lit "</integer>" ++ w2 := by
            conv_lhs => rw [← List.take_append_drop content.length w]
            rw [stripPre_eq_some.mp hw2, hwtake]
            simp
          rw [hw3]
          exact lazyDotUntil_isSome holt
        · -- close tag found after the rewritten window
          have hB : (w.take p).length + r'.length ≤ content.length := by
            by_contra hc
            push_neg at hc
            exact hmid ⟨by omega, by omega⟩
          have hs2 : (w.take p ++ (r' ++ applyRule (findKeyBool K' v') true
              rest')).drop content.length =
              (applyRule (findKeyBool K' v') true rest').drop
                (content.length - (w.take p).length - r'.length) := by
            rw [List.drop_append_eq_append_drop,
              List.drop_eq_nil_of_le (by omega), List.nil_append,
              List.drop_append_eq_append_drop,
              List.drop_eq_nil_of_le (by omega), List.nil_append]
          have hs1 := hclose
          rw [hs2] at hs1
          have hcontent : content = w.take p ++ (r' ++
              (applyRule (findKeyBool K' v') true rest').take
                (content.length - (w.take p).length - r'.length)) := by
            have h1 : (w.take p ++ (r' ++ applyRule (findKeyBool K' v') true
                rest')).take content.length = content := by
              rw [hoeq]
              rw [show content ++ lit "</integer>" ++ r =
                content ++ (lit "</integer>" ++ r) by simp]
              exact List.take_left content _
            have t1 : (w.take p).take content.length = w.take p :=
              List.take_of_length_le (by omega)
            have t2 : r'.take (content.length - (w.take p).length) = r' :=
              List.take_of_length_le (by omega)
            conv_lhs => rw [← h1, List.take_append_eq_append_take, t1,
              List.take_append_eq_append_take, t2]
          have hzlt : ∀ x ∈ (applyRule (findKeyBool K' v') true rest').take
              (content.length - (w.take p).length - r'.length),
              ¬ isLineTerm x := by
            intro x hx
            refine holt x ?_
            rw [hcontent]
            exact List.mem_append_right _ (List.mem_append_right _ hx)
          have hwslt : ∀ x ∈ ws', ¬ isLineTerm x := by
            intro x hx
            refine holt x ?_
            rw [hcontent, hr']
            refine List.mem_append_right _ (List.mem_append_left _ ?_)
            exact List.mem_append_left _ (List.mem_append_right _ hx)
          have hzeq : applyRule (findKeyBool K' v') true rest' =
              (applyRule (findKeyBool K' v') true rest').take
                (content.length - (w.take p).length - r'.length) ++
              lit "</integer>" ++ r := by
            conv_lhs => rw [← List.take_append_drop
              (content.length - (w.take p).length - r'.length)
              (applyRule (findKeyBool K' v') true rest')]
            rw [stripPre_eq_some.mp hs1]
            simp
          obtain ⟨cz, rz, hcz⟩ : ∃ cz rz, lazyDotUntil (lit "</integer>")
              (applyRule (findKeyBool K' v') true rest') = some (cz, rz) := by
            rw [hzeq]
            exact lazyDotUntil_isSome hzlt
          obtain ⟨c3, r3, hc3⟩ := ih rest' hrlen cz rz hcz
          obtain ⟨hr3eq, hr3lt⟩ := lazyDotUntil_eq_some hc3
          have hwshape : w = (w.take p ++ ((keyTok K' ++ ws' ++ boolTag b')
              ++ c3)) ++ lit "</integer>" ++ r3 := by
            conv_lhs => rw [htp, hdec, hr3eq]
            simp
          rw [hwshape]
          refine lazyDotUntil_isSome ?_
          intro x hx
          rcases List.mem_append.mp hx with hx1 | hx2
          · refine holt x ?_
            rw [hcontent]
            exact List.mem_append_left _ hx1
          · rcases List.mem_append.mp hx2 with hx3 | hx4
            · rcases List.mem_append.mp hx3 with hx5 | hx6
              · rcases List.mem_append.mp hx5 with hx7 | hx8
                · exact keyTok_no_lineterm hK'lt x hx7
                · exact hwslt x hx8
              · exact boolTag_no_lineterm b' x hx6
            · exact hr3lt x hx4
  exact fun w content r h => main w.length w (le_refl _) content r h

/-- A no-early-close property only reads the content and close tag, so it is
independent of the continuation. -/
theorem no_early_transfer {content ρ X : List Char}
    (h : ∀ i < content.length, stripPre (lit "</integer>")
      ((content ++ lit "</integer>" ++ ρ).drop i) = none) :
    ∀ i < content.length, stripPre (lit "</integer>")
      ((content ++ lit "</integer>" ++ X).drop i) = none := by
  intro i hi
  have e1 : (content ++ lit "</integer>" ++ ρ).drop i =
      (content ++ lit "</integer>").drop i ++ ρ := by
    rw [List.drop_append_eq_append_drop]
    have hz : i - (content ++ lit "</integer>").length = 0 := by
      simp only [List.length_append]
      omega
    rw [hz, List.drop_zero]
  have e2 : (content ++ lit "</integer>" ++ X).drop i =
      (content ++ lit "</integer>").drop i ++ X := by
    rw [List.drop_append_eq_append_drop]
    have hz : i - (content ++ lit "</integer>").length = 0 := by
      simp only [List.length_append]
      omega
    rw [hz, List.drop_zero]
  rw [e2]
  refine @stripPre_stable_none (lit "</integer>")
    ((content ++ lit "</integer>").drop i) ρ X ?_ ?_
  · rw [List.length_drop]
    simp only [List.length_append]
    have h10 : (lit "</integer>").length = 10 := rfl
    have hpl : (lit "</integer>").length ≤ content.length +
        (lit "</integer>").length - i := by omega
    exact hpl
  · rw [← e1]
    exact h i hi

/-- Assembling a no-early-close fact for a three-segment content. -/
theorem no_early_append3 {a b c X : List Char}
    (ha : ∀ i < a.length, stripPre (lit "</integer>")
      ((a ++ (b ++ (c ++ X))).drop i) = none)
    (hb : PatFree (lit "</integer>") b)
    (hc : ∀ i < c.length, stripPre (lit "</integer>")
      ((c ++ X).drop i) = none) :
    ∀ i < (a ++ (b ++ c)).length, stripPre (lit "</integer>")
      (((a ++ (b ++ c)) ++ X).drop i) = none := by
  intro i hi
  rw [show (a ++ (b ++ c)) ++ X = a ++ (b ++ (c ++ X)) by simp]
  by_cases h1 : i < a.length
  · exact ha i h1
  · rw [List.drop_append_eq_append_drop,
      List.drop_eq_nil_of_le (by omega), List.nil_append]
    by_cases h2 : i - a.length < b.length
    · rw [List.drop_append_eq_append_drop]
      have hz : i - a.length - b.length = 0 := by omega
      rw [hz, List.drop_zero]
      exact hb _ _ h2
    · rw [List.drop_append_eq_append_drop,
        List.drop_eq_nil_of_le (by omega), List.nil_append]
      refine hc _ ?_
      simp only [List.length_append] at hi
      omega

theorem lt_mem_keyTok (K : List Char) : ('<' : Char) ∈ keyTok K := by
  rw [keyTok_eq]
  exact List.mem_cons_self _ _

/-- Master lemma: silence of an integer-set matcher survives one global pass
of a boolean-toggle rule.  A toggle rewrite cannot create an integer match
whose content differs from the tracked value: a content that spans the
rewritten window mirrors back to a match of the original document whose
content contains `<`, which silence of the original forbids. -/
theorem silent_int_toggle {K K' num : List Char} {v' : Bool}
    (hK : ∀ c ∈ K, c ≠ '<') (hK' : ∀ c ∈ K', c ≠ '<')
    (hK'lt : ∀ c ∈ K', ¬ isLineTerm c)
    (hnum : ∀ c ∈ num, c ≠ '<') :
    ∀ t, (∀ n r ρ, findKeyTagged K (lit "<integer>") (lit "</integer>") num
        (t.drop n) = some (r, ρ) → t.drop n = r ++ ρ) →
      SilentOn (findKeyTagged K (lit "<integer>") (lit "</integer>") num)
        (applyRule (findKeyBool K' v') true t) := by
  have main : ∀ N t, List.length t ≤ N →
      (∀ n r ρ, findKeyTagged K (lit "<integer>") (lit "</integer>") num
        (t.drop n) = some (r, ρ) → t.drop n = r ++ ρ) →
      SilentOn (findKeyTagged K (lit "<integer>") (lit "</integer>") num)
        (applyRule (findKeyBool K' v') true t) := by
    intro N
    induction N with
    | zero =>
      intro t ht _
      rw [List.length_eq_zero.mp (Nat.le_zero.mp ht)]
      intro n r ρ hm
      simp only [applyRule_nil, List.drop_nil] at hm
      rw [findKeyTagged_nil] at hm
      exact absurd hm (by simp)
    | succ N ih =>
      intro t ht HH
      rcases first_match (findKeyBool K' v') t with hnone | ⟨p, r', rest', hp, hmin⟩
      · rw [applyRule_of_no_match hnone]
        intro n r ρ hm
        exact HH n r ρ hm
      · have hplt : p < t.length := by
          by_contra hge
          push_neg at hge
          rw [List.drop_eq_nil_of_le hge, findKeyBool_nil] at hp
          exact absurd hp (by simp)
        obtain ⟨ws', b', hdec, hr', hws'⟩ := findKeyBool_sound hp
        have htp : t = t.take p ++ t.drop p := (List.take_append_drop p t).symm
        have hglen : (t.take p).length = p := by
          rw [List.length_take]
          omega
        have hgmin : ∀ j, j < (t.take p).length →
            findKeyBool K' v' ((t.take p ++ t.drop p).drop j) = none := by
          intro j hj
          rw [← htp]
          exact hmin j (by omega)
        have hout : applyRule (findKeyBool K' v') true t =
            t.take p ++ (r' ++ applyRule (findKeyBool K' v') true rest') := by
          conv_lhs => rw [htp]
          rw [applyRule_append _ _ hgmin,
            applyRule_head_some (findKeyBool_consuming K' v') hp]
          rw [if_pos rfl]
        have hrlen : rest'.length ≤ N := by
          have hc := findKeyBool_consuming K' v' _ _ _ hp
          have hd : (t.drop p).length = t.length - p := List.length_drop p t
          omega
        have hrestdrop : rest' =
            t.drop (p + (keyTok K' ++ ws' ++ boolTag b').length) := by
          have h1 : (t.drop p).drop (keyTok K' ++ ws' ++ boolTag b').length
              = rest' := by
            rw [hdec]
            exact List.drop_left _ _
          rw [← h1, List.drop_drop]
        have HHrest : ∀ n r ρ, findKeyTagged K (lit "<integer>")
            (lit "</integer>") num (rest'.drop n) = some (r, ρ) →
            rest'.drop n = r ++ ρ := by
          intro n r ρ hm
          rw [hrestdrop, List.drop_drop] at hm ⊢
          exact HH _ r ρ hm
        have hzsil := ih rest' hrlen HHrest
        rw [hout]
        intro n r ρ hm
        by_cases hn1 : n < (t.take p).length
        · -- the match starts strictly inside the gap
          have hudrop : ((t.take p) ++
              (r' ++ applyRule (findKeyBool K' v') true rest')).drop n =
              (t.take p).drop n ++
              (r' ++ applyRule (findKeyBool K' v') true rest') := by
            rw [List.drop_append_eq_append_drop,
              Nat.sub_eq_zero_of_le (le_of_lt hn1), List.drop_zero]
          rw [hudrop] at hm ⊢
          obtain ⟨ws, content, hdec2, hr2, hws2, hlt2, hne2⟩ :=
            findKeyTagged_sound_full hm
          have hγpos : 0 < ((t.take p).drop n).length := by
            rw [List.length_drop]
            omega
          have hlk : (keyTok K).length = K.length + 11 := by
            simp only [keyTok, List.length_append]
            have h5 : (lit "<key>").length = 5 := rfl
            have h6 : (lit "</key>").length = 6 := rfl
            omega
          have h9 : (lit "<integer>").length = 9 := rfl
          have h10 : (lit "</integer>").length = 10 := rfl
          by_cases hOg : (keyTok K ++ ws ++ lit "<integer>" ++ content ++
              lit "</integer>").length ≤ ((t.take p).drop n).length
          · -- occurrence entirely inside the gap: mirror into t
            obtain ⟨gtail, hgt1, hgt2⟩ : ∃ gtail,
                (t.take p).drop n = (keyTok K ++ ws ++ lit "<integer>" ++
                  content ++ lit "</integer>") ++ gtail ∧
                ρ = gtail ++ (r' ++ applyRule (findKeyBool K' v') true rest') := by
              rcases List.append_eq_append_iff.mp hdec2 with
                ⟨a', ha1, ha2⟩ | ⟨c', hc1, hc2⟩
              · have hl : a'.length = 0 := by
                  have hll := congrArg List.length ha1
                  have hOg2 := hOg
                  simp only [List.length_append] at hll hOg2
                  omega
                have ha0 : a' = [] := List.length_eq_zero.mp hl
                subst ha0
                refine ⟨[], ?_, ?_⟩
                · simpa using ha1.symm
                · simpa using ha2.symm
              · exact ⟨c', hc1, hc2⟩
            have htdropn : t.drop n = (keyTok K ++ ws ++ lit "<integer>" ++
                content ++ lit "</integer>") ++ (gtail ++ t.drop p) := by
              conv_lhs => rw [htp]
              rw [List.drop_append_eq_append_drop,
                Nat.sub_eq_zero_of_le (le_of_lt hn1), List.drop_zero, hgt1]
              simp
            have htm : findKeyTagged K (lit "<integer>") (lit "</integer>")
                num (t.drop n) = some (keyTok K ++ ws ++ lit "<integer>" ++
                  num ++ lit "</integer>", gtail ++ t.drop p) := by
              rw [htdropn]
              rw [show (keyTok K ++ ws ++ lit "<integer>" ++ content ++
                lit "</integer>") ++ (gtail ++ t.drop p) =
                keyTok K ++ ws ++ lit "<integer>" ++ content ++
                lit "</integer>" ++ (gtail ++ t.drop p) by simp]
              exact findKeyTagged_complete hws2 (by decide)
                (no_early_transfer hne2) hlt2
            have hsil := HH n _ _ htm
            rw [htdropn] at hsil
            have hO : (keyTok K ++ ws ++ lit "<integer>" ++ content ++
                lit "</integer>") = (keyTok K ++ ws ++ lit "<integer>" ++
                num ++ lit "</integer>") := by
              have hsil2 : (keyTok K ++ ws ++ lit "<integer>" ++ content ++
                  lit "</integer>") ++ (gtail ++ t.drop p) =
                  (keyTok K ++ ws ++ lit "<integer>" ++ num ++
                  lit "</integer>") ++ (gtail ++ t.drop p) := by
                exact hsil
              refine (List.append_inj hsil2 ?_).1
              have hlen := congrArg List.length hsil2
              simp only [List.length_append] at hlen ⊢
              omega
            have h2 := List.append_cancel_right hO
            have hcn : content = num := List.append_cancel_left h2
            subst hcn
            rw [hdec2, hr2]
          · -- occurrence reaches the rewritten part
            push_neg at hOg
            have e0 : ((keyTok K ++ ws ++ lit "<integer>" ++ content ++
                lit "</integer>") ++ ρ).drop ((t.take p).drop n).length =
                r' ++ applyRule (findKeyBool K' v') true rest' := by
              rw [← hdec2]
              exact List.drop_left _ _
            have e0' : ((keyTok K ++ ws ++ lit "<integer>" ++ content ++
                lit "</integer>") ++ ρ).drop ((t.take p).drop n).length =
                (keyTok K ++ ws ++ lit "<integer>" ++ content ++
                lit "</integer>").drop ((t.take p).drop n).length ++ ρ := by
              rw [List.drop_append_eq_append_drop,
                Nat.sub_eq_zero_of_le (le_of_lt hOg), List.drop_zero]
            have hJ : (keyTok K ++ ws ++ lit "<integer>" ++ content ++
                lit "</integer>").drop ((t.take p).drop n).length ++ ρ =
                r' ++ applyRule (findKeyBool K' v') true rest' := by
              rw [← e0', e0]
            have hsome : stripPre (lit "<k") ((keyTok K ++ ws ++
                lit "<integer>" ++ content ++ lit "</integer>").drop
                ((t.take p).drop n).length ++ ρ) ≠ none := by
              rw [hJ, hr']
              rw [show (keyTok K' ++ ws' ++ boolTag v') ++
                applyRule (findKeyBool K' v') true rest' =
                keyTok K' ++ (ws' ++ (boolTag v' ++
                  applyRule (findKeyBool K' v') true rest')) by simp]
              rw [stripPre_ltk_keyTok]
              simp
            by_cases hs1 : ((t.take p).drop n).length <
                (keyTok K ++ ws ++ lit "<integer>").length
            · refine absurd ?_ hsome
              have hshape : (keyTok K ++ ws ++ lit "<integer>" ++ content ++
                  lit "</integer>").drop ((t.take p).drop n).length ++ ρ =
                  (keyTok K ++ ws ++ lit "<integer>").drop
                    ((t.take p).drop n).length ++
                  (content ++ (lit "</integer>" ++ ρ)) := by
                rw [List.drop_append_eq_append_drop]
                have hz1 : ((t.take p).drop n).length - (keyTok K ++ ws ++
                    lit "<integer>" ++ content).length = 0 := by
                  have hs1b := hs1
                  simp only [List.length_append] at hs1b ⊢
                  omega
                rw [hz1, List.drop_zero, List.drop_append_eq_append_drop]
                have hz2 : ((t.take p).drop n).length - (keyTok K ++ ws ++
                    lit "<integer>").length = 0 := by
                  have hs1b := hs1
                  simp only [List.length_append] at hs1b ⊢
                  omega
                rw [hz2, List.drop_zero]
                simp
              rw [hshape]
              have hpf : PatFree1 (lit "<k")
                  (keyTok K ++ ws ++ lit "<integer>") :=
                patFree1_append (patFree1_append (patFree1_ltk_keyTok hK)
                  (patFree_of_ne_head (ws_ne_lt_all hws2))) patFree_ltk_openInt
              exact hpf _ _ hγpos hs1
            · by_cases hs2 : (keyTok K ++ ws ++ lit "<integer>" ++
                  content).length ≤ ((t.take p).drop n).length
              · refine absurd ?_ hsome
                have hshape : (keyTok K ++ ws ++ lit "<integer>" ++ content ++
                    lit "</integer>").drop ((t.take p).drop n).length ++ ρ =
                    (lit "</integer>").drop (((t.take p).drop n).length -
                      (keyTok K ++ ws ++ lit "<integer>" ++ content).length)
                    ++ ρ := by
                  rw [List.drop_append_eq_append_drop,
                    List.drop_eq_nil_of_le hs2, List.nil_append]
                rw [hshape]
                refine patFree_ltk_closeInt _ _ ?_
                have hOg2 := hOg
                have hs2b := hs2
                simp only [List.length_append] at hOg2 hs2b ⊢
                omega
              · -- the content covers the junction
                push_neg at hs2
                have hle1 : (keyTok K ++ ws ++ lit "<integer>").length ≤
                    ((t.take p).drop n).length := le_of_not_lt hs1
                have hshape : (keyTok K ++ ws ++ lit "<integer>" ++ content ++
                    lit "</integer>").drop ((t.take p).drop n).length =
                    content.drop (((t.take p).drop n).length -
                      (keyTok K ++ ws ++ lit "<integer>").length) ++
                    lit "</integer>" := by
                  rw [List.drop_append_eq_append_drop]
                  have hz1 : ((t.take p).drop n).length - (keyTok K ++ ws ++
                      lit "<integer>" ++ content).length = 0 := by
                    have hs2b := hs2
                    simp only [List.length_append] at hs2b ⊢
                    omega
                  rw [hz1, List.drop_zero, List.drop_append_eq_append_drop,
                    List.drop_eq_nil_of_le hle1, List.nil_append]
                have hJ2 : content.drop (((t.take p).drop n).length -
                    (keyTok K ++ ws ++ lit "<integer>").length) ++
                    (lit "</integer>" ++ ρ) =
                    r' ++ applyRule (findKeyBool K' v') true rest' := by
                  have hJb := hJ
                  rw [hshape] at hJb
                  rw [← hJb]
                  simp
                have hc2r : r'.length ≤ (content.drop
                    (((t.take p).drop n).length -
                    (keyTok K ++ ws ++ lit "<integer>").length)).length := by
                  by_contra hlt3
                  push_neg at hlt3
                  have hsome2 : stripPre (lit "</integer>")
                      ((r' ++ applyRule (findKeyBool K' v') true rest').drop
                        (content.drop (((t.take p).drop n).length -
                          (keyTok K ++ ws ++ lit "<integer>").length)).length)
                      = some ρ := by
                    rw [← hJ2, List.drop_left]
                    exact stripPre_self _ _
                  have hre : (r' ++ applyRule (findKeyBool K' v') true
                      rest').drop (content.drop (((t.take p).drop n).length -
                        (keyTok K ++ ws ++ lit "<integer>").length)).length =
                      r'.drop (content.drop (((t.take p).drop n).length -
                        (keyTok K ++ ws ++ lit "<integer>").length)).length ++
                      applyRule (findKeyBool K' v') true rest' := by
                    rw [List.drop_append_eq_append_drop]
                    have hz : (content.drop (((t.take p).drop n).length -
                        (keyTok K ++ ws ++ lit "<integer>").length)).length -
                        r'.length = 0 := by omega
                    rw [hz, List.drop_zero]
                  rw [hre] at hsome2
                  have hpfr : PatFree (lit "</integer>") r' := by
                    rw [hr']
                    exact patFree_close_toggleRepl hK' hws'
                  rw [hpfr _ _ hlt3] at hsome2
                  exact absurd hsome2 (by simp)
                obtain ⟨c3u, hc31, hc32⟩ : ∃ c3u,
                    content.drop (((t.take p).drop n).length -
                      (keyTok K ++ ws ++ lit "<integer>").length) =
                      r' ++ c3u ∧
                    applyRule (findKeyBool K' v') true rest' =
                      c3u ++ (lit "</integer>" ++ ρ) := by
                  rcases List.append_eq_append_iff.mp hJ2 with
                    ⟨a', ha1, ha2⟩ | ⟨c', hcc1, hcc2⟩
                  · have hl : a'.length = 0 := by
                      have hll := congrArg List.length ha1
                      have hc2rb := hc2r
                      simp only [List.length_append, List.length_drop]
                        at hll hc2rb
                      omega
                    have ha0 : a' = [] := List.length_eq_zero.mp hl
                    subst ha0
                    refine ⟨[], ?_, ?_⟩
                    · simpa using ha1.symm
                    · simpa using ha2.symm
                  · exact ⟨c', hcc1, hcc2⟩
                have hcsplit : content = content.take
                    (((t.take p).drop n).length -
                      (keyTok K ++ ws ++ lit "<integer>").length) ++
                    (r' ++ c3u) := by
                  rw [← hc31, List.take_append_drop]
                have hgmlt : ∀ x ∈ content.take (((t.take p).drop n).length -
                    (keyTok K ++ ws ++ lit "<integer>").length),
                    ¬ isLineTerm x :=
                  fun x hx => hlt2 x (List.mem_of_mem_take hx)
                have hc3lt : ∀ x ∈ c3u, ¬ isLineTerm x := fun x hx =>
                  hlt2 x (List.mem_of_mem_drop (by
                    rw [hc31]
                    exact List.mem_append_right _ hx))
                have hwslt2 : ∀ x ∈ ws', ¬ isLineTerm x := fun x hx =>
                  hlt2 x (List.mem_of_mem_drop (by
                    rw [hc31, hr']
                    exact List.mem_append_left _
                      (List.mem_append_left _ (List.mem_append_right _ hx))))
                obtain ⟨cz, rz, hcz⟩ : ∃ cz rz,
                    lazyDotUntil (lit "</integer>")
                      (applyRule (findKeyBool K' v') true rest') =
                    some (cz, rz) := by
                  rw [hc32, show c3u ++ (lit "</integer>" ++ ρ) =
                    c3u ++ lit "</integer>" ++ ρ by simp]
                  exact lazyDotUntil_isSome hc3lt
                obtain ⟨cw, rr3, hcw⟩ :=
                  scan_trans_toggle hK' hK'lt rest' cz rz hcz
                obtain ⟨hcweq, hcwlt⟩ := lazyDotUntil_eq_some hcw
                have hcwne := lazyDotUntil_no_early hcw
                have hgstruct : (t.take p).drop n =
                    (keyTok K ++ ws ++ lit "<integer>") ++
                    content.take (((t.take p).drop n).length -
                      (keyTok K ++ ws ++ lit "<integer>").length) := by
                  have h1 : ((t.take p).drop n ++ (r' ++ applyRule
                      (findKeyBool K' v') true rest')).take
                      ((t.take p).drop n).length = (t.take p).drop n :=
                    List.take_left _ _
                  rw [hdec2] at h1
                  have tA : ((keyTok K ++ ws ++ lit "<integer>" ++ content ++
                      lit "</integer>") ++ ρ).take
                      ((t.take p).drop n).length =
                      (keyTok K ++ ws ++ lit "<integer>" ++ content ++
                      lit "</integer>").take ((t.take p).drop n).length := by
                    rw [List.take_append_eq_append_take]
                    have hz : ((t.take p).drop n).length - (keyTok K ++ ws ++
                        lit "<integer>" ++ content ++
                        lit "</integer>").length = 0 := by omega
                    rw [hz, List.take_zero, List.append_nil]
                  have tB : (keyTok K ++ ws ++ lit "<integer>" ++ content ++
                      lit "</integer>").take ((t.take p).drop n).length =
                      (keyTok K ++ ws ++ lit "<integer>" ++ content).take
                      ((t.take p).drop n).length := by
                    rw [List.take_append_eq_append_take]
                    have hz : ((t.take p).drop n).length - (keyTok K ++ ws ++
                        lit "<integer>" ++ content).length = 0 := by
                      have hs2b := hs2
                      simp only [List.length_append] at hs2b ⊢
                      omega
                    rw [hz, List.take_zero, List.append_nil]
                  have tD1 : (keyTok K ++ ws ++ lit "<integer>").take
                      ((t.take p).drop n).length =
                      keyTok K ++ ws ++ lit "<integer>" :=
                    List.take_of_length_le hle1
                  have tC : (keyTok K ++ ws ++ lit "<integer>" ++
                      content).take ((t.take p).drop n).length =
                      (keyTok K ++ ws ++ lit "<integer>") ++
                      content.take (((t.take p).drop n).length -
                        (keyTok K ++ ws ++ lit "<integer>").length) := by
                    rw [List.take_append_eq_append_take, tD1]
                  rw [tA] at h1
                  rw [tB] at h1
                  rw [tC] at h1
                  exact h1.symm
                have htdropn : t.drop n = keyTok K ++ ws ++ lit "<integer>" ++
                    (content.take (((t.take p).drop n).length -
                      (keyTok K ++ ws ++ lit "<integer>").length) ++
                    ((keyTok K' ++ ws' ++ boolTag b') ++ cw)) ++
                    lit "</integer>" ++ rr3 := by
                  conv_lhs => rw [htp]
                  rw [List.drop_append_eq_append_drop,
                    Nat.sub_eq_zero_of_le (le_of_lt hn1), List.drop_zero]
                  conv_lhs => rw [hgstruct, hdec, hcweq]
                  simp only [List.append_assoc]
                have hmiss_t : ∀ i < (content.take
                    (((t.take p).drop n).length -
                      (keyTok K ++ ws ++ lit "<integer>").length) ++
                    ((keyTok K' ++ ws' ++ boolTag b') ++ cw)).length,
                    stripPre (lit "</integer>") (((content.take
                      (((t.take p).drop n).length -
                        (keyTok K ++ ws ++ lit "<integer>").length) ++
                      ((keyTok K' ++ ws' ++ boolTag b') ++ cw)) ++
                      lit "</integer>" ++ rr3).drop i) = none := by
                  intro i hi
                  rw [show (content.take (((t.take p).drop n).length -
                      (keyTok K ++ ws ++ lit "<integer>").length) ++
                      ((keyTok K' ++ ws' ++ boolTag b') ++ cw)) ++
                      lit "</integer>" ++ rr3 =
                      (content.take (((t.take p).drop n).length -
                      (keyTok K ++ ws ++ lit "<integer>").length) ++
                      ((keyTok K' ++ ws' ++ boolTag b') ++ cw)) ++
                      (lit "</integer>" ++ rr3) by simp]
                  refine no_early_append3 ?_
                    (patFree_close_toggleRepl hK' hws') ?_ i hi
                  · intro i2 hi2
                    have hglen2 : (content.take (((t.take p).drop n).length -
                        (keyTok K ++ ws ++ lit "<integer>").length)).length ≤
                        content.length := by
                      rw [List.length_take]
                      omega
                    have hu := hne2 i2 (by omega)
                    have hu_shape : (content ++ lit "</integer>" ++ ρ).drop i2
                        = (content.take (((t.take p).drop n).length -
                          (keyTok K ++ ws ++ lit "<integer>").length)).drop i2
                          ++ (((keyTok K' ++ ws') ++ ['<']) ++
                          ((if v' then lit "true/>" else lit "false/>") ++
                          (c3u ++ (lit "</integer>" ++ ρ)))) := by
                      conv_lhs => rw [hcsplit, hr', boolTag_split]
                      rw [show (content.take (((t.take p).drop n).length -
                          (keyTok K ++ ws ++ lit "<integer>").length) ++
                          (keyTok K' ++ ws' ++ (['<'] ++
                            (if v' then lit "true/>" else lit "false/>")) ++
                          c3u)) ++ lit "</integer>" ++ ρ =
                          content.take (((t.take p).drop n).length -
                          (keyTok K ++ ws ++ lit "<integer>").length) ++
                          (((keyTok K' ++ ws') ++ ['<']) ++
                          ((if v' then lit "true/>" else lit "false/>") ++
                          (c3u ++ (lit "</integer>" ++ ρ)))) by simp]
                      rw [List.drop_append_eq_append_drop]
                      have hz : i2 - (content.take
                          (((t.take p).drop n).length - (keyTok K ++ ws ++
                          lit "<integer>").length)).length = 0 := by omega
                      rw [hz, List.drop_zero]
                    have ht_shape : ((content.take
                        (((t.take p).drop n).length -
                        (keyTok K ++ ws ++ lit "<integer>").length)) ++
                        ((keyTok K' ++ ws' ++ boolTag b') ++
                        (cw ++ (lit "</integer>" ++ rr3)))).drop i2 =
                        ((content.take (((t.take p).drop n).length -
                        (keyTok K ++ ws ++ lit "<integer>").length)).drop i2
                        ++ ((keyTok K' ++ ws') ++ ['<'])) ++
                        ((if b' then lit "true/>" else lit "false/>") ++
                        (cw ++ (lit "</integer>" ++ rr3))) := by
                      conv_lhs => rw [boolTag_split]
                      rw [show (content.take (((t.take p).drop n).length -
                          (keyTok K ++ ws ++ lit "<integer>").length)) ++
                          ((keyTok K' ++ ws' ++ (['<'] ++
                            (if b' then lit "true/>" else lit "false/>"))) ++
                          (cw ++ (lit "</integer>" ++ rr3))) =
                          content.take (((t.take p).drop n).length -
                          (keyTok K ++ ws ++ lit "<integer>").length) ++
                          (((keyTok K' ++ ws') ++ ['<']) ++
                          ((if b' then lit "true/>" else lit "false/>") ++
                          (cw ++ (lit "</integer>" ++ rr3)))) by simp]
                      rw [List.drop_append_eq_append_drop]
                      have hz : i2 - (content.take
                          (((t.take p).drop n).length - (keyTok K ++ ws ++
                          lit "<integer>").length)).length = 0 := by omega
                      rw [hz, List.drop_zero]
                      simp
                    rw [show (content.take (((t.take p).drop n).length -
                        (keyTok K ++ ws ++ lit "<integer>").length) ++
                        ((keyTok K' ++ ws' ++ boolTag b') ++ (cw ++
                        (lit "</integer>" ++ rr3)))) =
                        (content.take (((t.take p).drop n).length -
                        (keyTok K ++ ws ++ lit "<integer>").length)) ++
                        ((keyTok K' ++ ws' ++ boolTag b') ++ (cw ++
                        (lit "</integer>" ++ rr3))) from rfl, ht_shape]
                    refine @stripPre_stable_none (lit "</integer>")
                      ((content.take (((t.take p).drop n).length -
                        (keyTok K ++ ws ++ lit "<integer>").length)).drop i2
                        ++ ((keyTok K' ++ ws') ++ ['<']))
                      (((if v' then lit "true/>" else lit "false/>") ++
                        (c3u ++ (lit "</integer>" ++ ρ))))
                      (((if b' then lit "true/>" else lit "false/>") ++
                        (cw ++ (lit "</integer>" ++ rr3)))) ?_ ?_
                    · simp only [List.length_append, List.length_drop]
                      have hlk' : (keyTok K').length = K'.length + 11 := by
                        simp only [keyTok, List.length_append]
                        have h5 : (lit "<key>").length = 5 := rfl
                        have h6 : (lit "</key>").length = 6 := rfl
                        omega
                      have h1l : (['<'] : List Char).length = 1 := rfl
                      omega
                    · rw [List.append_assoc, ← hu_shape]
                      exact hu
                  · intro i2 hi2
                    rw [show cw ++ (lit "</integer>" ++ rr3) =
                      cw ++ lit "</integer>" ++ rr3 by simp, ← hcweq]
                    exact hcwne i2 hi2
                have hlt_t : ∀ x ∈ content.take (((t.take p).drop n).length -
                    (keyTok K ++ ws ++ lit "<integer>").length) ++
                    ((keyTok K' ++ ws' ++ boolTag b') ++ cw),
                    ¬ isLineTerm x := by
                  intro x hx
                  rcases List.mem_append.mp hx with hx1 | hx2
                  · exact hgmlt x hx1
                  · rcases List.mem_append.mp hx2 with hx3 | hx4
                    · rcases List.mem_append.mp hx3 with hx5 | hx6
                      · rcases List.mem_append.mp hx5 with hx7 | hx8
                        · exact keyTok_no_lineterm hK'lt x hx7
                        · exact hwslt2 x hx8
                      · exact boolTag_no_lineterm b' x hx6
                    · exact hcwlt x hx4
                have htm : findKeyTagged K (lit "<integer>")
                    (lit "</integer>") num (t.drop n) =
                    some (keyTok K ++ ws ++ lit "<integer>" ++ num ++
                      lit "</integer>", rr3) := by
                  rw [htdropn]
                  exact findKeyTagged_complete hws2 (by decide) hmiss_t hlt_t
                have hsil := HH n _ _ htm
                rw [htdropn] at hsil
                have hO : (keyTok K ++ ws ++ lit "<integer>" ++
                    (content.take (((t.take p).drop n).length -
                      (keyTok K ++ ws ++ lit "<integer>").length) ++
                    ((keyTok K' ++ ws' ++ boolTag b') ++ cw)) ++
                    lit "</integer>") = (keyTok K ++ ws ++ lit "<integer>" ++
                    num ++ lit "</integer>") := by
                  refine (List.append_inj hsil ?_).1
                  have hlen := congrArg List.length hsil
                  simp only [List.length_append] at hlen ⊢
                  omega
                have h2 := List.append_cancel_right hO
                have h3 := List.append_cancel_left h2
                have hmem : ('<' : Char) ∈ num := by
                  rw [← h3]
                  exact List.mem_append_right _ (List.mem_append_left _
                    (List.mem_append_left _
                      (List.mem_append_left _ (lt_mem_keyTok K'))))
                exact absurd rfl (hnum '<' hmem)
        · by_cases hn2 : n < (t.take p).length + r'.length
          · by_cases hn0 : n = (t.take p).length
            · -- aligned with the replacement: the integer matcher cannot fire
              subst hn0
              have hdropa : ((t.take p) ++ (r' ++ applyRule (findKeyBool K'
                  v') true rest')).drop (t.take p).length =
                  r' ++ applyRule (findKeyBool K' v') true rest' :=
                List.drop_left _ _
              rw [hdropa] at hm
              by_cases hKK : K = K'
              · subst hKK
                have hnone2 : findKeyTagged K (lit "<integer>")
                    (lit "</integer>") num
                    (r' ++ applyRule (findKeyBool K v') true rest') = none := by
                  rw [hr']
                  rw [show (keyTok K ++ ws' ++ boolTag v') ++
                    applyRule (findKeyBool K v') true rest' =
                    keyTok K ++ (ws' ++ (boolTag v' ++
                      applyRule (findKeyBool K v') true rest')) by simp]
                  unfold findKeyTagged
                  rw [stripPre_self]
                  cases v' with
                  | true =>
                    obtain ⟨hT, hD⟩ := @wsTake_split' ws'
                      (boolTag true ++ applyRule (findKeyBool K true) true
                        rest') '<'
                      (lit "true/>" ++ applyRule (findKeyBool K true) true
                        rest') hws' (by decide) rfl
                    dsimp only
                    rw [hD]
                    have h1 : stripPre (lit "<integer>")
                        (boolTag true ++ applyRule (findKeyBool K
                          true) true rest') = none :=
                      stripPre_none_two (by decide)
                    rw [h1]
                  | false =>
                    obtain ⟨hT, hD⟩ := @wsTake_split' ws'
                      (boolTag false ++ applyRule (findKeyBool K false) true
                        rest') '<'
                      (lit "false/>" ++ applyRule (findKeyBool K false) true
                        rest') hws' (by decide) rfl
                    dsimp only
                    rw [hD]
                    have h1 : stripPre (lit "<integer>")
                        (boolTag false ++ applyRule (findKeyBool K
                          false) true rest') = none :=
                      stripPre_none_two (by decide)
                    rw [h1]
                rw [hnone2] at hm
                exact absurd hm (by simp)
              · have hnone2 : stripPre (keyTok K)
                    (r' ++ applyRule (findKeyBool K' v') true rest')
                    = none := by
                  rw [hr']
                  rw [show (keyTok K' ++ ws' ++ boolTag v') ++
                    applyRule (findKeyBool K' v') true rest' =
                    keyTok K' ++ (ws' ++ (boolTag v' ++
                      applyRule (findKeyBool K' v') true rest')) by simp]
                  exact stripPre_keyTok_keyTok_ne hK hK' hKK
                rw [findKeyTagged_none hnone2] at hm
                exact absurd hm (by simp)
            · -- strictly inside the replacement
              have hdropr : ((t.take p) ++ (r' ++ applyRule (findKeyBool K'
                  v') true rest')).drop n =
                  r'.drop (n - (t.take p).length) ++
                  applyRule (findKeyBool K' v') true rest' := by
                rw [List.drop_append_eq_append_drop,
                  List.drop_eq_nil_of_le (by omega), List.nil_append,
                  List.drop_append_eq_append_drop]
                have hz0 : n - (t.take p).length - r'.length = 0 := by omega
                rw [hz0, List.drop_zero]
              rw [hdropr] at hm
              have hpf1 : PatFree1 (lit "<k") r' := by
                rw [hr']
                exact patFree1_ltk_toggleRepl hK' hws'
              have hpf := hpf1 (n - (t.take p).length)
                (applyRule (findKeyBool K' v') true rest') (by omega)
                (by omega)
              rw [findKeyTagged_none (stripPre_keyTok_none_of_ltk hpf)] at hm
              exact absurd hm (by simp)
          · -- in the rewritten tail
            have hdropz : ((t.take p) ++ (r' ++ applyRule (findKeyBool K' v')
                true rest')).drop n =
                (applyRule (findKeyBool K' v') true rest').drop
                  (n - (t.take p).length - r'.length) := by
              rw [List.drop_append_eq_append_drop,
                List.drop_eq_nil_of_le (by omega), List.nil_append,
                List.drop_append_eq_append_drop,
                List.drop_eq_nil_of_le (by omega), List.nil_append]
            rw [hdropz] at hm ⊢
            exact hzsil _ r ρ hm
  exact fun t HH => main t.length t (le_refl _) HH

/-- Master lemma: silence of an integer-set matcher survives one global pass
of a (same or different) integer-set rule. -/
theorem silent_int_int {K K' num num' : List Char}
    (hK : ∀ c ∈ K, c ≠ '<') (hK' : ∀ c ∈ K', c ≠ '<')
    (hK'lt : ∀ c ∈ K', ¬ isLineTerm c)
    (hnum : ∀ c ∈ num, c ≠ '<') (hnum' : ∀ c ∈ num', c ≠ '<')
    (hnumlt : ∀ c ∈ num, ¬ isLineTerm c)
    (hkn : K = K' → num = num') :
    ∀ t, (∀ n r ρ, findKeyTagged K (lit "<integer>") (lit "</integer>") num
        (t.drop n) = some (r, ρ) → t.drop n = r ++ ρ ∨
          findKeyTagged K' (lit "<integer>") (lit "</integer>") num'
            (t.drop n) = some (r, ρ)) →
      SilentOn (findKeyTagged K (lit "<integer>") (lit "</integer>") num)
        (applyRule (findKeyTagged K' (lit "<integer>") (lit "</integer>")
          num') true t) := by
  have main : ∀ N t, List.length t ≤ N →
      (∀ n r ρ, findKeyTagged K (lit "<integer>") (lit "</integer>") num
        (t.drop n) = some (r, ρ) → t.drop n = r ++ ρ ∨
          findKeyTagged K' (lit "<integer>") (lit "</integer>") num'
            (t.drop n) = some (r, ρ)) →
      SilentOn (findKeyTagged K (lit "<integer>") (lit "</integer>") num)
        (applyRule (findKeyTagged K' (lit "<integer>") (lit "</integer>")
          num') true t) := by
    intro N
    induction N with
    | zero =>
      intro t ht _
      rw [List.length_eq_zero.mp (Nat.le_zero.mp ht)]
      intro n r ρ hm
      simp only [applyRule_nil, List.drop_nil] at hm
      rw [findKeyTagged_nil] at hm
      exact absurd hm (by simp)
    | succ N ih =>
      intro t ht HH
      rcases first_match (findKeyTagged K' (lit "<integer>")
        (lit "</integer>") num') t with hnone | ⟨p, r', rest', hp, hmin⟩
      · rw [applyRule_of_no_match hnone]
        intro n r ρ hm
        rcases HH n r ρ hm with hsil | hf'
        · exact hsil
        · rw [hnone n] at hf'
          exact absurd hf' (by simp)
      · have hplt : p < t.length := by
          by_contra hge
          push_neg at hge
          rw [List.drop_eq_nil_of_le hge, findKeyTagged_nil] at hp
          exact absurd hp (by simp)
        obtain ⟨ws', content', hdec, hr', hws', hlt', hne'⟩ :=
          findKeyTagged_sound_full hp
        have htp : t = t.take p ++ t.drop p := (List.take_append_drop p t).symm
        have hglen : (t.take p).length = p := by
          rw [List.length_take]
          omega
        have hgmin : ∀ j, j < (t.take p).length →
            findKeyTagged K' (lit "<integer>") (lit "</integer>") num'
              ((t.take p ++ t.drop p).drop j) = none := by
          intro j hj
          rw [← htp]
          exact hmin j (by omega)
        have hout : applyRule (findKeyTagged K' (lit "<integer>")
            (lit "</integer>") num') true t =
            t.take p ++ (r' ++ applyRule (findKeyTagged K' (lit "<integer>")
              (lit "</integer>") num') true rest') := by
          conv_lhs => rw [htp]
          rw [applyRule_append _ _ hgmin,
            applyRule_head_some (findKeyTagged_consuming _ _ _ _) hp]
          rw [if_pos rfl]
        have hrlen : rest'.length ≤ N := by
          have hc := findKeyTagged_consuming K' (lit "<integer>")
            (lit "</integer>") num' _ _ _ hp
          have hd : (t.drop p).length = t.length - p := List.length_drop p t
          omega
        have hrestdrop : rest' = t.drop (p + (keyTok K' ++ ws' ++
            lit "<integer>" ++ content' ++ lit "</integer>").length) := by
          have h1 : (t.drop p).drop (keyTok K' ++ ws' ++ lit "<integer>" ++
              content' ++ lit "</integer>").length = rest' := by
            rw [hdec]
            exact List.drop_left _ _
          rw [← h1, List.drop_drop]
        have HHrest : ∀ n r ρ, findKeyTagged K (lit "<integer>")
            (lit "</integer>") num (rest'.drop n) = some (r, ρ) →
            rest'.drop n = r ++ ρ ∨ findKeyTagged K' (lit "<integer>")
              (lit "</integer>") num' (rest'.drop n) = some (r, ρ) := by
          intro n r ρ hm
          rw [hrestdrop, List.drop_drop] at hm ⊢
          exact HH _ r ρ hm
        have hzsil := ih rest' hrlen HHrest
        rw [hout]
        intro n r ρ hm
        by_cases hn1 : n < (t.take p).length
        · -- the match starts strictly inside the gap
          have hudrop : ((t.take p) ++ (r' ++ applyRule (findKeyTagged K'
              (lit "<integer>") (lit "</integer>") num') true rest')).drop n =
              (t.take p).drop n ++ (r' ++ applyRule (findKeyTagged K'
              (lit "<integer>") (lit "</integer>") num') true rest') := by
            rw [List.drop_append_eq_append_drop,
              Nat.sub_eq_zero_of_le (le_of_lt hn1), List.drop_zero]
          rw [hudrop] at hm ⊢
          obtain ⟨ws, content, hdec2, hr2, hws2, hlt2, hne2⟩ :=
            findKeyTagged_sound_full hm
          have hγpos : 0 < ((t.take p).drop n).length := by
            rw [List.length_drop]
            omega
          have hlk : (keyTok K).length = K.length + 11 := by
            simp only [keyTok, List.length_append]
            have h5 : (lit "<key>").length = 5 := rfl
            have h6 : (lit "</key>").length = 6 := rfl
            omega
          have h9 : (lit "<integer>").length = 9 := rfl
          have h10 : (lit "</integer>").length = 10 := rfl
          by_cases hOg : (keyTok K ++ ws ++ lit "<integer>" ++ content ++
              lit "</integer>").length ≤ ((t.take p).drop n).length
          · -- occurrence entirely inside the gap: mirror into t
            obtain ⟨gtail, hgt1, hgt2⟩ : ∃ gtail,
                (t.take p).drop n = (keyTok K ++ ws ++ lit "<integer>" ++
                  content ++ lit "</integer>") ++ gtail ∧
                ρ = gtail ++ (r' ++ applyRule (findKeyTagged K'
                  (lit "<integer>") (lit "</integer>") num') true rest') := by
              rcases List.append_eq_append_iff.mp hdec2 with
                ⟨a', ha1, ha2⟩ | ⟨c', hc1, hc2⟩
              · have hl : a'.length = 0 := by
                  have hll := congrArg List.length ha1
                  have hOg2 := hOg
                  simp only [List.length_append] at hll hOg2
                  omega
                have ha0 : a' = [] := List.length_eq_zero.mp hl
                subst ha0
                refine ⟨[], ?_, ?_⟩
                · simpa using ha1.symm
                · simpa using ha2.symm
              · exact ⟨c', hc1, hc2⟩
            have htdropn : t.drop n = (keyTok K ++ ws ++ lit "<integer>" ++
                content ++ lit "</integer>") ++ (gtail ++ t.drop p) := by
              conv_lhs => rw [htp]
              rw [List.drop_append_eq_append_drop,
                Nat.sub_eq_zero_of_le (le_of_lt hn1), List.drop_zero, hgt1]
              simp
            have htm : findKeyTagged K (lit "<integer>") (lit "</integer>")
                num (t.drop n) = some (keyTok K ++ ws ++ lit "<integer>" ++
                  num ++ lit "</integer>", gtail ++ t.drop p) := by
              rw [htdropn]
              rw [show (keyTok K ++ ws ++ lit "<integer>" ++ content ++
                lit "</integer>") ++ (gtail ++ t.drop p) =
                keyTok K ++ ws ++ lit "<integer>" ++ content ++
                lit "</integer>" ++ (gtail ++ t.drop p) by simp]
              exact findKeyTagged_complete hws2 (by decide)
                (no_early_transfer hne2) hlt2
            rcases HH n _ _ htm with hsil | hf'
            · rw [htdropn] at hsil
              have hO : (keyTok K ++ ws ++ lit "<integer>" ++ content ++
                  lit "</integer>") = (keyTok K ++ ws ++ lit "<integer>" ++
                  num ++ lit "</integer>") := by
                have hsil2 : (keyTok K ++ ws ++ lit "<integer>" ++ content ++
                    lit "</integer>") ++ (gtail ++ t.drop p) =
                    (keyTok K ++ ws ++ lit "<integer>" ++ num ++
                    lit "</integer>") ++ (gtail ++ t.drop p) := by
                  exact hsil
                refine (List.append_inj hsil2 ?_).1
                have hlen := congrArg List.length hsil2
                simp only [List.length_append] at hlen ⊢
                omega
              have h2 := List.append_cancel_right hO
              have hcn : content = num := List.append_cancel_left h2
              subst hcn
              rw [hdec2, hr2]
            · rw [hmin n (by omega)] at hf'
              exact absurd hf' (by simp)
          · -- occurrence reaches the rewritten part
            push_neg at hOg
            have e0 : ((keyTok K ++ ws ++ lit "<integer>" ++ content ++
                lit "</integer>") ++ ρ).drop ((t.take p).drop n).length =
                r' ++ applyRule (findKeyTagged K' (lit "<integer>")
                  (lit "</integer>") num') true rest' := by
              rw [← hdec2]
              exact List.drop_left _ _
            have e0' : ((keyTok K ++ ws ++ lit "<integer>" ++ content ++
                lit "</integer>") ++ ρ).drop ((t.take p).drop n).length =
                (keyTok K ++ ws ++ lit "<integer>" ++ content ++
                lit "</integer>").drop ((t.take p).drop n).length ++ ρ := by
              rw [List.drop_append_eq_append_drop,
                Nat.sub_eq_zero_of_le (le_of_lt hOg), List.drop_zero]
            have hJ : (keyTok K ++ ws ++ lit "<integer>" ++ content ++
                lit "</integer>").drop ((t.take p).drop n).length ++ ρ =
                r' ++ applyRule (findKeyTagged K' (lit "<integer>")
                  (lit "</integer>") num') true rest' := by
              rw [← e0', e0]
            have hsome : stripPre (lit "<k") ((keyTok K ++ ws ++
                lit "<integer>" ++ content ++ lit "</integer>").drop
                ((t.take p).drop n).length ++ ρ) ≠ none := by
              rw [hJ, hr']
              rw [show (keyTok K' ++ ws' ++ lit "<integer>" ++ num' ++
                lit "</integer>") ++ applyRule (findKeyTagged K'
                  (lit "<integer>") (lit "</integer>") num') true rest' =
                keyTok K' ++ (ws' ++ (lit "<integer>" ++ (num' ++
                  (lit "</integer>" ++ applyRule (findKeyTagged K'
                    (lit "<integer>") (lit "</integer>") num') true rest'))))
                by simp]
              rw [stripPre_ltk_keyTok]
              simp
            by_cases hs1 : ((t.take p).drop n).length <
                (keyTok K ++ ws ++ lit "<integer>").length
            · refine absurd ?_ hsome
              have hshape : (keyTok K ++ ws ++ lit "<integer>" ++ content ++
                  lit "</integer>").drop ((t.take p).drop n).length ++ ρ =
                  (keyTok K ++ ws ++ lit "<integer>").drop
                    ((t.take p).drop n).length ++
                  (content ++ (lit "</integer>" ++ ρ)) := by
                rw [List.drop_append_eq_append_drop]
                have hz1 : ((t.take p).drop n).length - (keyTok K ++ ws ++
                    lit "<integer>" ++ content).length = 0 := by
                  have hs1b := hs1
                  simp only [List.length_append] at hs1b ⊢
                  omega
                rw [hz1, List.drop_zero, List.drop_append_eq_append_drop]
                have hz2 : ((t.take p).drop n).length - (keyTok K ++ ws ++
                    lit "<integer>").length = 0 := by
                  have hs1b := hs1
                  simp only [List.length_append] at hs1b ⊢
                  omega
                rw [hz2, List.drop_zero]
                simp
              rw [hshape]
              have hpf : PatFree1 (lit "<k")
                  (keyTok K ++ ws ++ lit "<integer>") :=
                patFree1_append (patFree1_append (patFree1_ltk_keyTok hK)
                  (patFree_of_ne_head (ws_ne_lt_all hws2))) patFree_ltk_openInt
              exact hpf _ _ hγpos hs1
            · by_cases hs2 : (keyTok K ++ ws ++ lit "<integer>" ++
                  content).length ≤ ((t.take p).drop n).length
              · refine absurd ?_ hsome
                have hshape : (keyTok K ++ ws ++ lit "<integer>" ++ content ++
                    lit "</integer>").drop ((t.take p).drop n).length ++ ρ =
                    (lit "</integer>").drop (((t.take p).drop n).length -
                      (keyTok K ++ ws ++ lit "<integer>" ++ content).length)
                    ++ ρ := by
                  rw [List.drop_append_eq_append_drop,
                    List.drop_eq_nil_of_le hs2, List.nil_append]
                rw [hshape]
                refine patFree_ltk_closeInt _ _ ?_
                have hOg2 := hOg
                have hs2b := hs2
                simp only [List.length_append] at hOg2 hs2b ⊢
                omega
              · -- the content covers the junction
                push_neg at hs2
                have hle1 : (keyTok K ++ ws ++ lit "<integer>").length ≤
                    ((t.take p).drop n).length := le_of_not_lt hs1
                have hshape : (keyTok K ++ ws ++ lit "<integer>" ++ content ++
                    lit "</integer>").drop ((t.take p).drop n).length =
                    content.drop (((t.take p).drop n).length -
                      (keyTok K ++ ws ++ lit "<integer>").length) ++
                    lit "</integer>" := by
                  rw [List.drop_append_eq_append_drop]
                  have hz1 : ((t.take p).drop n).length - (keyTok K ++ ws ++
                      lit "<integer>" ++ content).length = 0 := by
                    have hs2b := hs2
                    simp only [List.length_append] at hs2b ⊢
                    omega
                  rw [hz1, List.drop_zero, List.drop_append_eq_append_drop,
                    List.drop_eq_nil_of_le hle1, List.nil_append]
                have hJ2 : content.drop (((t.take p).drop n).length -
                    (keyTok K ++ ws ++ lit "<integer>").length) ++
                    (lit "</integer>" ++ ρ) =
                    (keyTok K' ++ ws' ++ lit "<integer>" ++ num') ++
                    (lit "</integer>" ++ applyRule (findKeyTagged K'
                      (lit "<integer>") (lit "</integer>") num') true
                      rest') := by
                  have hJb := hJ
                  rw [hshape] at hJb
                  rw [show (content.drop (((t.take p).drop n).length -
                      (keyTok K ++ ws ++ lit "<integer>").length) ++
                      lit "</integer>") ++ ρ =
                      content.drop (((t.take p).drop n).length -
                      (keyTok K ++ ws ++ lit "<integer>").length) ++
                      (lit "</integer>" ++ ρ) by simp] at hJb
                  rw [hJb, hr']
                  simp
                have hfrontlen : (keyTok K' ++ ws' ++ lit "<integer>" ++
                    num').length = (content.drop
                    (((t.take p).drop n).length -
                      (keyTok K ++ ws ++ lit "<integer>").length)).length := by
                  by_cases hcmp : (content.drop (((t.take p).drop n).length -
                      (keyTok K ++ ws ++ lit "<integer>").length)).length <
                      (keyTok K' ++ ws' ++ lit "<integer>" ++ num').length
                  · -- a close-tag match would start inside the front
                    exfalso
                    have hsome2 : stripPre (lit "</integer>")
                        (((keyTok K' ++ ws' ++ lit "<integer>" ++ num') ++
                          (lit "</integer>" ++ applyRule (findKeyTagged K'
                            (lit "<integer>") (lit "</integer>") num') true
                            rest')).drop
                          (content.drop (((t.take p).drop n).length -
                            (keyTok K ++ ws ++
                            lit "<integer>").length)).length) ≠ none := by
                      rw [← hJ2, List.drop_left]
                      rw [stripPre_self]
                      simp
                    refine hsome2 ?_
                    have hre : ((keyTok K' ++ ws' ++ lit "<integer>" ++ num')
                        ++ (lit "</integer>" ++ applyRule (findKeyTagged K'
                          (lit "<integer>") (lit "</integer>") num') true
                          rest')).drop
                        (content.drop (((t.take p).drop n).length -
                          (keyTok K ++ ws ++ lit "<integer>").length)).length
                        = (keyTok K' ++ ws' ++ lit "<integer>" ++ num').drop
                          (content.drop (((t.take p).drop n).length -
                          (keyTok K ++ ws ++ lit "<integer>").length)).length
                        ++ (lit "</integer>" ++ applyRule (findKeyTagged K'
                          (lit "<integer>") (lit "</integer>") num') true
                          rest') := by
                      rw [List.drop_append_eq_append_drop]
                      have hz : (content.drop (((t.take p).drop n).length -
                          (keyTok K ++ ws ++ lit "<integer>").length)).length
                          - (keyTok K' ++ ws' ++ lit "<integer>" ++
                          num').length = 0 := by omega
                      rw [hz, List.drop_zero]
                    rw [hre]
                    exact patFree_close_intFront hK' hws' hnum' _ _ hcmp
                  · -- or the original content would hold an early close tag
                    push_neg at hcmp
                    by_cases heq : (keyTok K' ++ ws' ++ lit "<integer>" ++
                        num').length = (content.drop
                        (((t.take p).drop n).length -
                        (keyTok K ++ ws ++ lit "<integer>").length)).length
                    · exact heq
                    · exfalso
                      have hlt4 : (keyTok K' ++ ws' ++ lit "<integer>" ++
                          num').length < (content.drop
                          (((t.take p).drop n).length -
                          (keyTok K ++ ws ++ lit "<integer>").length)).length
                        := by omega
                      have hidx : ((t.take p).drop n).length -
                          (keyTok K ++ ws ++ lit "<integer>").length +
                          (keyTok K' ++ ws' ++ lit "<integer>" ++
                          num').length < content.length := by
                        have hd := List.length_drop
                          (((t.take p).drop n).length -
                          (keyTok K ++ ws ++ lit "<integer>").length) content
                        omega
                      have hu := hne2 (((t.take p).drop n).length -
                        (keyTok K ++ ws ++ lit "<integer>").length +
                        (keyTok K' ++ ws' ++ lit "<integer>" ++ num').length)
                        hidx
                      -- the suffix at that index starts with the close tag
                      have hsplit2 : (content ++ lit "</integer>" ++ ρ).drop
                          (((t.take p).drop n).length -
                          (keyTok K ++ ws ++ lit "<integer>").length +
                          (keyTok K' ++ ws' ++ lit "<integer>" ++
                          num').length) =
                          (content.drop (((t.take p).drop n).length -
                          (keyTok K ++ ws ++ lit "<integer>").length) ++
                          (lit "</integer>" ++ ρ)).drop
                          (keyTok K' ++ ws' ++ lit "<integer>" ++
                          num').length := by
                        rw [show content ++ lit "</integer>" ++ ρ =
                          content ++ (lit "</integer>" ++ ρ) by simp]
                        rw [List.drop_append_eq_append_drop]
                        have hz1 : ((t.take p).drop n).length -
                            (keyTok K ++ ws ++ lit "<integer>").length +
                            (keyTok K' ++ ws' ++ lit "<integer>" ++
                            num').length - content.length = 0 := by omega
                        rw [hz1, List.drop_zero,
                          List.drop_append_eq_append_drop]
                        have hz2 : (keyTok K' ++ ws' ++ lit "<integer>" ++
                            num').length - (content.drop
                            (((t.take p).drop n).length -
                            (keyTok K ++ ws ++ lit "<integer>").length)).length
                            = 0 := by omega
                        rw [hz2, List.drop_zero, List.drop_drop]
                      have hw3 : ∃ w, stripPre (lit "</integer>")
                          ((content ++ lit "</integer>" ++ ρ).drop
                          (((t.take p).drop n).length -
                          (keyTok K ++ ws ++ lit "<integer>").length +
                          (keyTok K' ++ ws' ++ lit "<integer>" ++
                          num').length)) = some w := by
                        rw [hsplit2, hJ2, List.drop_left]
                        exact ⟨_, stripPre_self _ _⟩
                      obtain ⟨w, hw⟩ := hw3
                      rw [hu] at hw
                      exact absurd hw (by simp)
                obtain ⟨hfront, hrest2⟩ :
                    content.drop (((t.take p).drop n).length -
                      (keyTok K ++ ws ++ lit "<integer>").length) =
                      keyTok K' ++ ws' ++ lit "<integer>" ++ num' ∧
                    lit "</integer>" ++ ρ = lit "</integer>" ++
                      applyRule (findKeyTagged K' (lit "<integer>")
                        (lit "</integer>") num') true rest' :=
                  List.append_inj hJ2 hfrontlen.symm
                have hρz : ρ = applyRule (findKeyTagged K' (lit "<integer>")
                    (lit "</integer>") num') true rest' :=
                  List.append_cancel_left hrest2
                have hcsplit : content = content.take
                    (((t.take p).drop n).length -
                      (keyTok K ++ ws ++ lit "<integer>").length) ++
                    (keyTok K' ++ ws' ++ lit "<integer>" ++ num') := by
                  rw [← hfront, List.take_append_drop]
                have hgmlt : ∀ x ∈ content.take (((t.take p).drop n).length -
                    (keyTok K ++ ws ++ lit "<integer>").length),
                    ¬ isLineTerm x :=
                  fun x hx => hlt2 x (List.mem_of_mem_take hx)
                have hws'mem : ∀ x ∈ ws', x ∈ content := fun x hx => by
                  rw [hcsplit]
                  exact List.mem_append_right _ (List.mem_append_left _
                    (List.mem_append_left _ (List.mem_append_right _ hx)))
                have hwslt2 : ∀ x ∈ ws', ¬ isLineTerm x := fun x hx =>
                  hlt2 x (hws'mem x hx)
                have hgstruct : (t.take p).drop n =
                    (keyTok K ++ ws ++ lit "<integer>") ++
                    content.take (((t.take p).drop n).length -
                      (keyTok K ++ ws ++ lit "<integer>").length) := by
                  have h1 : ((t.take p).drop n ++ (r' ++ applyRule
                      (findKeyTagged K' (lit "<integer>") (lit "</integer>")
                        num') true rest')).take
                      ((t.take p).drop n).length = (t.take p).drop n :=
                    List.take_left _ _
                  rw [hdec2] at h1
                  have tA : ((keyTok K ++ ws ++ lit "<integer>" ++ content ++
                      lit "</integer>") ++ ρ).take
                      ((t.take p).drop n).length =
                      (keyTok K ++ ws ++ lit "<integer>" ++ content ++
                      lit "</integer>").take ((t.take p).drop n).length := by
                    rw [List.take_append_eq_append_take]
                    have hz : ((t.take p).drop n).length - (keyTok K ++ ws ++
                        lit "<integer>" ++ content ++
                        lit "</integer>").length = 0 := by omega
                    rw [hz, List.take_zero, List.append_nil]
                  have tB : (keyTok K ++ ws ++ lit "<integer>" ++ content ++
                      lit "</integer>").take ((t.take p).drop n).length =
                      (keyTok K ++ ws ++ lit "<integer>" ++ content).take
                      ((t.take p).drop n).length := by
                    rw [List.take_append_eq_append_take]
                    have hz : ((t.take p).drop n).length - (keyTok K ++ ws ++
                        lit "<integer>" ++ content).length = 0 := by
                      have hs2b := hs2
                      simp only [List.length_append] at hs2b ⊢
                      omega
                    rw [hz, List.take_zero, List.append_nil]
                  have tD1 : (keyTok K ++ ws ++ lit "<integer>").take
                      ((t.take p).drop n).length =
                      keyTok K ++ ws ++ lit "<integer>" :=
                    List.take_of_length_le hle1
                  have tC : (keyTok K ++ ws ++ lit "<integer>" ++
                      content).take ((t.take p).drop n).length =
                      (keyTok K ++ ws ++ lit "<integer>") ++
                      content.take (((t.take p).drop n).length -
                        (keyTok K ++ ws ++ lit "<integer>").length) := by
                    rw [List.take_append_eq_append_take, tD1]
                  rw [tA] at h1
                  rw [tB] at h1
                  rw [tC] at h1
                  exact h1.symm
                have htdropn : t.drop n = keyTok K ++ ws ++ lit "<integer>" ++
                    (content.take (((t.take p).drop n).length -
                      (keyTok K ++ ws ++ lit "<integer>").length) ++
                    ((keyTok K' ++ ws' ++ lit "<integer>") ++ content')) ++
                    lit "</integer>" ++ rest' := by
                  conv_lhs => rw [htp]
                  rw [List.drop_append_eq_append_drop,
                    Nat.sub_eq_zero_of_le (le_of_lt hn1), List.drop_zero]
                  conv_lhs => rw [hgstruct, hdec]
                  simp only [List.append_assoc]
                have hmiss_t : ∀ i < (content.take
                    (((t.take p).drop n).length -
                      (keyTok K ++ ws ++ lit "<integer>").length) ++
                    ((keyTok K' ++ ws' ++ lit "<integer>") ++
                      content')).length,
                    stripPre (lit "</integer>") (((content.take
                      (((t.take p).drop n).length -
                        (keyTok K ++ ws ++ lit "<integer>").length) ++
                      ((keyTok K' ++ ws' ++ lit "<integer>") ++ content')) ++
                      lit "</integer>" ++ rest').drop i) = none := by
                  intro i hi
                  rw [show (content.take (((t.take p).drop n).length -
                      (keyTok K ++ ws ++ lit "<integer>").length) ++
                      ((keyTok K' ++ ws' ++ lit "<integer>") ++ content')) ++
                      lit "</integer>" ++ rest' =
                      (content.take (((t.take p).drop n).length -
                      (keyTok K ++ ws ++ lit "<integer>").length) ++
                      ((keyTok K' ++ ws' ++ lit "<integer>") ++ content')) ++
                      (lit "</integer>" ++ rest') by simp]
                  refine no_early_append3 ?_
                    (patFree_append (patFree_append
                      (patFree_close_keyTok hK')
                      (patFree_of_ne_head (ws_ne_lt_all hws')))
                      patFree_close_openInt) ?_ i hi
                  · intro i2 hi2
                    have hu := hne2 i2 (by
                      have hglen2 : (content.take
                          (((t.take p).drop n).length -
                          (keyTok K ++ ws ++ lit "<integer>").length)).length
                          ≤ content.length := by
                        rw [List.length_take]
                        omega
                      omega)
                    have hu_shape : (content ++ lit "</integer>" ++ ρ).drop i2
                        = ((content.take (((t.take p).drop n).length -
                          (keyTok K ++ ws ++ lit "<integer>").length)).drop i2
                          ++ ((keyTok K' ++ ws') ++ lit "<integer>")) ++
                          (num' ++ (lit "</integer>" ++ ρ)) := by
                      conv_lhs => rw [hcsplit]
                      rw [show (content.take (((t.take p).drop n).length -
                          (keyTok K ++ ws ++ lit "<integer>").length) ++
                          (keyTok K' ++ ws' ++ lit "<integer>" ++ num')) ++
                          lit "</integer>" ++ ρ =
                          content.take (((t.take p).drop n).length -
                          (keyTok K ++ ws ++ lit "<integer>").length) ++
                          (((keyTok K' ++ ws') ++ lit "<integer>") ++
                          (num' ++ (lit "</integer>" ++ ρ))) by simp]
                      rw [List.drop_append_eq_append_drop]
                      have hz : i2 - (content.take
                          (((t.take p).drop n).length - (keyTok K ++ ws ++
                          lit "<integer>").length)).length = 0 := by omega
                      rw [hz, List.drop_zero]
                      simp
                    have ht_shape : ((content.take
                        (((t.take p).drop n).length -
                        (keyTok K ++ ws ++ lit "<integer>").length)) ++
                        ((keyTok K' ++ ws' ++ lit "<integer>") ++
                        (content' ++ (lit "</integer>" ++ rest')))).drop i2 =
                        ((content.take (((t.take p).drop n).length -
                        (keyTok K ++ ws ++ lit "<integer>").length)).drop i2
                        ++ ((keyTok K' ++ ws') ++ lit "<integer>")) ++
                        (content' ++ (lit "</integer>" ++ rest')) := by
                      rw [List.drop_append_eq_append_drop]
                      have hz : i2 - (content.take
                          (((t.take p).drop n).length - (keyTok K ++ ws ++
                          lit "<integer>").length)).length = 0 := by omega
                      rw [hz, List.drop_zero]
                      simp
                    rw [ht_shape]
                    refine @stripPre_stable_none (lit "</integer>")
                      ((content.take (((t.take p).drop n).length -
                        (keyTok K ++ ws ++ lit "<integer>").length)).drop i2
                        ++ ((keyTok K' ++ ws') ++ lit "<integer>"))
                      (num' ++ (lit "</integer>" ++ ρ))
                      (content' ++ (lit "</integer>" ++ rest')) ?_ ?_
                    · simp only [List.length_append, List.length_drop]
                      have hlk' : (keyTok K').length = K'.length + 11 := by
                        simp only [keyTok, List.length_append]
                        have h5 : (lit "<key>").length = 5 := rfl
                        have h6 : (lit "</key>").length = 6 := rfl
                        omega
                      omega
                    · rw [← hu_shape]
                      exact hu
                  · intro i2 hi2
                    rw [show content' ++ (lit "</integer>" ++ rest') =
                      content' ++ lit "</integer>" ++ rest' by simp]
                    exact hne' i2 hi2
                have hlt_t : ∀ x ∈ content.take (((t.take p).drop n).length -
                    (keyTok K ++ ws ++ lit "<integer>").length) ++
                    ((keyTok K' ++ ws' ++ lit "<integer>") ++ content'),
                    ¬ isLineTerm x := by
                  intro x hx
                  rcases List.mem_append.mp hx with hx1 | hx2
                  · exact hgmlt x hx1
                  · rcases List.mem_append.mp hx2 with hx3 | hx4
                    · rcases List.mem_append.mp hx3 with hx5 | hx6
                      · rcases List.mem_append.mp hx5 with hx7 | hx8
                        · exact keyTok_no_lineterm hK'lt x hx7
                        · exact hwslt2 x hx8
                      · have hall : ∀ y ∈ lit "<integer>", ¬ isLineTerm y :=
                          by decide
                        exact hall x hx6
                    · exact hlt' x hx4
                have htm : findKeyTagged K (lit "<integer>")
                    (lit "</integer>") num (t.drop n) =
                    some (keyTok K ++ ws ++ lit "<integer>" ++ num ++
                      lit "</integer>", rest') := by
                  rw [htdropn]
                  exact findKeyTagged_complete hws2 (by decide) hmiss_t hlt_t
                rcases HH n _ _ htm with hsil | hf'
                · rw [htdropn] at hsil
                  have hO : (keyTok K ++ ws ++ lit "<integer>" ++
                      (content.take (((t.take p).drop n).length -
                        (keyTok K ++ ws ++ lit "<integer>").length) ++
                      ((keyTok K' ++ ws' ++ lit "<integer>") ++ content')) ++
                      lit "</integer>") = (keyTok K ++ ws ++
                      lit "<integer>" ++ num ++ lit "</integer>") := by
                    refine (List.append_inj hsil ?_).1
                    have hlen := congrArg List.length hsil
                    simp only [List.length_append] at hlen ⊢
                    omega
                  have h2 := List.append_cancel_right hO
                  have h3 := List.append_cancel_left h2
                  have hmem : ('<' : Char) ∈ num := by
                    rw [← h3]
                    exact List.mem_append_right _ (List.mem_append_left _
                      (List.mem_append_left _
                        (List.mem_append_left _ (lt_mem_keyTok K'))))
                  exact absurd rfl (hnum '<' hmem)
                · rw [hmin n (by omega)] at hf'
                  exact absurd hf' (by simp)
        · by_cases hn2 : n < (t.take p).length + r'.length
          · by_cases hn0 : n = (t.take p).length
            · -- aligned with the replacement
              subst hn0
              have hdropa : ((t.take p) ++ (r' ++ applyRule (findKeyTagged K'
                  (lit "<integer>") (lit "</integer>") num') true
                  rest')).drop (t.take p).length =
                  r' ++ applyRule (findKeyTagged K' (lit "<integer>")
                    (lit "</integer>") num') true rest' :=
                List.drop_left _ _
              rw [hdropa] at hm ⊢
              by_cases hKK : K = K'
              · have hnn := hkn hKK
                subst hKK
                subst hnn
                rw [hr'] at hm ⊢
                have hmiss2 : ∀ i < num.length, stripPre (lit "</integer>")
                    ((num ++ lit "</integer>" ++ applyRule (findKeyTagged K
                      (lit "<integer>") (lit "</integer>") num) true
                      rest').drop i) = none := by
                  intro i hi
                  rw [show num ++ lit "</integer>" ++ applyRule
                    (findKeyTagged K (lit "<integer>") (lit "</integer>")
                      num) true rest' = num ++ (lit "</integer>" ++
                    applyRule (findKeyTagged K (lit "<integer>")
                      (lit "</integer>") num) true rest') by simp]
                  rw [List.drop_append_eq_append_drop]
                  have hz : i - num.length = 0 := by omega
                  rw [hz, List.drop_zero]
                  exact patFree_of_ne_head hnum i _ hi
                have hcomp : findKeyTagged K (lit "<integer>")
                    (lit "</integer>") num (keyTok K ++ ws' ++
                      lit "<integer>" ++ num ++ lit "</integer>" ++
                      applyRule (findKeyTagged K (lit "<integer>")
                        (lit "</integer>") num) true rest') =
                    some (keyTok K ++ ws' ++ lit "<integer>" ++ num ++
                      lit "</integer>", applyRule (findKeyTagged K
                        (lit "<integer>") (lit "</integer>") num) true
                        rest') :=
                  findKeyTagged_complete hws' (by decide) hmiss2 hnumlt
                rw [show (keyTok K ++ ws' ++ lit "<integer>" ++ num ++
                    lit "</integer>") ++ applyRule (findKeyTagged K
                      (lit "<integer>") (lit "</integer>") num) true rest' =
                    keyTok K ++ ws' ++ lit "<integer>" ++ num ++
                    lit "</integer>" ++ applyRule (findKeyTagged K
                      (lit "<integer>") (lit "</integer>") num) true rest'
                  by simp] at hm ⊢
                rw [hcomp] at hm
                simp only [Option.some.injEq, Prod.mk.injEq] at hm
                obtain ⟨h1, h2⟩ := hm
                rw [← h1, ← h2]
              · have hnone2 : stripPre (keyTok K)
                    (r' ++ applyRule (findKeyTagged K' (lit "<integer>")
                      (lit "</integer>") num') true rest') = none := by
                  rw [hr']
                  rw [show (keyTok K' ++ ws' ++ lit "<integer>" ++ num' ++
                    lit "</integer>") ++ applyRule (findKeyTagged K'
                      (lit "<integer>") (lit "</integer>") num') true rest' =
                    keyTok K' ++ (ws' ++ (lit "<integer>" ++ (num' ++
                      (lit "</integer>" ++ applyRule (findKeyTagged K'
                        (lit "<integer>") (lit "</integer>") num') true
                        rest')))) by simp]
                  exact stripPre_keyTok_keyTok_ne hK hK' hKK
                rw [findKeyTagged_none hnone2] at hm
                exact absurd hm (by simp)
            · -- strictly inside the replacement
              have hdropr : ((t.take p) ++ (r' ++ applyRule (findKeyTagged K'
                  (lit "<integer>") (lit "</integer>") num') true
                  rest')).drop n =
                  r'.drop (n - (t.take p).length) ++
                  applyRule (findKeyTagged K' (lit "<integer>")
                    (lit "</integer>") num') true rest' := by
                rw [List.drop_append_eq_append_drop,
                  List.drop_eq_nil_of_le (by omega), List.nil_append,
                  List.drop_append_eq_append_drop]
                have hz0 : n - (t.take p).length - r'.length = 0 := by omega
                rw [hz0, List.drop_zero]
              rw [hdropr] at hm
              have hpf1 : PatFree1 (lit "<k") r' := by
                rw [hr']
                exact patFree1_ltk_intRepl hK' hws' hnum'
              have hpf := hpf1 (n - (t.take p).length)
                (applyRule (findKeyTagged K' (lit "<integer>")
                  (lit "</integer>") num') true rest') (by omega) (by omega)
              rw [findKeyTagged_none (stripPre_keyTok_none_of_ltk hpf)] at hm
              exact absurd hm (by simp)
          · -- in the rewritten tail
            have hdropz : ((t.take p) ++ (r' ++ applyRule (findKeyTagged K'
                (lit "<integer>") (lit "</integer>") num') true rest')).drop
                n = (applyRule (findKeyTagged K' (lit "<integer>")
                  (lit "</integer>") num') true rest').drop
                  (n - (t.take p).length - r'.length) := by
              rw [List.drop_append_eq_append_drop,
                List.drop_eq_nil_of_le (by omega), List.nil_append,
                List.drop_append_eq_append_drop,
                List.drop_eq_nil_of_le (by omega), List.nil_append]
            rw [hdropz] at hm ⊢
            exact hzsil _ r ρ hm
  exact fun t HH => main t.length t (le_refl _) HH

/-- Stage 1 of `quirkEnforce`. -/
def qs1 (doc : List Char) : List Char :=
  toggleBool (lit "AppleXcpmCfgLock") true (doc)

/-- Stage 2 of `quirkEnforce`. -/
def qs2 (doc : List Char) : List Char :=
  toggleBool (lit "AppleCpuPmCfgLock") false (qs1 doc)

/-- Stage 3 of `quirkEnforce`. -/
def qs3 (doc : List Char) : List Char :=
  toggleBool (lit "DisableIoMapper") true (qs2 doc)

/-- Stage 4 of `quirkEnforce`. -/
def qs4 (doc : List Char) : List Char :=
  toggleBool (lit "DevirtualiseMmio") true (qs3 doc)

/-- Stage 5 of `quirkEnforce`. -/
def qs5 (doc : List Char) : List Char :=
  toggleBool (lit "SetupVirtualMap") true (qs4 doc)

/-- Stage 6 of `quirkEnforce`. -/
def qs6 (doc : List Char) : List Char :=
  toggleBool (lit "ProtectUefiServices") true (qs5 doc)

/-- Stage 7 of `quirkEnforce`. -/
def qs7 (doc : List Char) : List Char :=
  toggleBool (lit "ProvideCustomSlide") true (qs6 doc)

/-- Stage 8 of `quirkEnforce`. -/
def qs8 (doc : List Char) : List Char :=
  setInteger (lit "ProvideMaxSlide") (0 : Int) (qs7 doc)

/-- Stage 9 of `quirkEnforce`. -/
def qs9 (doc : List Char) : List Char :=
  toggleBool (lit "ReleaseUsbOwnership") false (qs8 doc)

/-- Stage 10 of `quirkEnforce`. -/
def qs10 (doc : List Char) : List Char :=
  toggleBool (lit "RebuildAppleMemoryMap") true (qs9 doc)

/-- Stage 11 of `quirkEnforce`. -/
def qs11 (doc : List Char) : List Char :=
  toggleBool (lit "SyncRuntimePermissions") true (qs10 doc)

/-- Stage 12 of `quirkEnforce`. -/
def qs12 (doc : List Char) : List Char :=
  toggleBool (lit "EnableWriteUnprotector") false (qs11 doc)

/-- Stage 13 of `quirkEnforce`. -/
def qs13 (doc : List Char) : List Char :=
  setInteger (lit "Target") (67 : Int) (qs12 doc)

/-- Stage 14 of `quirkEnforce`. -/
def qs14 (doc : List Char) : List Char :=
  setInteger (lit "DisplayLevel") (2147483714 : Int) (qs13 doc)

/-- Stage 15 of `quirkEnforce`. -/
def qs15 (doc : List Char) : List Char :=
  setInteger (lit "DisplayDelay") (0 : Int) (qs14 doc)

/-- Stage 16 of `quirkEnforce`. -/
def qs16 (doc : List Char) : List Char :=
  setInteger (lit "ResizeAppleGpuBars") (-1 : Int) (qs15 doc)

theorem qs16eq (doc : List Char) :
    qs16 doc = applyRule (findKeyTagged (lit "ResizeAppleGpuBars")
      (lit "<integer>") (lit "</integer>") (lit (toString ((-1 : Int)))))
      true (qs15 doc) := rfl

theorem qsil1_1 (doc : List Char) :
    SilentOn (findKeyBool (lit "AppleXcpmCfgLock") true) (qs1 doc) :=
  @silent_toggle_toggle (lit "AppleXcpmCfgLock") (lit "AppleXcpmCfgLock") true true (by decide) (by decide) (fun _ => rfl) (doc) (fun n r ρ h => Or.inr h)

theorem qsil1_2 (doc : List Char) :
    SilentOn (findKeyBool (lit "AppleXcpmCfgLock") true) (qs2 doc) :=
  @silent_toggle_toggle (lit "AppleXcpmCfgLock") (lit "AppleCpuPmCfgLock") true false (by decide) (by decide) (fun h => absurd h (by decide)) (qs1 doc) (fun n r ρ h => Or.inl (qsil1_1 doc n r ρ h))

theorem qsil1_3 (doc : List Char) :
    SilentOn (findKeyBool (lit "AppleXcpmCfgLock") true) (qs3 doc) :=
  @silent_toggle_toggle (lit "AppleXcpmCfgLock") (lit "DisableIoMapper") true true (by decide) (by decide) (fun h => absurd h (by decide)) (qs2 doc) (fun n r ρ h => Or.inl (qsil1_2 doc n r ρ h))

theorem qsil1_4 (doc : List Char) :
    SilentOn (findKeyBool (lit "AppleXcpmCfgLock") true) (qs4 doc) :=
  @silent_toggle_toggle (lit "AppleXcpmCfgLock") (lit "DevirtualiseMmio") true true (by decide) (by decide) (fun h => absurd h (by decide)) (qs3 doc) (fun n r ρ h => Or.inl (qsil1_3 doc n r ρ h))

theorem qsil1_5 (doc : List Char) :
    SilentOn (findKeyBool (lit "AppleXcpmCfgLock") true) (qs5 doc) :=
  @silent_toggle_toggle (lit "AppleXcpmCfgLock") (lit "SetupVirtualMap") true true (by decide) (by decide) (fun h => absurd h (by decide)) (qs4 doc) (fun n r ρ h => Or.inl (qsil1_4 doc n r ρ h))

theorem qsil1_6 (doc : List Char) :
    SilentOn (findKeyBool (lit "AppleXcpmCfgLock") true) (qs6 doc) :=
  @silent_toggle_toggle (lit "AppleXcpmCfgLock") (lit "ProtectUefiServices") true true (by decide) (by decide) (fun h => absurd h (by decide)) (qs5 doc) (fun n r ρ h => Or.inl (qsil1_5 doc n r ρ h))

theorem qsil1_7 (doc : List Char) :
    SilentOn (findKeyBool (lit "AppleXcpmCfgLock") true) (qs7 doc) :=
  @silent_toggle_toggle (lit "AppleXcpmCfgLock") (lit "ProvideCustomSlide") true true (by decide) (by decide) (fun h => absurd h (by decide)) (qs6 doc) (fun n r ρ h => Or.inl (qsil1_6 doc n r ρ h))

theorem qsil1_8 (doc : List Char) :
    SilentOn (findKeyBool (lit "AppleXcpmCfgLock") true) (qs8 doc) :=
  @silent_toggle_int (lit "AppleXcpmCfgLock") (lit "ProvideMaxSlide") (lit (toString ((0 : Int)))) true (by decide) (by decide) (by decide) (qs7 doc) (qsil1_7 doc)

theorem qsil1_9 (doc : List Char) :
    SilentOn (findKeyBool (lit "AppleXcpmCfgLock") true) (qs9 doc) :=
  @silent_toggle_toggle (lit "AppleXcpmCfgLock") (lit "ReleaseUsbOwnership") true false (by decide) (by decide) (fun h => absurd h (by decide)) (qs8 doc) (fun n r ρ h => Or.inl (qsil1_8 doc n r ρ h))

theorem qsil1_10 (doc : List Char) :
    SilentOn (findKeyBool (lit "AppleXcpmCfgLock") true) (qs10 doc) :=
  @silent_toggle_toggle (lit "AppleXcpmCfgLock") (lit "RebuildAppleMemoryMap") true true (by decide) (by decide) (fun h => absurd h (by decide)) (qs9 doc) (fun n r ρ h => Or.inl (qsil1_9 doc n r ρ h))

theorem qsil1_11 (doc : List Char) :
    SilentOn (findKeyBool (lit "AppleXcpmCfgLock") true) (qs11 doc) :=
  @silent_toggle_toggle (lit "AppleXcpmCfgLock") (lit "SyncRuntimePermissions") true true (by decide) (by decide) (fun h => absurd h (by decide)) (qs10 doc) (fun n r ρ h => Or.inl (qsil1_10 doc n r ρ h))

theorem qsil1_12 (doc : List Char) :
    SilentOn (findKeyBool (lit "AppleXcpmCfgLock") true) (qs12 doc) :=
  @silent_toggle_toggle (lit "AppleXcpmCfgLock") (lit "EnableWriteUnprotector") true false (by decide) (by decide) (fun h => absurd h (by decide)) (qs11 doc) (fun n r ρ h => Or.inl (qsil1_11 doc n r ρ h))

theorem qsil1_13 (doc : List Char) :
    SilentOn (findKeyBool (lit "AppleXcpmCfgLock") true) (qs13 doc) :=
  @silent_toggle_int (lit "AppleXcpmCfgLock") (lit "Target") (lit (toString ((67 : Int)))) true (by decide) (by decide) (by decide) (qs12 doc) (qsil1_12 doc)

theorem qsil1_14 (doc : List Char) :
    SilentOn (findKeyBool (lit "AppleXcpmCfgLock") true) (qs14 doc) :=
  @silent_toggle_int (lit "AppleXcpmCfgLock") (lit "DisplayLevel") (lit (toString ((2147483714 : Int)))) true (by decide) (by decide) (by decide) (qs13 doc) (qsil1_13 doc)

theorem qsil1_15 (doc : List Char) :
    SilentOn (findKeyBool (lit "AppleXcpmCfgLock") true) (qs15 doc) :=
  @silent_toggle_int (lit "AppleXcpmCfgLock") (lit "DisplayDelay") (lit (toString ((0 : Int)))) true (by decide) (by decide) (by decide) (qs14 doc) (qsil1_14 doc)

theorem qsil1_16 (doc : List Char) :
    SilentOn (findKeyBool (lit "AppleXcpmCfgLock") true) (qs16 doc) :=
  by
  rw [qs16eq doc]
  exact @silent_toggle_int (lit "AppleXcpmCfgLock") (lit "ResizeAppleGpuBars") (lit (toString ((-1 : Int)))) true (by decide) (by decide) (by decide) (qs15 doc) (qsil1_15 doc)

theorem qsil2_2 (doc : List Char) :
    SilentOn (findKeyBool (lit "AppleCpuPmCfgLock") false) (qs2 doc) :=
  @silent_toggle_toggle (lit "AppleCpuPmCfgLock") (lit "AppleCpuPmCfgLock") false false (by decide) (by decide) (fun _ => rfl) (qs1 doc) (fun n r ρ h => Or.inr h)

theorem qsil2_3 (doc : List Char) :
    SilentOn (findKeyBool (lit "AppleCpuPmCfgLock") false) (qs3 doc) :=
  @silent_toggle_toggle (lit "AppleCpuPmCfgLock") (lit "DisableIoMapper") false true (by decide) (by decide) (fun h => absurd h (by decide)) (qs2 doc) (fun n r ρ h => Or.inl (qsil2_2 doc n r ρ h))

theorem qsil2_4 (doc : List Char) :
    SilentOn (findKeyBool (lit "AppleCpuPmCfgLock") false) (qs4 doc) :=
  @silent_toggle_toggle (lit "AppleCpuPmCfgLock") (lit "DevirtualiseMmio") false true (by decide) (by decide) (fun h => absurd h (by decide)) (qs3 doc) (fun n r ρ h => Or.inl (qsil2_3 doc n r ρ h))

theorem qsil2_5 (doc : List Char) :
    SilentOn (findKeyBool (lit "AppleCpuPmCfgLock") false) (qs5 doc) :=
  @silent_toggle_toggle (lit "AppleCpuPmCfgLock") (lit "SetupVirtualMap") false true (by decide) (by decide) (fun h => absurd h (by decide)) (qs4 doc) (fun n r ρ h => Or.inl (qsil2_4 doc n r ρ h))

theorem qsil2_6 (doc : List Char) :
    SilentOn (findKeyBool (lit "AppleCpuPmCfgLock") false) (qs6 doc) :=
  @silent_toggle_toggle (lit "AppleCpuPmCfgLock") (lit "ProtectUefiServices") false true (by decide) (by decide) (fun h => absurd h (by decide)) (qs5 doc) (fun n r ρ h => Or.inl (qsil2_5 doc n r ρ h))

theorem qsil2_7 (doc : List Char) :
    SilentOn (findKeyBool (lit "AppleCpuPmCfgLock") false) (qs7 doc) :=
  @silent_toggle_toggle (lit "AppleCpuPmCfgLock") (lit "ProvideCustomSlide") false true (by decide) (by decide) (fun h => absurd h (by decide)) (qs6 doc) (fun n r ρ h => Or.inl (qsil2_6 doc n r ρ h))

theorem qsil2_8 (doc : List Char) :
    SilentOn (findKeyBool (lit "AppleCpuPmCfgLock") false) (qs8 doc) :=
  @silent_toggle_int (lit "AppleCpuPmCfgLock") (lit "ProvideMaxSlide") (lit (toString ((0 : Int)))) false (by decide) (by decide) (by decide) (qs7 doc) (qsil2_7 doc)

theorem qsil2_9 (doc : List Char) :
    SilentOn (findKeyBool (lit "AppleCpuPmCfgLock") false) (qs9 doc) :=
  @silent_toggle_toggle (lit "AppleCpuPmCfgLock") (lit "ReleaseUsbOwnership") false false (by decide) (by decide) (fun h => absurd h (by decide)) (qs8 doc) (fun n r ρ h => Or.inl (qsil2_8 doc n r ρ h))

theorem qsil2_10 (doc : List Char) :
    SilentOn (findKeyBool (lit "AppleCpuPmCfgLock") false) (qs10 doc) :=
  @silent_toggle_toggle (lit "AppleCpuPmCfgLock") (lit "RebuildAppleMemoryMap") false true (by decide) (by decide) (fun h => absurd h (by decide)) (qs9 doc) (fun n r ρ h => Or.inl (qsil2_9 doc n r ρ h))

theorem qsil2_11 (doc : List Char) :
    SilentOn (findKeyBool (lit "AppleCpuPmCfgLock") false) (qs11 doc) :=
  @silent_toggle_toggle (lit "AppleCpuPmCfgLock") (lit "SyncRuntimePermissions") false true (by decide) (by decide) (fun h => absurd h (by decide)) (qs10 doc) (fun n r ρ h => Or.inl (qsil2_10 doc n r ρ h))

theorem qsil2_12 (doc : List Char) :
    SilentOn (findKeyBool (lit "AppleCpuPmCfgLock") false) (qs12 doc) :=
  @silent_toggle_toggle (lit "AppleCpuPmCfgLock") (lit "EnableWriteUnprotector") false false (by decide) (by decide) (fun h => absurd h (by decide)) (qs11 doc) (fun n r ρ h => Or.inl (qsil2_11 doc n r ρ h))

theorem qsil2_13 (doc : List Char) :
    SilentOn (findKeyBool (lit "AppleCpuPmCfgLock") false) (qs13 doc) :=
  @silent_toggle_int (lit "AppleCpuPmCfgLock") (lit "Target") (lit (toString ((67 : Int)))) false (by decide) (by decide) (by decide) (qs12 doc) (qsil2_12 doc)

theorem qsil2_14 (doc : List Char) :
    SilentOn (findKeyBool (lit "AppleCpuPmCfgLock") false) (qs14 doc) :=
  @silent_toggle_int (lit "AppleCpuPmCfgLock") (lit "DisplayLevel") (lit (toString ((2147483714 : Int)))) false (by decide) (by decide) (by decide) (qs13 doc) (qsil2_13 doc)

theorem qsil2_15 (doc : List Char) :
    SilentOn (findKeyBool (lit "AppleCpuPmCfgLock") false) (qs15 doc) :=
  @silent_toggle_int (lit "AppleCpuPmCfgLock") (lit "DisplayDelay") (lit (toString ((0 : Int)))) false (by decide) (by decide) (by decide) (qs14 doc) (qsil2_14 doc)

theorem qsil2_16 (doc : List Char) :
    SilentOn (findKeyBool (lit "AppleCpuPmCfgLock") false) (qs16 doc) :=
  by
  rw [qs16eq doc]
  exact @silent_toggle_int (lit "AppleCpuPmCfgLock") (lit "ResizeAppleGpuBars") (lit (toString ((-1 : Int)))) false (by decide) (by decide) (by decide) (qs15 doc) (qsil2_15 doc)

theorem qsil3_3 (doc : List Char) :
    SilentOn (findKeyBool (lit "DisableIoMapper") true) (qs3 doc) :=
  @silent_toggle_toggle (lit "DisableIoMapper") (lit "DisableIoMapper") true true (by decide) (by decide) (fun _ => rfl) (qs2 doc) (fun n r ρ h => Or.inr h)

theorem qsil3_4 (doc : List Char) :
    SilentOn (findKeyBool (lit "DisableIoMapper") true) (qs4 doc) :=
  @silent_toggle_toggle (lit "DisableIoMapper") (lit "DevirtualiseMmio") true true (by decide) (by decide) (fun h => absurd h (by decide)) (qs3 doc) (fun n r ρ h => Or.inl (qsil3_3 doc n r ρ h))

theorem qsil3_5 (doc : List Char) :
    SilentOn (findKeyBool (lit "DisableIoMapper") true) (qs5 doc) :=
  @silent_toggle_toggle (lit "DisableIoMapper") (lit "SetupVirtualMap") true true (by decide) (by decide) (fun h => absurd h (by decide)) (qs4 doc) (fun n r ρ h => Or.inl (qsil3_4 doc n r ρ h))

theorem qsil3_6 (doc : List Char) :
    SilentOn (findKeyBool (lit "DisableIoMapper") true) (qs6 doc) :=
  @silent_toggle_toggle (lit "DisableIoMapper") (lit "ProtectUefiServices") true true (by decide) (by decide) (fun h => absurd h (by decide)) (qs5 doc) (fun n r ρ h => Or.inl (qsil3_5 doc n r ρ h))

theorem qsil3_7 (doc : List Char) :
    SilentOn (findKeyBool (lit "DisableIoMapper") true) (qs7 doc) :=
  @silent_toggle_toggle (lit "DisableIoMapper") (lit "ProvideCustomSlide") true true (by decide) (by decide) (fun h => absurd h (by decide)) (qs6 doc) (fun n r ρ h => Or.inl (qsil3_6 doc n r ρ h))

theorem qsil3_8 (doc : List Char) :
    SilentOn (findKeyBool (lit "DisableIoMapper") true) (qs8 doc) :=
  @silent_toggle_int (lit "DisableIoMapper") (lit "ProvideMaxSlide") (lit (toString ((0 : Int)))) true (by decide) (by decide) (by decide) (qs7 doc) (qsil3_7 doc)

theorem qsil3_9 (doc : List Char) :
    SilentOn (findKeyBool (lit "DisableIoMapper") true) (qs9 doc) :=
  @silent_toggle_toggle (lit "DisableIoMapper") (lit "ReleaseUsbOwnership") true false (by decide) (by decide) (fun h => absurd h (by decide)) (qs8 doc) (fun n r ρ h => Or.inl (qsil3_8 doc n r ρ h))

theorem qsil3_10 (doc : List Char) :
    SilentOn (findKeyBool (lit "DisableIoMapper") true) (qs10 doc) :=
  @silent_toggle_toggle (lit "DisableIoMapper") (lit "RebuildAppleMemoryMap") true true (by decide) (by decide) (fun h => absurd h (by decide)) (qs9 doc) (fun n r ρ h => Or.inl (qsil3_9 doc n r ρ h))

theorem qsil3_11 (doc : List Char) :
    SilentOn (findKeyBool (lit "DisableIoMapper") true) (qs11 doc) :=
  @silent_toggle_toggle (lit "DisableIoMapper") (lit "SyncRuntimePermissions") true true (by decide) (by decide) (fun h => absurd h (by decide)) (qs10 doc) (fun n r ρ h => Or.inl (qsil3_10 doc n r ρ h))

theorem qsil3_12 (doc : List Char) :
    SilentOn (findKeyBool (lit "DisableIoMapper") true) (qs12 doc) :=
  @silent_toggle_toggle (lit "DisableIoMapper") (lit "EnableWriteUnprotector") true false (by decide) (by decide) (fun h => absurd h (by decide)) (qs11 doc) (fun n r ρ h => Or.inl (qsil3_11 doc n r ρ h))

theorem qsil3_13 (doc : List Char) :
    SilentOn (findKeyBool (lit "DisableIoMapper") true) (qs13 doc) :=
  @silent_toggle_int (lit "DisableIoMapper") (lit "Target") (lit (toString ((67 : Int)))) true (by decide) (by decide) (by decide) (qs12 doc) (qsil3_12 doc)

theorem qsil3_14 (doc : List Char) :
    SilentOn (findKeyBool (lit "DisableIoMapper") true) (qs14 doc) :=
  @silent_toggle_int (lit "DisableIoMapper") (lit "DisplayLevel") (lit (toString ((2147483714 : Int)))) true (by decide) (by decide) (by decide) (qs13 doc) (qsil3_13 doc)

theorem qsil3_15 (doc : List Char) :
    SilentOn (findKeyBool (lit "DisableIoMapper") true) (qs15 doc) :=
  @silent_toggle_int (lit "DisableIoMapper") (lit "DisplayDelay") (lit (toString ((0 : Int)))) true (by decide) (by decide) (by decide) (qs14 doc) (qsil3_14 doc)

theorem qsil3_16 (doc : List Char) :
    SilentOn (findKeyBool (lit "DisableIoMapper") true) (qs16 doc) :=
  by
  rw [qs16eq doc]
  exact @silent_toggle_int (lit "DisableIoMapper") (lit "ResizeAppleGpuBars") (lit (toString ((-1 : Int)))) true (by decide) (by decide) (by decide) (qs15 doc) (qsil3_15 doc)

theorem qsil4_4 (doc : List Char) :
    SilentOn (findKeyBool (lit "DevirtualiseMmio") true) (qs4 doc) :=
  @silent_toggle_toggle (lit "DevirtualiseMmio") (lit "DevirtualiseMmio") true true (by decide) (by decide) (fun _ => rfl) (qs3 doc) (fun n r ρ h => Or.inr h)

theorem qsil4_5 (doc : List Char) :
    SilentOn (findKeyBool (lit "DevirtualiseMmio") true) (qs5 doc) :=
  @silent_toggle_toggle (lit "DevirtualiseMmio") (lit "SetupVirtualMap") true true (by decide) (by decide) (fun h => absurd h (by decide)) (qs4 doc) (fun n r ρ h => Or.inl (qsil4_4 doc n r ρ h))

theorem qsil4_6 (doc : List Char) :
    SilentOn (findKeyBool (lit "DevirtualiseMmio") true) (qs6 doc) :=
  @silent_toggle_toggle (lit "DevirtualiseMmio") (lit "ProtectUefiServices") true true (by decide) (by decide) (fun h => absurd h (by decide)) (qs5 doc) (fun n r ρ h => Or.inl (qsil4_5 doc n r ρ h))

theorem qsil4_7 (doc : List Char) :
    SilentOn (findKeyBool (lit "DevirtualiseMmio") true) (qs7 doc) :=
  @silent_toggle_toggle (lit "DevirtualiseMmio") (lit "ProvideCustomSlide") true true (by decide) (by decide) (fun h => absurd h (by decide)) (qs6 doc) (fun n r ρ h => Or.inl (qsil4_6 doc n r ρ h))

theorem qsil4_8 (doc : List Char) :
    SilentOn (findKeyBool (lit "DevirtualiseMmio") true) (qs8 doc) :=
  @silent_toggle_int (lit "DevirtualiseMmio") (lit "ProvideMaxSlide") (lit (toString ((0 : Int)))) true (by decide) (by decide) (by decide) (qs7 doc) (qsil4_7 doc)

theorem qsil4_9 (doc : List Char) :
    SilentOn (findKeyBool (lit "DevirtualiseMmio") true) (qs9 doc) :=
  @silent_toggle_toggle (lit "DevirtualiseMmio") (lit "ReleaseUsbOwnership") true false (by decide) (by decide) (fun h => absurd h (by decide)) (qs8 doc) (fun n r ρ h => Or.inl (qsil4_8 doc n r ρ h))

theorem qsil4_10 (doc : List Char) :
    SilentOn (findKeyBool (lit "DevirtualiseMmio") true) (qs10 doc) :=
  @silent_toggle_toggle (lit "DevirtualiseMmio") (lit "RebuildAppleMemoryMap") true true (by decide) (by decide) (fun h => absurd h (by decide)) (qs9 doc) (fun n r ρ h => Or.inl (qsil4_9 doc n r ρ h))

theorem qsil4_11 (doc : List Char) :
    SilentOn (findKeyBool (lit "DevirtualiseMmio") true) (qs11 doc) :=
  @silent_toggle_toggle (lit "DevirtualiseMmio") (lit "SyncRuntimePermissions") true true (by decide) (by decide) (fun h => absurd h (by decide)) (qs10 doc) (fun n r ρ h => Or.inl (qsil4_10 doc n r ρ h))

theorem qsil4_12 (doc : List Char) :
    SilentOn (findKeyBool (lit "DevirtualiseMmio") true) (qs12 doc) :=
  @silent_toggle_toggle (lit "DevirtualiseMmio") (lit "EnableWriteUnprotector") true false (by decide) (by decide) (fun h => absurd h (by decide)) (qs11 doc) (fun n r ρ h => Or.inl (qsil4_11 doc n r ρ h))

theorem qsil4_13 (doc : List Char) :
    SilentOn (findKeyBool (lit "DevirtualiseMmio") true) (qs13 doc) :=
  @silent_toggle_int (lit "DevirtualiseMmio") (lit "Target") (lit (toString ((67 : Int)))) true (by decide) (by decide) (by decide) (qs12 doc) (qsil4_12 doc)

theorem qsil4_14 (doc : List Char) :
    SilentOn (findKeyBool (lit "DevirtualiseMmio") true) (qs14 doc) :=
  @silent_toggle_int (lit "DevirtualiseMmio") (lit "DisplayLevel") (lit (toString ((2147483714 : Int)))) true (by decide) (by decide) (by decide) (qs13 doc) (qsil4_13 doc)

theorem qsil4_15 (doc : List Char) :
    SilentOn (findKeyBool (lit "DevirtualiseMmio") true) (qs15 doc) :=
  @silent_toggle_int (lit "DevirtualiseMmio") (lit "DisplayDelay") (lit (toString ((0 : Int)))) true (by decide) (by decide) (by decide) (qs14 doc) (qsil4_14 doc)

theorem qsil4_16 (doc : List Char) :
    SilentOn (findKeyBool (lit "DevirtualiseMmio") true) (qs16 doc) :=
  by
  rw [qs16eq doc]
  exact @silent_toggle_int (lit "DevirtualiseMmio") (lit "ResizeAppleGpuBars") (lit (toString ((-1 : Int)))) true (by decide) (by decide) (by decide) (qs15 doc) (qsil4_15 doc)

theorem qsil5_5 (doc : List Char) :
    SilentOn (findKeyBool (lit "SetupVirtualMap") true) (qs5 doc) :=
  @silent_toggle_toggle (lit "SetupVirtualMap") (lit "SetupVirtualMap") true true (by decide) (by decide) (fun _ => rfl) (qs4 doc) (fun n r ρ h => Or.inr h)

theorem qsil5_6 (doc : List Char) :
    SilentOn (findKeyBool (lit "SetupVirtualMap") true) (qs6 doc) :=
  @silent_toggle_toggle (lit "SetupVirtualMap") (lit "ProtectUefiServices") true true (by decide) (by decide) (fun h => absurd h (by decide)) (qs5 doc) (fun n r ρ h => Or.inl (qsil5_5 doc n r ρ h))

theorem qsil5_7 (doc : List Char) :
    SilentOn (findKeyBool (lit "SetupVirtualMap") true) (qs7 doc) :=
  @silent_toggle_toggle (lit "SetupVirtualMap") (lit "ProvideCustomSlide") true true (by decide) (by decide) (fun h => absurd h (by decide)) (qs6 doc) (fun n r ρ h => Or.inl (qsil5_6 doc n r ρ h))

theorem qsil5_8 (doc : List Char) :
    SilentOn (findKeyBool (lit "SetupVirtualMap") true) (qs8 doc) :=
  @silent_toggle_int (lit "SetupVirtualMap") (lit "ProvideMaxSlide") (lit (toString ((0 : Int)))) true (by decide) (by decide) (by decide) (qs7 doc) (qsil5_7 doc)

theorem qsil5_9 (doc : List Char) :
    SilentOn (findKeyBool (lit "SetupVirtualMap") true) (qs9 doc) :=
  @silent_toggle_toggle (lit "SetupVirtualMap") (lit "ReleaseUsbOwnership") true false (by decide) (by decide) (fun h => absurd h (by decide)) (qs8 doc) (fun n r ρ h => Or.inl (qsil5_8 doc n r ρ h))

theorem qsil5_10 (doc : List Char) :
    SilentOn (findKeyBool (lit "SetupVirtualMap") true) (qs10 doc) :=
  @silent_toggle_toggle (lit "SetupVirtualMap") (lit "RebuildAppleMemoryMap") true true (by decide) (by decide) (fun h => absurd h (by decide)) (qs9 doc) (fun n r ρ h => Or.inl (qsil5_9 doc n r ρ h))

theorem qsil5_11 (doc : List Char) :
    SilentOn (findKeyBool (lit "SetupVirtualMap") true) (qs11 doc) :=
  @silent_toggle_toggle (lit "SetupVirtualMap") (lit "SyncRuntimePermissions") true true (by decide) (by decide) (fun h => absurd h (by decide)) (qs10 doc) (fun n r ρ h => Or.inl (qsil5_10 doc n r ρ h))

theorem qsil5_12 (doc : List Char) :
    SilentOn (findKeyBool (lit "SetupVirtualMap") true) (qs12 doc) :=
  @silent_toggle_toggle (lit "SetupVirtualMap") (lit "EnableWriteUnprotector") true false (by decide) (by decide) (fun h => absurd h (by decide)) (qs11 doc) (fun n r ρ h => Or.inl (qsil5_11 doc n r ρ h))

theorem qsil5_13 (doc : List Char) :
    SilentOn (findKeyBool (lit "SetupVirtualMap") true) (qs13 doc) :=
  @silent_toggle_int (lit "SetupVirtualMap") (lit "Target") (lit (toString ((67 : Int)))) true (by decide) (by decide) (by decide) (qs12 doc) (qsil5_12 doc)

theorem qsil5_14 (doc : List Char) :
    SilentOn (findKeyBool (lit "SetupVirtualMap") true) (qs14 doc) :=
  @silent_toggle_int (lit "SetupVirtualMap") (lit "DisplayLevel") (lit (toString ((2147483714 : Int)))) true (by decide) (by decide) (by decide) (qs13 doc) (qsil5_13 doc)

theorem qsil5_15 (doc : List Char) :
    SilentOn (findKeyBool (lit "SetupVirtualMap") true) (qs15 doc) :=
  @silent_toggle_int (lit "SetupVirtualMap") (lit "DisplayDelay") (lit (toString ((0 : Int)))) true (by decide) (by decide) (by decide) (qs14 doc) (qsil5_14 doc)

theorem qsil5_16 (doc : List Char) :
    SilentOn (findKeyBool (lit "SetupVirtualMap") true) (qs16 doc) :=
  by
  rw [qs16eq doc]
  exact @silent_toggle_int (lit "SetupVirtualMap") (lit "ResizeAppleGpuBars") (lit (toString ((-1 : Int)))) true (by decide) (by decide) (by decide) (qs15 doc) (qsil5_15 doc)

theorem qsil6_6 (doc : List Char) :
    SilentOn (findKeyBool (lit "ProtectUefiServices") true) (qs6 doc) :=
  @silent_toggle_toggle (lit "ProtectUefiServices") (lit "ProtectUefiServices") true true (by decide) (by decide) (fun _ => rfl) (qs5 doc) (fun n r ρ h => Or.inr h)

theorem qsil6_7 (doc : List Char) :
    SilentOn (findKeyBool (lit "ProtectUefiServices") true) (qs7 doc) :=
  @silent_toggle_toggle (lit "ProtectUefiServices") (lit "ProvideCustomSlide") true true (by decide) (by decide) (fun h => absurd h (by decide)) (qs6 doc) (fun n r ρ h => Or.inl (qsil6_6 doc n r ρ h))

theorem qsil6_8 (doc : List Char) :
    SilentOn (findKeyBool (lit "ProtectUefiServices") true) (qs8 doc) :=
  @silent_toggle_int (lit "ProtectUefiServices") (lit "ProvideMaxSlide") (lit (toString ((0 : Int)))) true (by decide) (by decide) (by decide) (qs7 doc) (qsil6_7 doc)

theorem qsil6_9 (doc : List Char) :
    SilentOn (findKeyBool (lit "ProtectUefiServices") true) (qs9 doc) :=
  @silent_toggle_toggle (lit "ProtectUefiServices") (lit "ReleaseUsbOwnership") true false (by decide) (by decide) (fun h => absurd h (by decide)) (qs8 doc) (fun n r ρ h => Or.inl (qsil6_8 doc n r ρ h))

theorem qsil6_10 (doc : List Char) :
    SilentOn (findKeyBool (lit "ProtectUefiServices") true) (qs10 doc) :=
  @silent_toggle_toggle (lit "ProtectUefiServices") (lit "RebuildAppleMemoryMap") true true (by decide) (by decide) (fun h => absurd h (by decide)) (qs9 doc) (fun n r ρ h => Or.inl (qsil6_9 doc n r ρ h))

theorem qsil6_11 (doc : List Char) :
    SilentOn (findKeyBool (lit "ProtectUefiServices") true) (qs11 doc) :=
  @silent_toggle_toggle (lit "ProtectUefiServices") (lit "SyncRuntimePermissions") true true (by decide) (by decide) (fun h => absurd h (by decide)) (qs10 doc) (fun n r ρ h => Or.inl (qsil6_10 doc n r ρ h))

theorem qsil6_12 (doc : List Char) :
    SilentOn (findKeyBool (lit "ProtectUefiServices") true) (qs12 doc) :=
  @silent_toggle_toggle (lit "ProtectUefiServices") (lit "EnableWriteUnprotector") true false (by decide) (by decide) (fun h => absurd h (by decide)) (qs11 doc) (fun n r ρ h => Or.inl (qsil6_11 doc n r ρ h))

theorem qsil6_13 (doc : List Char) :
    SilentOn (findKeyBool (lit "ProtectUefiServices") true) (qs13 doc) :=
  @silent_toggle_int (lit "ProtectUefiServices") (lit "Target") (lit (toString ((67 : Int)))) true (by decide) (by decide) (by decide) (qs12 doc) (qsil6_12 doc)

theorem qsil6_14 (doc : List Char) :
    SilentOn (findKeyBool (lit "ProtectUefiServices") true) (qs14 doc) :=
  @silent_toggle_int (lit "ProtectUefiServices") (lit "DisplayLevel") (lit (toString ((2147483714 : Int)))) true (by decide) (by decide) (by decide) (qs13 doc) (qsil6_13 doc)

theorem qsil6_15 (doc : List Char) :
    SilentOn (findKeyBool (lit "ProtectUefiServices") true) (qs15 doc) :=
  @silent_toggle_int (lit "ProtectUefiServices") (lit "DisplayDelay") (lit (toString ((0 : Int)))) true (by decide) (by decide) (by decide) (qs14 doc) (qsil6_14 doc)

theorem qsil6_16 (doc : List Char) :
    SilentOn (findKeyBool (lit "ProtectUefiServices") true) (qs16 doc) :=
  by
  rw [qs16eq doc]
  exact @silent_toggle_int (lit "ProtectUefiServices") (lit "ResizeAppleGpuBars") (lit (toString ((-1 : Int)))) true (by decide) (by decide) (by decide) (qs15 doc) (qsil6_15 doc)

theorem qsil7_7 (doc : List Char) :
    SilentOn (findKeyBool (lit "ProvideCustomSlide") true) (qs7 doc) :=
  @silent_toggle_toggle (lit "ProvideCustomSlide") (lit "ProvideCustomSlide") true true (by decide) (by decide) (fun _ => rfl) (qs6 doc) (fun n r ρ h => Or.inr h)

theorem qsil7_8 (doc : List Char) :
    SilentOn (findKeyBool (lit "ProvideCustomSlide") true) (qs8 doc) :=
  @silent_toggle_int (lit "ProvideCustomSlide") (lit "ProvideMaxSlide") (lit (toString ((0 : Int)))) true (by decide) (by decide) (by decide) (qs7 doc) (qsil7_7 doc)

theorem qsil7_9 (doc : List Char) :
    SilentOn (findKeyBool (lit "ProvideCustomSlide") true) (qs9 doc) :=
  @silent_toggle_toggle (lit "ProvideCustomSlide") (lit "ReleaseUsbOwnership") true false (by decide) (by decide) (fun h => absurd h (by decide)) (qs8 doc) (fun n r ρ h => Or.inl (qsil7_8 doc n r ρ h))

theorem qsil7_10 (doc : List Char) :
    SilentOn (findKeyBool (lit "ProvideCustomSlide") true) (qs10 doc) :=
  @silent_toggle_toggle (lit "ProvideCustomSlide") (lit "RebuildAppleMemoryMap") true true (by decide) (by decide) (fun h => absurd h (by decide)) (qs9 doc) (fun n r ρ h => Or.inl (qsil7_9 doc n r ρ h))

theorem qsil7_11 (doc : List Char) :
    SilentOn (findKeyBool (lit "ProvideCustomSlide") true) (qs11 doc) :=
  @silent_toggle_toggle (lit "ProvideCustomSlide") (lit "SyncRuntimePermissions") true true (by decide) (by decide) (fun h => absurd h (by decide)) (qs10 doc) (fun n r ρ h => Or.inl (qsil7_10 doc n r ρ h))

theorem qsil7_12 (doc : List Char) :
    SilentOn (findKeyBool (lit "ProvideCustomSlide") true) (qs12 doc) :=
  @silent_toggle_toggle (lit "ProvideCustomSlide") (lit "EnableWriteUnprotector") true false (by decide) (by decide) (fun h => absurd h (by decide)) (qs11 doc) (fun n r ρ h => Or.inl (qsil7_11 doc n r ρ h))

theorem qsil7_13 (doc : List Char) :
    SilentOn (findKeyBool (lit "ProvideCustomSlide") true) (qs13 doc) :=
  @silent_toggle_int (lit "ProvideCustomSlide") (lit "Target") (lit (toString ((67 : Int)))) true (by decide) (by decide) (by decide) (qs12 doc) (qsil7_12 doc)

theorem qsil7_14 (doc : List Char) :
    SilentOn (findKeyBool (lit "ProvideCustomSlide") true) (qs14 doc) :=
  @silent_toggle_int (lit "ProvideCustomSlide") (lit "DisplayLevel") (lit (toString ((2147483714 : Int)))) true (by decide) (by decide) (by decide) (qs13 doc) (qsil7_13 doc)

theorem qsil7_15 (doc : List Char) :
    SilentOn (findKeyBool (lit "ProvideCustomSlide") true) (qs15 doc) :=
  @silent_toggle_int (lit "ProvideCustomSlide") (lit "DisplayDelay") (lit (toString ((0 : Int)))) true (by decide) (by decide) (by decide) (qs14 doc) (qsil7_14 doc)

theorem qsil7_16 (doc : List Char) :
    SilentOn (findKeyBool (lit "ProvideCustomSlide") true) (qs16 doc) :=
  by
  rw [qs16eq doc]
  exact @silent_toggle_int (lit "ProvideCustomSlide") (lit "ResizeAppleGpuBars") (lit (toString ((-1 : Int)))) true (by decide) (by decide) (by decide) (qs15 doc) (qsil7_15 doc)

theorem qsil8_8 (doc : List Char) :
    SilentOn (findKeyTagged (lit "ProvideMaxSlide") (lit "<integer>") (lit "</integer>") (lit (toString ((0 : Int))))) (qs8 doc) :=
  @silent_int_int (lit "ProvideMaxSlide") (lit "ProvideMaxSlide") (lit (toString ((0 : Int)))) (lit (toString ((0 : Int)))) (by decide) (by decide) (by decide) (by decide) (by decide) (by decide) (fun _ => rfl) (qs7 doc) (fun n r ρ h => Or.inr h)

theorem qsil8_9 (doc : List Char) :
    SilentOn (findKeyTagged (lit "ProvideMaxSlide") (lit "<integer>") (lit "</integer>") (lit (toString ((0 : Int))))) (qs9 doc) :=
  @silent_int_toggle (lit "ProvideMaxSlide") (lit "ReleaseUsbOwnership") (lit (toString ((0 : Int)))) false (by decide) (by decide) (by decide) (by decide) (qs8 doc) (qsil8_8 doc)

theorem qsil8_10 (doc : List Char) :
    SilentOn (findKeyTagged (lit "ProvideMaxSlide") (lit "<integer>") (lit "</integer>") (lit (toString ((0 : Int))))) (qs10 doc) :=
  @silent_int_toggle (lit "ProvideMaxSlide") (lit "RebuildAppleMemoryMap") (lit (toString ((0 : Int)))) true (by decide) (by decide) (by decide) (by decide) (qs9 doc) (qsil8_9 doc)

theorem qsil8_11 (doc : List Char) :
    SilentOn (findKeyTagged (lit "ProvideMaxSlide") (lit "<integer>") (lit "</integer>") (lit (toString ((0 : Int))))) (qs11 doc) :=
  @silent_int_toggle (lit "ProvideMaxSlide") (lit "SyncRuntimePermissions") (lit (toString ((0 : Int)))) true (by decide) (by decide) (by decide) (by decide) (qs10 doc) (qsil8_10 doc)

theorem qsil8_12 (doc : List Char) :
    SilentOn (findKeyTagged (lit "ProvideMaxSlide") (lit "<integer>") (lit "</integer>") (lit (toString ((0 : Int))))) (qs12 doc) :=
  @silent_int_toggle (lit "ProvideMaxSlide") (lit "EnableWriteUnprotector") (lit (toString ((0 : Int)))) false (by decide) (by decide) (by decide) (by decide) (qs11 doc) (qsil8_11 doc)

theorem qsil8_13 (doc : List Char) :
    SilentOn (findKeyTagged (lit "ProvideMaxSlide") (lit "<integer>") (lit "</integer>") (lit (toString ((0 : Int))))) (qs13 doc) :=
  @silent_int_int (lit "ProvideMaxSlide") (lit "Target") (lit (toString ((0 : Int)))) (lit (toString ((67 : Int)))) (by decide) (by decide) (by decide) (by decide) (by decide) (by decide) (fun h => absurd h (by decide)) (qs12 doc) (fun n r ρ h => Or.inl (qsil8_12 doc n r ρ h))

theorem qsil8_14 (doc : List Char) :
    SilentOn (findKeyTagged (lit "ProvideMaxSlide") (lit "<integer>") (lit "</integer>") (lit (toString ((0 : Int))))) (qs14 doc) :=
  @silent_int_int (lit "ProvideMaxSlide") (lit "DisplayLevel") (lit (toString ((0 : Int)))) (lit (toString ((2147483714 : Int)))) (by decide) (by decide) (by decide) (by decide) (by decide) (by decide) (fun h => absurd h (by decide)) (qs13 doc) (fun n r ρ h => Or.inl (qsil8_13 doc n r ρ h))

theorem qsil8_15 (doc : List Char) :
    SilentOn (findKeyTagged (lit "ProvideMaxSlide") (lit "<integer>") (lit "</integer>") (lit (toString ((0 : Int))))) (qs15 doc) :=
  @silent_int_int (lit "ProvideMaxSlide") (lit "DisplayDelay") (lit (toString ((0 : Int)))) (lit (toString ((0 : Int)))) (by decide) (by decide) (by decide) (by decide) (by decide) (by decide) (fun h => absurd h (by decide)) (qs14 doc) (fun n r ρ h => Or.inl (qsil8_14 doc n r ρ h))

theorem qsil8_16 (doc : List Char) :
    SilentOn (findKeyTagged (lit "ProvideMaxSlide") (lit "<integer>") (lit "</integer>") (lit (toString ((0 : Int))))) (qs16 doc) :=
  by
  rw [qs16eq doc]
  exact @silent_int_int (lit "ProvideMaxSlide") (lit "ResizeAppleGpuBars") (lit (toString ((0 : Int)))) (lit (toString ((-1 : Int)))) (by decide) (by decide) (by decide) (by decide) (by decide) (by decide) (fun h => absurd h (by decide)) (qs15 doc) (fun n r ρ h => Or.inl (qsil8_15 doc n r ρ h))

theorem qsil9_9 (doc : List Char) :
    SilentOn (findKeyBool (lit "ReleaseUsbOwnership") false) (qs9 doc) :=
  @silent_toggle_toggle (lit "ReleaseUsbOwnership") (lit "ReleaseUsbOwnership") false false (by decide) (by decide) (fun _ => rfl) (qs8 doc) (fun n r ρ h => Or.inr h)

theorem qsil9_10 (doc : List Char) :
    SilentOn (findKeyBool (lit "ReleaseUsbOwnership") false) (qs10 doc) :=
  @silent_toggle_toggle (lit "ReleaseUsbOwnership") (lit "RebuildAppleMemoryMap") false true (by decide) (by decide) (fun h => absurd h (by decide)) (qs9 doc) (fun n r ρ h => Or.inl (qsil9_9 doc n r ρ h))

theorem qsil9_11 (doc : List Char) :
    SilentOn (findKeyBool (lit "ReleaseUsbOwnership") false) (qs11 doc) :=
  @silent_toggle_toggle (lit "ReleaseUsbOwnership") (lit "SyncRuntimePermissions") false true (by decide) (by decide) (fun h => absurd h (by decide)) (qs10 doc) (fun n r ρ h => Or.inl (qsil9_10 doc n r ρ h))

theorem qsil9_12 (doc : List Char) :
    SilentOn (findKeyBool (lit "ReleaseUsbOwnership") false) (qs12 doc) :=
  @silent_toggle_toggle (lit "ReleaseUsbOwnership") (lit "EnableWriteUnprotector") false false (by decide) (by decide) (fun h => absurd h (by decide)) (qs11 doc) (fun n r ρ h => Or.inl (qsil9_11 doc n r ρ h))

theorem qsil9_13 (doc : List Char) :
    SilentOn (findKeyBool (lit "ReleaseUsbOwnership") false) (qs13 doc) :=
  @silent_toggle_int (lit "ReleaseUsbOwnership") (lit "Target") (lit (toString ((67 : Int)))) false (by decide) (by decide) (by decide) (qs12 doc) (qsil9_12 doc)

theorem qsil9_14 (doc : List Char) :
    SilentOn (findKeyBool (lit "ReleaseUsbOwnership") false) (qs14 doc) :=
  @silent_toggle_int (lit "ReleaseUsbOwnership") (lit "DisplayLevel") (lit (toString ((2147483714 : Int)))) false (by decide) (by decide) (by decide) (qs13 doc) (qsil9_13 doc)

theorem qsil9_15 (doc : List Char) :
    SilentOn (findKeyBool (lit "ReleaseUsbOwnership") false) (qs15 doc) :=
  @silent_toggle_int (lit "ReleaseUsbOwnership") (lit "DisplayDelay") (lit (toString ((0 : Int)))) false (by decide) (by decide) (by decide) (qs14 doc) (qsil9_14 doc)

theorem qsil9_16 (doc : List Char) :
    SilentOn (findKeyBool (lit "ReleaseUsbOwnership") false) (qs16 doc) :=
  by
  rw [qs16eq doc]
  exact @silent_toggle_int (lit "ReleaseUsbOwnership") (lit "ResizeAppleGpuBars") (lit (toString ((-1 : Int)))) false (by decide) (by decide) (by decide) (qs15 doc) (qsil9_15 doc)

theorem qsil10_10 (doc : List Char) :
    SilentOn (findKeyBool (lit "RebuildAppleMemoryMap") true) (qs10 doc) :=
  @silent_toggle_toggle (lit "RebuildAppleMemoryMap") (lit "RebuildAppleMemoryMap") true true (by decide) (by decide) (fun _ => rfl) (qs9 doc) (fun n r ρ h => Or.inr h)

theorem qsil10_11 (doc : List Char) :
    SilentOn (findKeyBool (lit "RebuildAppleMemoryMap") true) (qs11 doc) :=
  @silent_toggle_toggle (lit "RebuildAppleMemoryMap") (lit "SyncRuntimePermissions") true true (by decide) (by decide) (fun h => absurd h (by decide)) (qs10 doc) (fun n r ρ h => Or.inl (qsil10_10 doc n r ρ h))

theorem qsil10_12 (doc : List Char) :
    SilentOn (findKeyBool (lit "RebuildAppleMemoryMap") true) (qs12 doc) :=
  @silent_toggle_toggle (lit "RebuildAppleMemoryMap") (lit "EnableWriteUnprotector") true false (by decide) (by decide) (fun h => absurd h (by decide)) (qs11 doc) (fun n r ρ h => Or.inl (qsil10_11 doc n r ρ h))

theorem qsil10_13 (doc : List Char) :
    SilentOn (findKeyBool (lit "RebuildAppleMemoryMap") true) (qs13 doc) :=
  @silent_toggle_int (lit "RebuildAppleMemoryMap") (lit "Target") (lit (toString ((67 : Int)))) true (by decide) (by decide) (by decide) (qs12 doc) (qsil10_12 doc)

theorem qsil10_14 (doc : List Char) :
    SilentOn (findKeyBool (lit "RebuildAppleMemoryMap") true) (qs14 doc) :=
  @silent_toggle_int (lit "RebuildAppleMemoryMap") (lit "DisplayLevel") (lit (toString ((2147483714 : Int)))) true (by decide) (by decide) (by decide) (qs13 doc) (qsil10_13 doc)

theorem qsil10_15 (doc : List Char) :
    SilentOn (findKeyBool (lit "RebuildAppleMemoryMap") true) (qs15 doc) :=
  @silent_toggle_int (lit "RebuildAppleMemoryMap") (lit "DisplayDelay") (lit (toString ((0 : Int)))) true (by decide) (by decide) (by decide) (qs14 doc) (qsil10_14 doc)

theorem qsil10_16 (doc : List Char) :
    SilentOn (findKeyBool (lit "RebuildAppleMemoryMap") true) (qs16 doc) :=
  by
  rw [qs16eq doc]
  exact @silent_toggle_int (lit "RebuildAppleMemoryMap") (lit "ResizeAppleGpuBars") (lit (toString ((-1 : Int)))) true (by decide) (by decide) (by decide) (qs15 doc) (qsil10_15 doc)

theorem qsil11_11 (doc : List Char) :
    SilentOn (findKeyBool (lit "SyncRuntimePermissions") true) (qs11 doc) :=
  @silent_toggle_toggle (lit "SyncRuntimePermissions") (lit "SyncRuntimePermissions") true true (by decide) (by decide) (fun _ => rfl) (qs10 doc) (fun n r ρ h => Or.inr h)

theorem qsil11_12 (doc : List Char) :
    SilentOn (findKeyBool (lit "SyncRuntimePermissions") true) (qs12 doc) :=
  @silent_toggle_toggle (lit "SyncRuntimePermissions") (lit "EnableWriteUnprotector") true false (by decide) (by decide) (fun h => absurd h (by decide)) (qs11 doc) (fun n r ρ h => Or.inl (qsil11_11 doc n r ρ h))

theorem qsil11_13 (doc : List Char) :
    SilentOn (findKeyBool (lit "SyncRuntimePermissions") true) (qs13 doc) :=
  @silent_toggle_int (lit "SyncRuntimePermissions") (lit "Target") (lit (toString ((67 : Int)))) true (by decide) (by decide) (by decide) (qs12 doc) (qsil11_12 doc)

theorem qsil11_14 (doc : List Char) :
    SilentOn (findKeyBool (lit "SyncRuntimePermissions") true) (qs14 doc) :=
  @silent_toggle_int (lit "SyncRuntimePermissions") (lit "DisplayLevel") (lit (toString ((2147483714 : Int)))) true (by decide) (by decide) (by decide) (qs13 doc) (qsil11_13 doc)

theorem qsil11_15 (doc : List Char) :
    SilentOn (findKeyBool (lit "SyncRuntimePermissions") true) (qs15 doc) :=
  @silent_toggle_int (lit "SyncRuntimePermissions") (lit "DisplayDelay") (lit (toString ((0 : Int)))) true (by decide) (by decide) (by decide) (qs14 doc) (qsil11_14 doc)

theorem qsil11_16 (doc : List Char) :
    SilentOn (findKeyBool (lit "SyncRuntimePermissions") true) (qs16 doc) :=
  by
  rw [qs16eq doc]
  exact @silent_toggle_int (lit "SyncRuntimePermissions") (lit "ResizeAppleGpuBars") (lit (toString ((-1 : Int)))) true (by decide) (by decide) (by decide) (qs15 doc) (qsil11_15 doc)

theorem qsil12_12 (doc : List Char) :
    SilentOn (findKeyBool (lit "EnableWriteUnprotector") false) (qs12 doc) :=
  @silent_toggle_toggle (lit "EnableWriteUnprotector") (lit "EnableWriteUnprotector") false false (by decide) (by decide) (fun _ => rfl) (qs11 doc) (fun n r ρ h => Or.inr h)

theorem qsil12_13 (doc : List Char) :
    SilentOn (findKeyBool (lit "EnableWriteUnprotector") false) (qs13 doc) :=
  @silent_toggle_int (lit "EnableWriteUnprotector") (lit "Target") (lit (toString ((67 : Int)))) false (by decide) (by decide) (by decide) (qs12 doc) (qsil12_12 doc)

theorem qsil12_14 (doc : List Char) :
    SilentOn (findKeyBool (lit "EnableWriteUnprotector") false) (qs14 doc) :=
  @silent_toggle_int (lit "EnableWriteUnprotector") (lit "DisplayLevel") (lit (toString ((2147483714 : Int)))) false (by decide) (by decide) (by decide) (qs13 doc) (qsil12_13 doc)

theorem qsil12_15 (doc : List Char) :
    SilentOn (findKeyBool (lit "EnableWriteUnprotector") false) (qs15 doc) :=
  @silent_toggle_int (lit "EnableWriteUnprotector") (lit "DisplayDelay") (lit (toString ((0 : Int)))) false (by decide) (by decide) (by decide) (qs14 doc) (qsil12_14 doc)

theorem qsil12_16 (doc : List Char) :
    SilentOn (findKeyBool (lit "EnableWriteUnprotector") false) (qs16 doc) :=
  by
  rw [qs16eq doc]
  exact @silent_toggle_int (lit "EnableWriteUnprotector") (lit "ResizeAppleGpuBars") (lit (toString ((-1 : Int)))) false (by decide) (by decide) (by decide) (qs15 doc) (qsil12_15 doc)

theorem qsil13_13 (doc : List Char) :
    SilentOn (findKeyTagged (lit "Target") (lit "<integer>") (lit "</integer>") (lit (toString ((67 : Int))))) (qs13 doc) :=
  @silent_int_int (lit "Target") (lit "Target") (lit (toString ((67 : Int)))) (lit (toString ((67 : Int)))) (by decide) (by decide) (by decide) (by decide) (by decide) (by decide) (fun _ => rfl) (qs12 doc) (fun n r ρ h => Or.inr h)

theorem qsil13_14 (doc : List Char) :
    SilentOn (findKeyTagged (lit "Target") (lit "<integer>") (lit "</integer>") (lit (toString ((67 : Int))))) (qs14 doc) :=
  @silent_int_int (lit "Target") (lit "DisplayLevel") (lit (toString ((67 : Int)))) (lit (toString ((2147483714 : Int)))) (by decide) (by decide) (by decide) (by decide) (by decide) (by decide) (fun h => absurd h (by decide)) (qs13 doc) (fun n r ρ h => Or.inl (qsil13_13 doc n r ρ h))

theorem qsil13_15 (doc : List Char) :
    SilentOn (findKeyTagged (lit "Target") (lit "<integer>") (lit "</integer>") (lit (toString ((67 : Int))))) (qs15 doc) :=
  @silent_int_int (lit "Target") (lit "DisplayDelay") (lit (toString ((67 : Int)))) (lit (toString ((0 : Int)))) (by decide) (by decide) (by decide) (by decide) (by decide) (by decide) (fun h => absurd h (by decide)) (qs14 doc) (fun n r ρ h => Or.inl (qsil13_14 doc n r ρ h))

theorem qsil13_16 (doc : List Char) :
    SilentOn (findKeyTagged (lit "Target") (lit "<integer>") (lit "</integer>") (lit (toString ((67 : Int))))) (qs16 doc) :=
  by
  rw [qs16eq doc]
  exact @silent_int_int (lit "Target") (lit "ResizeAppleGpuBars") (lit (toString ((67 : Int)))) (lit (toString ((-1 : Int)))) (by decide) (by decide) (by decide) (by decide) (by decide) (by decide) (fun h => absurd h (by decide)) (qs15 doc) (fun n r ρ h => Or.inl (qsil13_15 doc n r ρ h))

theorem qsil14_14 (doc : List Char) :
    SilentOn (findKeyTagged (lit "DisplayLevel") (lit "<integer>") (lit "</integer>") (lit (toString ((2147483714 : Int))))) (qs14 doc) :=
  @silent_int_int (lit "DisplayLevel") (lit "DisplayLevel") (lit (toString ((2147483714 : Int)))) (lit (toString ((2147483714 : Int)))) (by decide) (by decide) (by decide) (by decide) (by decide) (by decide) (fun _ => rfl) (qs13 doc) (fun n r ρ h => Or.inr h)

theorem qsil14_15 (doc : List Char) :
    SilentOn (findKeyTagged (lit "DisplayLevel") (lit "<integer>") (lit "</integer>") (lit (toString ((2147483714 : Int))))) (qs15 doc) :=
  @silent_int_int (lit "DisplayLevel") (lit "DisplayDelay") (lit (toString ((2147483714 : Int)))) (lit (toString ((0 : Int)))) (by decide) (by decide) (by decide) (by decide) (by decide) (by decide) (fun h => absurd h (by decide)) (qs14 doc) (fun n r ρ h => Or.inl (qsil14_14 doc n r ρ h))

theorem qsil14_16 (doc : List Char) :
    SilentOn (findKeyTagged (lit "DisplayLevel") (lit "<integer>") (lit "</integer>") (lit (toString ((2147483714 : Int))))) (qs16 doc) :=
  by
  rw [qs16eq doc]
  exact @silent_int_int (lit "DisplayLevel") (lit "ResizeAppleGpuBars") (lit (toString ((2147483714 : Int)))) (lit (toString ((-1 : Int)))) (by decide) (by decide) (by decide) (by decide) (by decide) (by decide) (fun h => absurd h (by decide)) (qs15 doc) (fun n r ρ h => Or.inl (qsil14_15 doc n r ρ h))

theorem qsil15_15 (doc : List Char) :
    SilentOn (findKeyTagged (lit "DisplayDelay") (lit "<integer>") (lit "</integer>") (lit (toString ((0 : Int))))) (qs15 doc) :=
  @silent_int_int (lit "DisplayDelay") (lit "DisplayDelay") (lit (toString ((0 : Int)))) (lit (toString ((0 : Int)))) (by decide) (by decide) (by decide) (by decide) (by decide) (by decide) (fun _ => rfl) (qs14 doc) (fun n r ρ h => Or.inr h)

theorem qsil15_16 (doc : List Char) :
    SilentOn (findKeyTagged (lit "DisplayDelay") (lit "<integer>") (lit "</integer>") (lit (toString ((0 : Int))))) (qs16 doc) :=
  by
  rw [qs16eq doc]
  exact @silent_int_int (lit "DisplayDelay") (lit "ResizeAppleGpuBars") (lit (toString ((0 : Int)))) (lit (toString ((-1 : Int)))) (by decide) (by decide) (by decide) (by decide) (by decide) (by decide) (fun h => absurd h (by decide)) (qs15 doc) (fun n r ρ h => Or.inl (qsil15_15 doc n r ρ h))

theorem qsil16_16 (doc : List Char) :
    SilentOn (findKeyTagged (lit "ResizeAppleGpuBars") (lit "<integer>") (lit "</integer>") (lit (toString ((-1 : Int))))) (qs16 doc) :=
  by
  rw [qs16eq doc]
  exact @silent_int_int (lit "ResizeAppleGpuBars") (lit "ResizeAppleGpuBars") (lit (toString ((-1 : Int)))) (lit (toString ((-1 : Int)))) (by decide) (by decide) (by decide) (by decide) (by decide) (by decide) (fun _ => rfl) (qs15 doc) (fun n r ρ h => Or.inr h)

theorem quirkEnforce_eq_qs16 (doc : List Char) :
    quirkEnforce doc = qs16 doc := rfl

/-- C5: `quirkEnforce` is idempotent — applying the sixteen quirk
rewrites a second time to an already-enforced document changes no byte:
each matcher only matches spans it would rewrite back to themselves. -/
theorem C5_quirk_idempotent (doc : List Char) :
    quirkEnforce (quirkEnforce doc) = quirkEnforce doc := by
  have h1 : toggleBool (lit "AppleXcpmCfgLock") true (qs16 doc) = qs16 doc :=
    @applyRule_id_of_silent (findKeyBool (lit "AppleXcpmCfgLock") true) (findKeyBool_consuming (lit "AppleXcpmCfgLock") true) true (qs16 doc) (qsil1_16 doc)
  have h2 : toggleBool (lit "AppleCpuPmCfgLock") false (qs16 doc) = qs16 doc :=
    @applyRule_id_of_silent (findKeyBool (lit "AppleCpuPmCfgLock") false) (findKeyBool_consuming (lit "AppleCpuPmCfgLock") false) true (qs16 doc) (qsil2_16 doc)
  have h3 : toggleBool (lit "DisableIoMapper") true (qs16 doc) = qs16 doc :=
    @applyRule_id_of_silent (findKeyBool (lit "DisableIoMapper") true) (findKeyBool_consuming (lit "DisableIoMapper") true) true (qs16 doc) (qsil3_16 doc)
  have h4 : toggleBool (lit "DevirtualiseMmio") true (qs16 doc) = qs16 doc :=
    @applyRule_id_of_silent (findKeyBool (lit "DevirtualiseMmio") true) (findKeyBool_consuming (lit "DevirtualiseMmio") true) true (qs16 doc) (qsil4_16 doc)
  have h5 : toggleBool (lit "SetupVirtualMap") true (qs16 doc) = qs16 doc :=
    @applyRule_id_of_silent (findKeyBool (lit "SetupVirtualMap") true) (findKeyBool_consuming (lit "SetupVirtualMap") true) true (qs16 doc) (qsil5_16 doc)
  have h6 : toggleBool (lit "ProtectUefiServices") true (qs16 doc) = qs16 doc :=
    @applyRule_id_of_silent (findKeyBool (lit "ProtectUefiServices") true) (findKeyBool_consuming (lit "ProtectUefiServices") true) true (qs16 doc) (qsil6_16 doc)
  have h7 : toggleBool (lit "ProvideCustomSlide") true (qs16 doc) = qs16 doc :=
    @applyRule_id_of_silent (findKeyBool (lit "ProvideCustomSlide") true) (findKeyBool_consuming (lit "ProvideCustomSlide") true) true (qs16 doc) (qsil7_16 doc)
  have h8 : setInteger (lit "ProvideMaxSlide") (0 : Int) (qs16 doc) = qs16 doc :=
    @applyRule_id_of_silent (findKeyTagged (lit "ProvideMaxSlide") (lit "<integer>") (lit "</integer>") (lit (toString ((0 : Int))))) (findKeyTagged_consuming (lit "ProvideMaxSlide") (lit "<integer>") (lit "</integer>") (lit (toString ((0 : Int))))) true (qs16 doc) (qsil8_16 doc)
  have h9 : toggleBool (lit "ReleaseUsbOwnership") false (qs16 doc) = qs16 doc :=
    @applyRule_id_of_silent (findKeyBool (lit "ReleaseUsbOwnership") false) (findKeyBool_consuming (lit "ReleaseUsbOwnership") false) true (qs16 doc) (qsil9_16 doc)
  have h10 : toggleBool (lit "RebuildAppleMemoryMap") true (qs16 doc) = qs16 doc :=
    @applyRule_id_of_silent (findKeyBool (lit "RebuildAppleMemoryMap") true) (findKeyBool_consuming (lit "RebuildAppleMemoryMap") true) true (qs16 doc) (qsil10_16 doc)
  have h11 : toggleBool (lit "SyncRuntimePermissions") true (qs16 doc) = qs16 doc :=
    @applyRule_id_of_silent (findKeyBool (lit "SyncRuntimePermissions") true) (findKeyBool_consuming (lit "SyncRuntimePermissions") true) true (qs16 doc) (qsil11_16 doc)
  have h12 : toggleBool (lit "EnableWriteUnprotector") false (qs16 doc) = qs16 doc :=
    @applyRule_id_of_silent (findKeyBool (lit "EnableWriteUnprotector") false) (findKeyBool_consuming (lit "EnableWriteUnprotector") false) true (qs16 doc) (qsil12_16 doc)
  have h13 : setInteger (lit "Target") (67 : Int) (qs16 doc) = qs16 doc :=
    @applyRule_id_of_silent (findKeyTagged (lit "Target") (lit "<integer>") (lit "</integer>") (lit (toString ((67 : Int))))) (findKeyTagged_consuming (lit "Target") (lit "<integer>") (lit "</integer>") (lit (toString ((67 : Int))))) true (qs16 doc) (qsil13_16 doc)
  have h14 : setInteger (lit "DisplayLevel") (2147483714 : Int) (qs16 doc) = qs16 doc :=
    @applyRule_id_of_silent (findKeyTagged (lit "DisplayLevel") (lit "<integer>") (lit "</integer>") (lit (toString ((2147483714 : Int))))) (findKeyTagged_consuming (lit "DisplayLevel") (lit "<integer>") (lit "</integer>") (lit (toString ((2147483714 : Int))))) true (qs16 doc) (qsil14_16 doc)
  have h15 : setInteger (lit "DisplayDelay") (0 : Int) (qs16 doc) = qs16 doc :=
    @applyRule_id_of_silent (findKeyTagged (lit "DisplayDelay") (lit "<integer>") (lit "</integer>") (lit (toString ((0 : Int))))) (findKeyTagged_consuming (lit "DisplayDelay") (lit "<integer>") (lit "</integer>") (lit (toString ((0 : Int))))) true (qs16 doc) (qsil15_16 doc)
  have h16 : setInteger (lit "ResizeAppleGpuBars") (-1 : Int) (qs16 doc) = qs16 doc :=
    @applyRule_id_of_silent (findKeyTagged (lit "ResizeAppleGpuBars") (lit "<integer>") (lit "</integer>") (lit (toString ((-1 : Int))))) (findKeyTagged_consuming (lit "ResizeAppleGpuBars") (lit "<integer>") (lit "</integer>") (lit (toString ((-1 : Int))))) true (qs16 doc) (qsil16_16 doc)
  rw [quirkEnforce_eq_qs16 doc]
  simp only [quirkEnforce]
  rw [h1, h2, h3, h4, h5, h6, h7, h8, h9, h10, h11, h12, h13,
    h14, h15, h16]
end SurfacePatch
